import Mathlib

/-!
# lessbaseDNN: tensors, autograd ordering, layers and optimizers

A shallow embedding of the C sources.

* Tensors live in a heap (a list of tensor records); a `Tensor *` is an index into
  the heap and `NULL` is `none`.
* `float` values are elements of an arbitrary ordered field (arithmetic is exact).
* `for (size_t i = 0; i < n; i++)` loops are `for_loop`; a read through a dangling
  pointer or past the end of an array makes the function return `none`.
-/

/-! ## Data model -/

/-- A tensor address. The C null pointer is `none` in `Option Ptr`. -/
abbrev Ptr := Nat

/-- Modelled from the spec: the operation tag of a tensor (`none` for leaves). The enum
itself is declared in tensor.h, which is not among the sources; the tags listed are the
ones whose backward functions tensor.c declares. -/
inductive OpType where
  | OP_NONE
  | OP_ADD
  | OP_SUB
  | OP_MUL
  | OP_MATMUL
  | OP_TRANSPOSE
deriving DecidableEq, Repr

/-- The `Tensor` struct, with the fields that `tensor_create` initialises.
`backward_fn` and `extra_data` are opaque addresses. -/
structure Tensor (α : Type) where
  ndim : Nat
  shape : List Nat
  size : Nat
  data : List α
  grad : Option (List α)
  requires_grad : Int
  op : OpType
  inputs : Option (List (Option Ptr))
  num_inputs : Nat
  backward_fn : Option Nat
  extra_data : Option Nat
deriving DecidableEq, Repr

/-- The heap of tensors: `heap[p]?` is the tensor that address `p` points to. -/
abbrev Heap (α : Type) := List (Tensor α)

/-! ## Loops -/

/-- Runs `body i`, `body (i+1)`, ... for `k` iterations, threading the state; stops with
`none` as soon as one iteration faults. -/
def for_loop_from {σ : Type} (body : Nat → σ → Option σ) : Nat → Nat → σ → Option σ
  | 0, _, s => some s
  | k + 1, i, s => (body i s).bind (for_loop_from body k (i + 1))

/-- The C loop `for (size_t i = 0; i < n; i++) body`. -/
def for_loop {σ : Type} (n : Nat) (body : Nat → σ → Option σ) (s : σ) : Option σ :=
  for_loop_from body n 0 s

namespace Trebuchet

/-! ## src/src/tensor.c: autograd helpers -/

/-- The two output arrays of `topological_sort_util` with their counters:
`visited[0 .. visited_count)` and `stack[0 .. stack_count)`. -/
structure SortState where
  visited : List Ptr
  stack : List Ptr
deriving DecidableEq, Repr

/-- The block `if (T->inputs) { for (i < T->num_inputs) ... }` of `topological_sort_util`:
each non-null input whose `requires_grad` is set is handed to `recurse`, the recursive
call. A read past the end of the `inputs` array or through a dangling input pointer
gives `none`. -/
def visit_inputs {α : Type} (recurse : Ptr → SortState → Option SortState) (heap : Heap α)
    (t : Tensor α) (st : SortState) : Option SortState :=
  match t.inputs with
  | none => some st
  | some inputs =>
    for_loop t.num_inputs (fun i s =>
      match inputs[i]? with
      | none => none
      | some none => some s
      | some (some I) =>
        match heap[I]? with
        | none => none
        | some ti => if ti.requires_grad ≠ 0 then recurse I s else some s) st

/-- The function `topological_sort_util` of tensor.c. The first `Nat` bounds the recursion
depth: `none` is returned when it is exhausted, when `T` or an input pointer that is
dereferenced is dangling, or when the `inputs` array is shorter than `num_inputs`.
The scan of `visited[0 .. visited_count)` for `T` is the membership test. -/
def topological_sort_util {α : Type} (heap : Heap α) (max_size : Nat) :
    Nat → Ptr → SortState → Option SortState
  | 0, _, _ => none
  | fuel + 1, T, st =>
    if T ∈ st.visited then some st
    else
      match heap[T]? with
      | none => none
      | some t =>
        (visit_inputs (topological_sort_util heap max_size fuel) heap t
            { st with visited := st.visited ++ [T] }).map
          (fun s =>
            if s.stack.length < max_size then { s with stack := s.stack ++ [T] } else s)

/-- The function `tensor_backward` of tensor.c: its body is empty, so the heap it is given
is the heap it leaves. -/
def tensor_backward {α : Type} (heap : Heap α) (_T : Option Ptr) : Heap α := heap

/-- A leaf tensor holding one value. -/
def scalar_leaf (x : ℚ) (requires_grad : Int) : Tensor ℚ :=
  { ndim := 1, shape := [1], size := 1, data := [x], grad := none,
    requires_grad := requires_grad, op := OpType.OP_NONE, inputs := none, num_inputs := 0,
    backward_fn := none, extra_data := none }

/-- A derived tensor holding one value, produced by `op` from two inputs. -/
def scalar_node (x : ℚ) (op : OpType) (a b : Ptr) : Tensor ℚ :=
  { ndim := 1, shape := [1], size := 1, data := [x], grad := none,
    requires_grad := 1, op := op, inputs := some [some a, some b], num_inputs := 2,
    backward_fn := none, extra_data := none }

/-- A diamond: `X` (address 0) feeds `A = X * C1` (address 3) and `B = X * C2` (address 4),
which both feed `R = A + B` (address 5). With `C1 = 2` and `C2 = 5` the two branch-local
gradients of `X` are `2` and `5`. -/
def diamond : Heap ℚ :=
  [ scalar_leaf 3 1, scalar_leaf 2 0, scalar_leaf 5 0,
    scalar_node 6 OpType.OP_MUL 0 1, scalar_node 15 OpType.OP_MUL 0 2,
    scalar_node 21 OpType.OP_ADD 3 4 ]

/-- `I` is a non-null input of `T` (one of `T->inputs[0 .. num_inputs)`): `T` was computed
from `I`, so `T` is a consumer of `I` and `I` a producer of `T`. -/
def InputRef {α : Type} (heap : Heap α) (I T : Ptr) : Prop :=
  ∃ t inputs i, heap[T]? = some t ∧ t.inputs = some inputs ∧ i < t.num_inputs ∧
    inputs[i]? = some (some I)

/-- `I` is a non-null input of `T` whose `requires_grad` is set: the inputs that
`topological_sort_util` descends into. -/
def RgInput {α : Type} (heap : Heap α) (I T : Ptr) : Prop :=
  InputRef heap I T ∧ ∃ ti, heap[I]? = some ti ∧ ti.requires_grad ≠ 0

/-- The tensor graph is acyclic: no tensor reaches itself by following input references. -/
def Acyclic {α : Type} (heap : Heap α) : Prop :=
  ∀ T, ¬ Relation.TransGen (InputRef heap) T T

/-- Every tensor with an `inputs` array has at least `num_inputs` entries in it, and every
non-null entry points into the heap. -/
def WellFormed {α : Type} (heap : Heap α) : Prop :=
  ∀ (T : Ptr) (t : Tensor α) (inputs : List (Option Ptr)),
    heap[T]? = some t → t.inputs = some inputs →
      t.num_inputs ≤ inputs.length ∧
      ∀ (i : Nat) (I : Ptr), i < t.num_inputs → inputs[i]? = some (some I) → I < heap.length

/-- In the stack, `a` was pushed before `b`: both are there and `a` sits at a lower index. -/
def PushedBefore (stack : List Ptr) (a b : Ptr) : Prop :=
  a ∈ stack ∧ b ∈ stack ∧ stack.indexOf a < stack.indexOf b

instance (stack : List Ptr) (a b : Ptr) : Decidable (PushedBefore stack a b) := by
  unfold PushedBefore; infer_instance

/-- The stack respects the graph: every tensor in it was pushed after each of its
non-null `requires_grad` inputs (producers before consumers). -/
def ProducersFirst {α : Type} (heap : Heap α) (stack : List Ptr) : Prop :=
  ∀ U ∈ stack, ∀ I, RgInput heap I U → PushedBefore stack I U

/-- The order as the claim words it: every tensor in the stack was pushed before each of
its non-null `requires_grad` inputs that is in the stack (consumers before producers). -/
def ConsumersFirst {α : Type} (heap : Heap α) (stack : List Ptr) : Prop :=
  ∀ U ∈ stack, ∀ I ∈ stack, RgInput heap I U → PushedBefore stack U I

/-- Bookkeeping invariant of the two arrays: the stack holds visited tensors only, neither
array holds a tensor twice, and every visited address is in the heap. -/
structure SortInv {α : Type} (heap : Heap α) (st : SortState) : Prop where
  stack_sub : ∀ x ∈ st.stack, x ∈ st.visited
  stack_nodup : st.stack.Nodup
  visited_nodup : st.visited.Nodup
  visited_valid : ∀ x ∈ st.visited, x < heap.length

/-- How a call changes the arrays: both only grow at the end, what is pushed was not
visited before the call, and a tensor that is visited but not pushed at the end was
already so at the start (the call pushes everything it visits). -/
structure SortExt (st st2 : SortState) : Prop where
  visited_ext : ∃ more, st2.visited = st.visited ++ more
  stack_ext : ∃ more, st2.stack = st.stack ++ more ∧ ∀ x ∈ more, x ∉ st.visited
  gray : ∀ x, x ∈ st2.visited → x ∉ st2.stack → x ∈ st.visited ∧ x ∉ st.stack

/-- A two-tensor chain: the leaf `X` (address 0, `requires_grad` set) is the only input of
`R` (address 1). -/
def chain : Heap ℚ :=
  [ scalar_leaf 3 1,
    { scalar_leaf 6 1 with op := OpType.OP_TRANSPOSE, inputs := some [some 0],
                           num_inputs := 1 } ]

end Trebuchet

/-! ## Heap access -/

/-- Reads `p->data[j]`. -/
def read_data {α : Type} (heap : Heap α) (p : Ptr) (j : Nat) : Option α :=
  match heap[p]? with
  | none => none
  | some t => t.data[j]?

/-- Reads `p->grad[j]`. -/
def read_grad {α : Type} (heap : Heap α) (p : Ptr) (j : Nat) : Option α :=
  match heap[p]? with
  | none => none
  | some t =>
    match t.grad with
    | none => none
    | some g => g[j]?

/-- The assignment `p->data[j] = x`. -/
def write_data {α : Type} (heap : Heap α) (p : Ptr) (j : Nat) (x : α) : Option (Heap α) :=
  match heap[p]? with
  | none => none
  | some t =>
    if j < t.data.length then some (heap.set p { t with data := t.data.set j x }) else none

namespace Core

/-! ## core: what the sources take from outside

The files core/src/tensor.c, core/src/ops.c and core/src/registry.c are not among the
sources. Allocation is taken to succeed: a constructor returns the address of the tensor it
appends to the heap. -/

/-- The values that the code obtains from outside the program text: the contents of freshly
allocated memory, the Gaussian samples drawn by `tensor_randn` for a seed, and `sqrtf`. -/
structure Env (α : Type) where
  uninit : Nat → α
  randn : Int → Nat → α
  sqrtf : α → α

/-- Modelled from the spec: `tensor_create` of core/src/tensor.c, which is not among the
sources. It builds a leaf tensor over a copy of the first `ndim` entries of `shape`, with a
data buffer whose length is the product of the shape (contents not initialised), no gradient
buffer, `requires_grad` off, operation tag none and no inputs, and returns its address. -/
def tensor_create {α : Type} (env : Env α) (heap : Heap α) (shape : List Nat) (ndim : Nat) :
    Heap α × Ptr :=
  (heap ++ [{ ndim := ndim, shape := shape.take ndim, size := (shape.take ndim).prod,
              data := (List.range (shape.take ndim).prod).map env.uninit,
              grad := none, requires_grad := 0, op := OpType.OP_NONE, inputs := none,
              num_inputs := 0, backward_fn := none, extra_data := none }],
   heap.length)

/-- Modelled from the spec: `tensor_fill` of core/src/tensor.c, which is not among the
sources. It sets each of the `size` elements of the data buffer to `value`. -/
def tensor_fill {α : Type} (heap : Heap α) (T : Ptr) (value : α) : Option (Heap α) :=
  match heap[T]? with
  | none => none
  | some t => some (heap.set T { t with data := List.replicate t.size value })

/-- Modelled from the spec: `tensor_zeroes` of core/src/tensor.c, which is not among the
sources: the zero-filled constructor. -/
def tensor_zeroes {α : Type} [Zero α] (env : Env α) (heap : Heap α) (shape : List Nat)
    (ndim : Nat) : Option (Heap α × Ptr) :=
  (tensor_fill (tensor_create env heap shape ndim).1 (tensor_create env heap shape ndim).2 0).map
    (fun h => (h, (tensor_create env heap shape ndim).2))

/-- Modelled from the spec: `tensor_randn` of core/src/tensor.c, which is not among the
sources: the seeded-Gaussian constructor. Element `i` is the `i`-th sample for `seed`. -/
def tensor_randn {α : Type} (env : Env α) (heap : Heap α) (shape : List Nat) (ndim : Nat)
    (seed : Int) : Option (Heap α × Ptr) :=
  match (tensor_create env heap shape ndim).1[(tensor_create env heap shape ndim).2]? with
  | none => none
  | some t =>
    some ((tensor_create env heap shape ndim).1.set (tensor_create env heap shape ndim).2
            { t with data := (List.range t.size).map (env.randn seed) },
          (tensor_create env heap shape ndim).2)

/-- The two behaviours the spec allows for `zero_grad(tensor)`. -/
inductive ZeroGradMode where
  | deallocate
  | reset
deriving DecidableEq, Repr

/-- Modelled from the spec: `tensor_zero_grad` of core/src/tensor.c, which is not among the
sources: it "deallocates or resets a tensor's gradient buffer to zero". Nothing else of the
tensor changes. -/
def tensor_zero_grad {α : Type} [Zero α] (mode : ZeroGradMode) (heap : Heap α) (T : Ptr) :
    Option (Heap α) :=
  match heap[T]? with
  | none => none
  | some t =>
    some (heap.set T { t with grad :=
      match mode with
      | ZeroGradMode.deallocate => none
      | ZeroGradMode.reset => t.grad.map (fun g => g.map (fun _ => 0)) })

/-! ## core/include/optimizer.h, core/src/optimizer.c -/

/-- The struct `SGDParams`. -/
structure SGDParams (α : Type) where
  learning_rate : α
  momentum : α
deriving DecidableEq, Repr

/-- The struct `AdamParams`. -/
structure AdamParams (α : Type) where
  learning_rate : α
  beta1 : α
  beta2 : α
  epsilon : α
deriving DecidableEq, Repr

/-- What the `void *params` of an optimizer configuration points to. -/
inductive OptimizerParams (α : Type) where
  | sgd (p : SGDParams α)
  | adam (p : AdamParams α)
deriving DecidableEq, Repr

/-- The struct `OptimizerConfig`; a null `params` is `none`. -/
structure OptimizerConfig (α : Type) where
  name : String
  params : Option (OptimizerParams α)
deriving DecidableEq, Repr

/-- The configuration literal `ADAM(lr, beta1, beta2, epsilon)`. -/
def ADAM {α : Type} (lr beta1 beta2 epsilon : α) : OptimizerConfig α :=
  { name := "adam", params := some (OptimizerParams.adam ⟨lr, beta1, beta2, epsilon⟩) }

/-- The struct `SGDState`; `velocity` is `none` when the pointer is null. -/
structure SGDState (α : Type) where
  learning_rate : α
  momentum : α
  velocity : Option (List Ptr)
deriving DecidableEq, Repr

/-- The struct `AdamState`. -/
structure AdamState (α : Type) where
  learning_rate : α
  beta1 : α
  beta2 : α
  epsilon : α
  t : Int
  m : List Ptr
  v : List Ptr
deriving DecidableEq, Repr

/-- What the `void *state` of an optimizer points to. -/
inductive OptimizerState (α : Type) where
  | sgd (s : SGDState α)
  | adam (s : AdamState α)
deriving DecidableEq, Repr

/-- The init-state functions of optimizer.c, as values of type `OptimizerInitStateFn`. -/
inductive OptimizerInitStateFn where
  | sgd_init_state
  | adam_init_state
deriving DecidableEq, Repr

/-- The step functions of optimizer.c, as values of type `OptimizerStepFn`. -/
inductive OptimizerStepFn where
  | sgd_step
  | adam_step
deriving DecidableEq, Repr

/-- The free-state functions of optimizer.c, as values of type `OptimizerFreeStateFn`. -/
inductive OptimizerFreeStateFn where
  | sgd_free_state
  | adam_free_state
deriving DecidableEq, Repr

/-- The function stored in the `zero_grad` field of an optimizer. -/
inductive OptimizerZeroGradFn where
  | optimizer_zero_grad
deriving DecidableEq, Repr

/-- The struct `Optimizer`. The entries of `parameters` are tensor addresses. -/
structure Optimizer (α : Type) where
  name : String
  parameters : Option (List Ptr)
  num_parameters : Nat
  step : Option OptimizerStepFn
  zero_grad : Option OptimizerZeroGradFn
  free_state : Option OptimizerFreeStateFn
  state : Option (OptimizerState α)
deriving DecidableEq, Repr

/-- The optimizer part of the registry, seen through its three lookup functions
(registry.c is not among the sources); a failed lookup is `none`. -/
structure OptimizerRegistry where
  get_optimizer_init_state_fn : String → Option OptimizerInitStateFn
  get_optimizer_step_fn : String → Option OptimizerStepFn
  get_optimizer_free_state_fn : String → Option OptimizerFreeStateFn

/-- Modelled from the spec: the registry before anything is registered; every lookup fails
("an unknown name yields a null resolution"). -/
def OptimizerRegistry.empty : OptimizerRegistry :=
  { get_optimizer_init_state_fn := fun _ => none,
    get_optimizer_step_fn := fun _ => none,
    get_optimizer_free_state_fn := fun _ => none }

/-- Modelled from the spec: `register_optimizer` of registry.c, which is not among the
sources: it maps `name` to the triple (init-state, step, free-state). -/
def register_optimizer (reg : OptimizerRegistry) (name : String)
    (init_state_fn : Option OptimizerInitStateFn) (step_fn : Option OptimizerStepFn)
    (free_state_fn : Option OptimizerFreeStateFn) : OptimizerRegistry :=
  { get_optimizer_init_state_fn := fun n =>
      if n = name then init_state_fn else reg.get_optimizer_init_state_fn n,
    get_optimizer_step_fn := fun n =>
      if n = name then step_fn else reg.get_optimizer_step_fn n,
    get_optimizer_free_state_fn := fun n =>
      if n = name then free_state_fn else reg.get_optimizer_free_state_fn n }

/-- The function `optimizer_register_builtins`. -/
def optimizer_register_builtins (reg : OptimizerRegistry) : OptimizerRegistry :=
  register_optimizer
    (register_optimizer reg "sgd" (some OptimizerInitStateFn.sgd_init_state)
      (some OptimizerStepFn.sgd_step) (some OptimizerFreeStateFn.sgd_free_state))
    "adam" (some OptimizerInitStateFn.adam_init_state)
    (some OptimizerStepFn.adam_step) (some OptimizerFreeStateFn.adam_free_state)

/-- The largest value of the C type `int`. -/
def INT_MAX : Int := 2147483647

/-- The function `sgd_init_state`. The velocity array is built only when
`momentum > 0.0f`; entry `i` is a fresh tensor of the shape of `parameters[i]`, filled with
`0.0f`. `none` is a fault: `params` not pointing to an `SGDParams`, a null or too short
`parameters` array, or a dangling parameter. -/
def sgd_init_state {α : Type} [LinearOrderedField α] (env : Env α) (heap : Heap α)
    (parameters : Option (List Ptr)) (num_parameters : Nat)
    (params : Option (OptimizerParams α)) : Option (Heap α × SGDState α) :=
  match params with
  | some (OptimizerParams.sgd p) =>
    if p.momentum > 0 then
      (for_loop num_parameters (fun i (s : Heap α × List Ptr) => do
          let ps ← parameters
          let param ← ps[i]?
          let tp ← s.1[param]?
          let c := tensor_create env s.1 tp.shape tp.ndim
          let h ← tensor_fill c.1 c.2 0
          pure (h, s.2 ++ [c.2])) (heap, [])).map
        (fun s => (s.1, { learning_rate := p.learning_rate, momentum := p.momentum,
                          velocity := some s.2 }))
    else
      some (heap, { learning_rate := p.learning_rate, momentum := p.momentum,
                    velocity := none })
  | _ => none

/-- The function `sgd_step`. The heap is threaded through both loops; the optimizer is
returned unchanged. `none` is a fault (a state that is not an `SGDState`, a dangling
pointer, an index past the end of an array or buffer). -/
def sgd_step {α : Type} [LinearOrderedField α] (heap : Heap α) (opt : Optimizer α) :
    Option (Heap α × Optimizer α) :=
  match opt.state with
  | some (OptimizerState.sgd state) =>
    (for_loop opt.num_parameters (fun i (heap : Heap α) => do
        let ps ← opt.parameters
        let param ← ps[i]?
        let tp ← heap[param]?
        if tp.grad.isNone then pure heap
        else if state.momentum > 0 then
          for_loop tp.size (fun j (heap : Heap α) => do
            let velocity ← state.velocity
            let vel ← velocity[i]?
            let vj ← read_data heap vel j
            let gj ← read_grad heap param j
            let heap ← write_data heap vel j (state.momentum * vj - state.learning_rate * gj)
            let dj ← read_data heap param j
            let vj ← read_data heap vel j
            write_data heap param j (dj + vj)) heap
        else
          for_loop tp.size (fun j (heap : Heap α) => do
            let dj ← read_data heap param j
            let gj ← read_grad heap param j
            write_data heap param j (dj - state.learning_rate * gj)) heap) heap).map
      (fun h => (h, opt))
  | _ => none

/-- The function `adam_init_state`. In iteration `i` the tensors `m[i]` and `v[i]` are
created in this order, each of the shape of `parameters[i]`, and then filled with `0.0f`.
The loop state is the heap and the two arrays built so far. -/
def adam_init_state {α : Type} [LinearOrderedField α] (env : Env α) (heap : Heap α)
    (parameters : Option (List Ptr)) (num_parameters : Nat)
    (params : Option (OptimizerParams α)) : Option (Heap α × AdamState α) :=
  match params with
  | some (OptimizerParams.adam p) =>
    (for_loop num_parameters (fun i (s : Heap α × List Ptr × List Ptr) => do
        let ps ← parameters
        let param ← ps[i]?
        let tp ← s.1[param]?
        let cm := tensor_create env s.1 tp.shape tp.ndim
        let tp2 ← cm.1[param]?
        let cv := tensor_create env cm.1 tp2.shape tp2.ndim
        let h ← tensor_fill cv.1 cm.2 0
        let h ← tensor_fill h cv.2 0
        pure (h, s.2.1 ++ [cm.2], s.2.2 ++ [cv.2])) (heap, [], [])).map
      (fun s => (s.1, { learning_rate := p.learning_rate, beta1 := p.beta1, beta2 := p.beta2,
                        epsilon := p.epsilon, t := 0, m := s.2.1, v := s.2.2 }))
  | _ => none

/-- The body of the inner loop of `adam_step`, for element `j` of parameter `i` (the tensor
at address `param`): the three assignments to `m[i]->data[j]`, `v[i]->data[j]` and
`param->data[j]`, each value being read back from memory where the source reads it. -/
def adam_update_element {α : Type} [LinearOrderedField α] (env : Env α) (state : AdamState α)
    (bias_correction1 bias_correction2 : α) (i : Nat) (param : Ptr) (j : Nat)
    (heap : Heap α) : Option (Heap α) := do
  let mi ← state.m[i]?
  let vi ← state.v[i]?
  let mj ← read_data heap mi j
  let gj ← read_grad heap param j
  let heap ← write_data heap mi j (state.beta1 * mj + (1 - state.beta1) * gj)
  let vj ← read_data heap vi j
  let gj ← read_grad heap param j
  let heap ← write_data heap vi j (state.beta2 * vj + (1 - state.beta2) * gj * gj)
  let mj ← read_data heap mi j
  let m_hat := mj / bias_correction1
  let vj ← read_data heap vi j
  let v_hat := vj / bias_correction2
  let dj ← read_data heap param j
  write_data heap param j
    (dj - state.learning_rate * m_hat / (env.sqrtf v_hat + state.epsilon))

/-- The function `adam_step`. `state->t += 1` is a fault at `INT_MAX`; `powf(beta, t)` is
the integer power. The optimizer is returned with the incremented counter. -/
def adam_step {α : Type} [LinearOrderedField α] (env : Env α) (heap : Heap α)
    (opt : Optimizer α) : Option (Heap α × Optimizer α) :=
  match opt.state with
  | some (OptimizerState.adam state0) =>
    if state0.t + 1 ≤ INT_MAX then
      let state : AdamState α := { state0 with t := state0.t + 1 }
      let bias_correction1 : α := 1 - state.beta1 ^ state.t
      let bias_correction2 : α := 1 - state.beta2 ^ state.t
      (for_loop opt.num_parameters (fun i (heap : Heap α) => do
          let ps ← opt.parameters
          let param ← ps[i]?
          let tp ← heap[param]?
          if tp.grad.isNone then pure heap
          else
            for_loop tp.size
              (adam_update_element env state bias_correction1 bias_correction2 i param) heap)
        heap).map
        (fun h => (h, { opt with state := some (OptimizerState.adam state) }))
    else none
  | _ => none

/-- The call `init_fn(parameters, num_parameters, config.params)` through a function
pointer. -/
def call_init_state {α : Type} [LinearOrderedField α] (fn : OptimizerInitStateFn)
    (env : Env α) (heap : Heap α) (parameters : Option (List Ptr)) (num_parameters : Nat)
    (params : Option (OptimizerParams α)) : Option (Heap α × OptimizerState α) :=
  match fn with
  | OptimizerInitStateFn.sgd_init_state =>
    (sgd_init_state env heap parameters num_parameters params).map
      (fun r => (r.1, OptimizerState.sgd r.2))
  | OptimizerInitStateFn.adam_init_state =>
    (adam_init_state env heap parameters num_parameters params).map
      (fun r => (r.1, OptimizerState.adam r.2))

/-- The function `optimizer_create`. `none` is the null result (or a fault inside the
init-state function); otherwise the heap after state initialisation and the optimizer. -/
def optimizer_create {α : Type} [LinearOrderedField α] (reg : OptimizerRegistry)
    (env : Env α) (heap : Heap α) (parameters : Option (List Ptr)) (num_parameters : Nat)
    (config : OptimizerConfig α) : Option (Heap α × Optimizer α) :=
  if parameters.isNone ∨ num_parameters = 0 then none
  else
    match reg.get_optimizer_init_state_fn config.name,
          reg.get_optimizer_step_fn config.name,
          reg.get_optimizer_free_state_fn config.name with
    | some init_fn, some step_fn, some free_fn =>
      match call_init_state init_fn env heap parameters num_parameters config.params with
      | none => none
      | some (heap2, state) =>
        some (heap2, { name := config.name, parameters := parameters,
                       num_parameters := num_parameters, step := some step_fn,
                       zero_grad := some OptimizerZeroGradFn.optimizer_zero_grad,
                       free_state := some free_fn, state := some state })
    | _, _, _ => none

/-- The function `optimizer_zero_grad`; a null optimizer leaves the heap as it is. -/
def optimizer_zero_grad {α : Type} [Zero α] (mode : ZeroGradMode) (heap : Heap α)
    (opt : Option (Optimizer α)) : Option (Heap α) :=
  match opt with
  | none => some heap
  | some opt =>
    for_loop opt.num_parameters (fun i (heap : Heap α) => do
      let ps ← opt.parameters
      let param ← ps[i]?
      let tp ← heap[param]?
      if tp.grad.isSome then tensor_zero_grad mode heap param else pure heap) heap

end Core

namespace Core

/-- What `sgd_step` expects of the optimizer it is given: an SGD state, a parameter array of
at least `num_parameters` distinct live tensors whose data buffer (and gradient buffer, if
present) holds at least `size` elements, and, when `momentum > 0`, a velocity array of
`num_parameters` live tensors, distinct from each other and from the parameters, each with
room for the elements of its parameter. -/
structure SGDWellFormed {α : Type} [LinearOrderedField α] (heap : Heap α) (opt : Optimizer α)
    (state : SGDState α) (ps : List Ptr) : Prop where
  state_eq : opt.state = some (OptimizerState.sgd state)
  params_eq : opt.parameters = some ps
  num_le : opt.num_parameters ≤ ps.length
  params_nodup : (ps.take opt.num_parameters).Nodup
  params_ok : ∀ i p, i < opt.num_parameters → ps[i]? = some p →
    ∃ tp, heap[p]? = some tp ∧ tp.size ≤ tp.data.length ∧
      ∀ g, tp.grad = some g → tp.size ≤ g.length
  velocity_ok : 0 < state.momentum →
    ∃ vs, state.velocity = some vs ∧ opt.num_parameters ≤ vs.length ∧
      (ps.take opt.num_parameters ++ vs.take opt.num_parameters).Nodup ∧
      ∀ i p v tp, i < opt.num_parameters → ps[i]? = some p → vs[i]? = some v →
        heap[p]? = some tp → ∃ tv, heap[v]? = some tv ∧ tp.size ≤ tv.data.length

end Core

namespace Core

/-- What `adam_step` expects of the optimizer it is given: an Adam state whose counter is
below `INT_MAX`, a parameter array of at least `num_parameters` live tensors whose data
buffer (and gradient buffer, if present) holds at least `size` elements, and moment arrays
`m` and `v` of `num_parameters` live tensors each with room for the elements of its
parameter; parameters, first moments and second moments are all different tensors. -/
structure AdamWellFormed {α : Type} [LinearOrderedField α] (heap : Heap α)
    (opt : Optimizer α) (state : AdamState α) (ps : List Ptr) : Prop where
  state_eq : opt.state = some (OptimizerState.adam state)
  params_eq : opt.parameters = some ps
  counter : state.t + 1 ≤ INT_MAX
  num_le : opt.num_parameters ≤ ps.length
  m_le : opt.num_parameters ≤ state.m.length
  v_le : opt.num_parameters ≤ state.v.length
  params_nodup : (ps.take opt.num_parameters).Nodup
  m_nodup : (state.m.take opt.num_parameters).Nodup
  v_nodup : (state.v.take opt.num_parameters).Nodup
  params_m : (ps.take opt.num_parameters ++ state.m.take opt.num_parameters).Nodup
  params_v : (ps.take opt.num_parameters ++ state.v.take opt.num_parameters).Nodup
  m_v : (state.m.take opt.num_parameters ++ state.v.take opt.num_parameters).Nodup
  params_ok : ∀ i p, i < opt.num_parameters → ps[i]? = some p →
    ∃ tp, heap[p]? = some tp ∧ tp.size ≤ tp.data.length ∧
      ∀ g, tp.grad = some g → tp.size ≤ g.length
  moments_ok : ∀ i p mi vi tp, i < opt.num_parameters → ps[i]? = some p →
    state.m[i]? = some mi → state.v[i]? = some vi → heap[p]? = some tp →
    ∃ tm tv, heap[mi]? = some tm ∧ heap[vi]? = some tv ∧
      tp.size ≤ tm.data.length ∧ tp.size ≤ tv.data.length

/-- A one-element parameter tensor with data `[1]` and gradient `[10]`. -/
def example_param : Tensor ℚ :=
  { ndim := 1, shape := [1], size := 1, data := [1], grad := some [10],
    requires_grad := 1, op := OpType.OP_NONE, inputs := none, num_inputs := 0,
    backward_fn := none, extra_data := none }

/-- A one-element optimizer state tensor holding `[0]`. -/
def example_state_tensor : Tensor ℚ :=
  { ndim := 1, shape := [1], size := 1, data := [0], grad := none,
    requires_grad := 0, op := OpType.OP_NONE, inputs := none, num_inputs := 0,
    backward_fn := none, extra_data := none }

/-- A heap with the parameter at address 0 and two state tensors at addresses 1 and 2. -/
def example_heap : Heap ℚ := [example_param, example_state_tensor, example_state_tensor]

/-- An SGD state with learning rate 1/10, momentum 9/10 and velocity tensor at address 1. -/
def sgd_example_state : SGDState ℚ :=
  { learning_rate := 1 / 10, momentum := 9 / 10, velocity := some [1] }

/-- An SGD optimizer over the parameter at address 0. -/
def sgd_example_opt : Optimizer ℚ :=
  { name := "sgd", parameters := some [0], num_parameters := 1,
    step := some OptimizerStepFn.sgd_step,
    zero_grad := some OptimizerZeroGradFn.optimizer_zero_grad,
    free_state := some OptimizerFreeStateFn.sgd_free_state,
    state := some (OptimizerState.sgd sgd_example_state) }

/-- An Adam state before its first step, with moments at addresses 1 and 2. -/
def adam_example_state : AdamState ℚ :=
  { learning_rate := 1 / 10, beta1 := 9 / 10, beta2 := 99 / 100, epsilon := 1 / 100,
    t := 0, m := [1], v := [2] }

/-- An Adam optimizer over the parameter at address 0. -/
def adam_example_opt : Optimizer ℚ :=
  { name := "adam", parameters := some [0], num_parameters := 1,
    step := some OptimizerStepFn.adam_step,
    zero_grad := some OptimizerZeroGradFn.optimizer_zero_grad,
    free_state := some OptimizerFreeStateFn.adam_free_state,
    state := some (OptimizerState.adam adam_example_state) }

/-- An environment over the rationals; `sqrtf` is a stand-in (the identity). -/
def example_env : Env ℚ := { uninit := fun _ => 77, randn := fun _ i => i, sqrtf := fun x => x }

end Core

namespace Core

/-- The state tensor `tv` matches the parameter tensor `tp`: same shape, a data buffer of
`size` elements (the product of the shape), all of them zero. -/
def ZeroLike {α : Type} [Zero α] (tp tv : Tensor α) : Prop :=
  tv.shape = tp.shape ∧ tv.size = tp.shape.prod ∧ tv.data.length = tv.size ∧
    ∀ x ∈ tv.data, x = 0

end Core

namespace Core

/-! ## core/include/layer.h, core/src/layer.c -/

/-- The struct `LinearParams`; both fields are `size_t`. -/
structure LinearParams where
  in_features : Nat
  out_features : Nat
deriving DecidableEq, Repr

/-- What the `void *params` of a layer configuration points to. -/
inductive LayerParams where
  | linear (p : LinearParams)
deriving DecidableEq, Repr

/-- The struct `LayerConfig`; a null `params` is `none`. -/
structure LayerConfig where
  name : String
  params : Option LayerParams
deriving DecidableEq, Repr

/-- The configuration literal `LINEAR(in_features, out_features)`. -/
def LINEAR (in_features out_features : Nat) : LayerConfig :=
  { name := "linear", params := some (LayerParams.linear ⟨in_features, out_features⟩) }

/-- The configuration literal `RELU()`. -/
def RELU : LayerConfig := { name := "relu", params := none }

/-- The configuration literal `SIGMOID()`. -/
def SIGMOID : LayerConfig := { name := "sigmoid", params := none }

/-- The configuration literal `TANH()`. -/
def TANH : LayerConfig := { name := "tanh", params := none }

/-- The configuration literal `SOFTMAX()`. -/
def SOFTMAX : LayerConfig := { name := "softmax", params := none }

/-- The constructors of layer.c, as values of type `LayerCreateFn`. -/
inductive LayerCreateFn where
  | linear_create
  | activation_create
deriving DecidableEq, Repr

/-- The forward functions of layer.c, as values of type `LayerForwardFn`. -/
inductive LayerForwardFn where
  | linear_forward
  | relu_forward
  | sigmoid_forward
  | tanh_forward
  | softmax_forward
deriving DecidableEq, Repr

/-- The struct `Layer`. The entries of `parameters` are tensor addresses. -/
structure Layer where
  name : String
  weights : Option Ptr
  bias : Option Ptr
  output : Option Ptr
  parameters : Option (List Ptr)
  num_parameters : Nat
  forward : Option LayerForwardFn
  config_data : Option LayerParams
  config_data_size : Nat
deriving DecidableEq, Repr

/-- The layer part of the registry, seen through its two lookup functions (registry.c is
not among the sources); a failed lookup is `none`. -/
structure LayerRegistry where
  get_layer_create_fn : String → Option LayerCreateFn
  get_layer_forward_fn : String → Option LayerForwardFn

/-- Modelled from the spec: the registry before anything is registered; every lookup
fails. -/
def LayerRegistry.empty : LayerRegistry :=
  { get_layer_create_fn := fun _ => none, get_layer_forward_fn := fun _ => none }

/-- Modelled from the spec: `register_layer` of registry.c, which is not among the sources:
it maps `name` to the pair (create, forward). -/
def register_layer (reg : LayerRegistry) (name : String) (create_fn : Option LayerCreateFn)
    (forward_fn : Option LayerForwardFn) : LayerRegistry :=
  { get_layer_create_fn := fun n => if n = name then create_fn else reg.get_layer_create_fn n,
    get_layer_forward_fn := fun n =>
      if n = name then forward_fn else reg.get_layer_forward_fn n }

/-- The function `layer_register_builtins`. -/
def layer_register_builtins (reg : LayerRegistry) : LayerRegistry :=
  register_layer
    (register_layer
      (register_layer
        (register_layer
          (register_layer reg "linear" (some LayerCreateFn.linear_create)
            (some LayerForwardFn.linear_forward))
          "relu" (some LayerCreateFn.activation_create) (some LayerForwardFn.relu_forward))
        "sigmoid" (some LayerCreateFn.activation_create)
        (some LayerForwardFn.sigmoid_forward))
      "tanh" (some LayerCreateFn.activation_create) (some LayerForwardFn.tanh_forward))
    "softmax" (some LayerCreateFn.activation_create) (some LayerForwardFn.softmax_forward)

/-- The size of a `LinearParams` (two `size_t`) on a 64-bit target. -/
def sizeof_LinearParams : Nat := 16

/-- The function `linear_create`. The weights are the Gaussian samples for seed 42 scaled
in place by `sqrtf(2.0f / in_features)`; the bias is a zero tensor. `none` is a fault (a
null `params`). -/
def linear_create {α : Type} [LinearOrderedField α] (env : Env α) (heap : Heap α)
    (config : LayerConfig) : Option (Heap α × Layer) :=
  match config.params with
  | some (LayerParams.linear params) => do
    let w ← tensor_randn env heap [params.in_features, params.out_features] 2 42
    let scale := env.sqrtf (2 / (params.in_features : α))
    let tw ← w.1[w.2]?
    let heap ← for_loop tw.size (fun i (heap : Heap α) => do
      let x ← read_data heap w.2 i
      write_data heap w.2 i (x * scale)) w.1
    let b ← tensor_zeroes env heap [params.out_features] 1
    pure (b.1, { name := config.name, weights := some w.2, bias := some b.2, output := none,
                 parameters := some [w.2, b.2], num_parameters := 2,
                 forward := some LayerForwardFn.linear_forward,
                 config_data := some (LayerParams.linear params),
                 config_data_size := sizeof_LinearParams })
  | none => none

/-- The function `activation_create`: no tensors, the forward function looked up by
name. -/
def activation_create (reg : LayerRegistry) (config : LayerConfig) : Layer :=
  { name := config.name, weights := none, bias := none, output := none, parameters := none,
    num_parameters := 0, forward := reg.get_layer_forward_fn config.name,
    config_data := none, config_data_size := 0 }

/-- The function `layer_create`. `none` is the null result (or a fault in the
constructor). -/
def layer_create {α : Type} [LinearOrderedField α] (reg : LayerRegistry) (env : Env α)
    (heap : Heap α) (config : LayerConfig) : Option (Heap α × Layer) :=
  match reg.get_layer_create_fn config.name with
  | none => none
  | some LayerCreateFn.linear_create => linear_create env heap config
  | some LayerCreateFn.activation_create => some (heap, activation_create reg config)

/-- The tensor operations that layer.c calls (core/src/ops.c is not among the sources), as
functions on a state `ω` that they may change; a null tensor is `none`. -/
structure Ops (ω : Type) where
  tensor_matmul : ω → Option Ptr → Option Ptr → ω × Option Ptr
  tensor_add : ω → Option Ptr → Option Ptr → ω × Option Ptr
  tensor_relu : ω → Option Ptr → ω × Option Ptr
  tensor_sigmoid : ω → Option Ptr → ω × Option Ptr
  tensor_tanh : ω → Option Ptr → ω × Option Ptr
  tensor_softmax : ω → Option Ptr → ω × Option Ptr

/-- The function `linear_forward`. -/
def linear_forward {ω : Type} (ops : Ops ω) (w : ω) (self : Option Layer)
    (input : Option Ptr) : ω × Option Ptr :=
  match self with
  | none => (w, none)
  | some l =>
    if input.isNone ∨ l.weights.isNone ∨ l.bias.isNone then (w, none)
    else
      let Z_0 := ops.tensor_matmul w input l.weights
      ops.tensor_add Z_0.1 Z_0.2 l.bias

/-- The call `layer->forward(layer, input)` through a function pointer; the activation
forwards pass the input straight to their operation. -/
def call_forward {ω : Type} (fn : LayerForwardFn) (ops : Ops ω) (w : ω)
    (self : Option Layer) (input : Option Ptr) : ω × Option Ptr :=
  match fn with
  | LayerForwardFn.linear_forward => linear_forward ops w self input
  | LayerForwardFn.relu_forward => ops.tensor_relu w input
  | LayerForwardFn.sigmoid_forward => ops.tensor_sigmoid w input
  | LayerForwardFn.tanh_forward => ops.tensor_tanh w input
  | LayerForwardFn.softmax_forward => ops.tensor_softmax w input

/-- The function `layer_forward`. -/
def layer_forward {ω : Type} (ops : Ops ω) (w : ω) (layer : Option Layer)
    (input : Option Ptr) : ω × Option Ptr :=
  match layer with
  | none => (w, none)
  | some l =>
    match l.forward with
    | none => (w, none)
    | some fn => call_forward fn ops w (some l) input

/-- The function `layer_zero_grad`; a null layer leaves the heap as it is. -/
def layer_zero_grad {α : Type} [Zero α] (mode : ZeroGradMode) (heap : Heap α)
    (layer : Option Layer) : Option (Heap α) :=
  match layer with
  | none => some heap
  | some layer =>
    for_loop layer.num_parameters (fun i (heap : Heap α) => do
      let ps ← layer.parameters
      let param ← ps[i]?
      let tp ← heap[param]?
      if tp.grad.isSome then tensor_zero_grad mode heap param else pure heap) heap

/-- The function `layer_get_parameters`. The second argument is the content of the cell
`num_params` points to (`none` for a null pointer); the result is the returned list and the
content of the cell afterwards. -/
def layer_get_parameters (layer : Option Layer) (num_params : Option Nat) :
    Option (List Ptr) × Option Nat :=
  match layer, num_params with
  | some l, some _ => (l.parameters, some l.num_parameters)
  | _, _ => (none, num_params)

/-- Operations that leave nothing but a count of their calls in the state. -/
def counting_ops : Ops Nat :=
  { tensor_matmul := fun n _ _ => (n + 1, none),
    tensor_add := fun n _ _ => (n + 1, none),
    tensor_relu := fun n _ => (n + 1, none),
    tensor_sigmoid := fun n _ => (n + 1, none),
    tensor_tanh := fun n _ => (n + 1, none),
    tensor_softmax := fun n _ => (n + 1, none) }

/-- The tensor that `tensor_zero_grad` leaves in place of `t`. -/
def zero_grad_result {α : Type} [Zero α] (mode : ZeroGradMode) (t : Tensor α) : Tensor α :=
  { t with grad :=
      match mode with
      | ZeroGradMode.deallocate => none
      | ZeroGradMode.reset => t.grad.map (fun g => g.map (fun _ => 0)) }

/-- The gradient of `t` is absent or zero in every element. -/
def GradZero {α : Type} [Zero α] (t : Tensor α) : Prop :=
  ∀ g, t.grad = some g → ∀ x ∈ g, x = 0

end Core

namespace Trebuchet

/-! ## src/src/tensor.c: constructors -/

/-- The outcome of the three `malloc` calls of `tensor_create` (`true`: the block was
obtained), for the tensor record, the shape array and the data buffer. -/
structure Mallocs where
  tensor : Bool
  shape : Bool
  data : Bool
deriving DecidableEq, Repr

/-- One more than the largest `size_t`: arithmetic on `size_t` is modulo this number. -/
def SIZE_MODULUS : Nat := 2 ^ 64

/-- The size in bytes of a `float`. -/
def sizeof_float : Nat := 4

/-- The loop of `tensor_create` that copies the shape and multiplies the dimensions into
`T->size` (a `size_t` product, starting from 1). The state is the shape copied so far and
the size; reading past the end of `shape` gives `none`. -/
def copy_shape (shape : List Nat) (ndim : Nat) : Option (List Nat × Nat) :=
  for_loop ndim (fun i (s : List Nat × Nat) =>
    match shape[i]? with
    | none => none
    | some d => some (s.1 ++ [d], s.2 * d % SIZE_MODULUS)) ([], 1)

/-- The function `tensor_create` of src/src/tensor.c. On each failed `malloc` it returns
null and leaves the heap as it was. When all three succeed it appends the tensor it has
initialised (data not initialised, `uninit` standing for the memory contents) and then
reaches the closing brace of the function: there is no `return` statement on this path, so
the value the caller receives is not set by the function. That value is the argument `ret`.
The outer `none` is a fault (a read past the end of `shape`). -/
def tensor_create {α : Type} (uninit : Nat → α) (m : Mallocs) (ret : Option Ptr)
    (heap : Heap α) (shape : List Nat) (ndim : Nat) : Option (Heap α × Option Ptr) :=
  if m.tensor = false then some (heap, none)
  else if m.shape = false then some (heap, none)
  else
    match copy_shape shape ndim with
    | none => none
    | some (T_shape, T_size) =>
      if m.data = false then some (heap, none)
      else
        some (heap ++ [{ ndim := ndim, shape := T_shape, size := T_size,
                         data := (List.range (T_size * sizeof_float % SIZE_MODULUS /
                                   sizeof_float)).map uninit,
                         grad := none, requires_grad := 0, op := OpType.OP_NONE,
                         inputs := none, num_inputs := 0, backward_fn := none,
                         extra_data := none }],
              ret)

/-- The function `tensor_zeroes` of src/src/tensor.c: it takes what `tensor_create` returns
as `T`, returns null if that is null, and otherwise clears `T->size * sizeof(float)` bytes
of `T->data` and returns `T`. `none` is a fault (`T` dangling, or the bytes to clear
exceeding the buffer). -/
def tensor_zeroes {α : Type} [Zero α] (uninit : Nat → α) (m : Mallocs) (ret : Option Ptr)
    (heap : Heap α) (shape : List Nat) (ndim : Nat) : Option (Heap α × Option Ptr) :=
  match tensor_create uninit m ret heap shape ndim with
  | none => none
  | some (heap, none) => some (heap, none)
  | some (heap, some T) =>
    match heap[T]? with
    | none => none
    | some t =>
      if t.size * sizeof_float % SIZE_MODULUS / sizeof_float ≤ t.data.length then
        some (heap.set T { t with data :=
                (List.replicate (t.size * sizeof_float % SIZE_MODULUS / sizeof_float) 0 ++
                  t.data.drop (t.size * sizeof_float % SIZE_MODULUS / sizeof_float)) },
              some T)
      else none

/-- The function `tensor_ones` of src/src/tensor.c: it takes what `tensor_create` returns
as `T`, returns null if that is null, and otherwise sets `T->data[i] = 1.0f` for
`i < T->size` and returns `T`. -/
def tensor_ones {α : Type} [One α] (uninit : Nat → α) (m : Mallocs) (ret : Option Ptr)
    (heap : Heap α) (shape : List Nat) (ndim : Nat) : Option (Heap α × Option Ptr) :=
  match tensor_create uninit m ret heap shape ndim with
  | none => none
  | some (heap, none) => some (heap, none)
  | some (heap, some T) =>
    match heap[T]? with
    | none => none
    | some t =>
      (for_loop t.size (fun i (heap : Heap α) => write_data heap T i 1) heap).map
        (fun h => (h, some T))

/-- All three allocations succeed. -/
def mallocs_ok : Mallocs := { tensor := true, shape := true, data := true }

end Trebuchet

namespace Trebuchet

/-- The tensor `x` is `root` itself or is reached from `root` by following non-null inputs
whose `requires_grad` is set. -/
def Reach {α : Type} (heap : Heap α) (x root : Ptr) : Prop :=
  Relation.ReflTransGen (RgInput heap) x root

/-- The arrays have room for the tensors reached from `root`: no duplicate-free list of
such tensors is longer than `max_size`. -/
def Room {α : Type} (heap : Heap α) (root : Ptr) (max_size : Nat) : Prop :=
  ∀ l : List Ptr, l.Nodup → (∀ x ∈ l, Reach heap x root) → l.length ≤ max_size

/-- How a call on `T` changes the arrays, whatever `max_size` is: the bookkeeping invariant
holds afterwards, both arrays only grow at the end, what is newly visited is reached from
`T`, what is pushed was not visited before, the stack stays within `max_size`, and when
`max_size` is not below the number of visited tensors, whatever is visited but not pushed
at the end was already so at the start. -/
structure SortCall {α : Type} (heap : Heap α) (max_size : Nat) (T : Ptr)
    (st st2 : SortState) : Prop where
  inv : SortInv heap st2
  visited_ext : ∃ more, st2.visited = st.visited ++ more ∧ ∀ x ∈ more, Reach heap x T
  stack_ext : ∃ more, st2.stack = st.stack ++ more ∧ ∀ x ∈ more, x ∉ st.visited
  bound : st.stack.length ≤ max_size → st2.stack.length ≤ max_size
  gray : st2.visited.length ≤ max_size →
    ∀ x, x ∈ st2.visited → x ∉ st2.stack → x ∈ st.visited ∧ x ∉ st.stack

/-- A tensor (address 0, `requires_grad` set) that is its own input. -/
def self_loop : Heap ℚ :=
  [ { scalar_leaf 3 1 with op := OpType.OP_TRANSPOSE, inputs := some [some 0],
                           num_inputs := 1 } ]

end Trebuchet

namespace Core

/-- Every element of each of the first `n` second-moment tensors is non-negative. -/
def VNonneg {α : Type} [LinearOrderedField α] (heap : Heap α) (v : List Ptr) (n : Nat) :
    Prop :=
  ∀ (i : Nat) (vi : Ptr) (tv : Tensor α), i < n → v[i]? = some vi → heap[vi]? = some tv →
    ∀ x ∈ tv.data, 0 ≤ x

/-- The heap `h2` is `h` with other gradient buffers (what a backward pass or a
`zero_grad` leaves): every tensor keeps all its fields but `grad`, and a gradient buffer
that is present has room for `size` elements. -/
def GradUpdate {α : Type} (h h2 : Heap α) : Prop :=
  h2.length = h.length ∧
  ∀ (q : Ptr) (t : Tensor α), h[q]? = some t →
    ∃ g, h2[q]? = some { t with grad := g } ∧ ∀ gl, g = some gl → t.size ≤ gl.length

/-- The heap `h2` has the tensors of `h` at the same addresses, with the same `size` and
the same buffer lengths; the gradient buffer of a tensor is the old one or has room for
`size` elements. -/
def KeepsLayout {α : Type} (h h2 : Heap α) : Prop :=
  h2.length = h.length ∧
  ∀ (q : Ptr) (t : Tensor α), h[q]? = some t →
    ∃ t2, h2[q]? = some t2 ∧ t2.size = t.size ∧ t2.data.length = t.data.length ∧
      (t2.grad = t.grad ∨ ∀ g, t2.grad = some g → t2.size ≤ g.length)

/-- A training run of `n` calls of `adam_step`: before call number `k` (counted from 0)
the gradient buffers are replaced by `grads k`. -/
def adam_steps {α : Type} [LinearOrderedField α] (env : Env α)
    (grads : Nat → Heap α → Heap α) :
    Nat → Heap α → Optimizer α → Option (Heap α × Optimizer α)
  | 0, heap, opt => some (heap, opt)
  | n + 1, heap, opt =>
    match adam_steps env grads n heap opt with
    | none => none
    | some (h, o) => adam_step env (grads n h) o

/-- Gradients for a run over the rationals: before call `k` every element of every
gradient buffer is `k - 1`, so the first call sees negative gradients and the second zero
gradients. -/
def example_grads (k : Nat) (h : Heap ℚ) : Heap ℚ :=
  h.map (fun t => { t with grad := some (List.replicate t.size ((k : ℚ) - 1)) })

/-- The Adam hyper-parameters of the example run. -/
def adam_example_params : AdamParams ℚ :=
  { learning_rate := 1 / 10, beta1 := 9 / 10, beta2 := 99 / 100, epsilon := 1 / 100 }

end Core

namespace Core

/-- A check at a point of use: `some ()` when the condition holds, `none` (the run stops
there) when it does not. -/
def check (c : Prop) [Decidable c] : Option Unit := if c then some () else none

/-- The first two assignments of the body of the inner loop of `adam_step`, statement by
statement as in `adam_update_element`: `m[i]->data[j] = ...` and `v[i]->data[j] = ...`. -/
def adam_store_moments {α : Type} [LinearOrderedField α] (state : AdamState α) (i : Nat)
    (param : Ptr) (j : Nat) (heap : Heap α) : Option (Heap α) := do
  let mi ← state.m[i]?
  let vi ← state.v[i]?
  let mj ← read_data heap mi j
  let gj ← read_grad heap param j
  let heap ← write_data heap mi j (state.beta1 * mj + (1 - state.beta1) * gj)
  let vj ← read_data heap vi j
  let gj ← read_grad heap param j
  write_data heap vi j (state.beta2 * vj + (1 - state.beta2) * gj * gj)

/-- The rest of the body of the inner loop of `adam_step` (`m_hat`, `v_hat` and the
assignment to `param->data[j]`), statement by statement as in `adam_update_element`, with
every operand checked at the point where the source uses it: the bias correction that
divides `m` is positive, the second moment read back is not negative, the bias correction
that divides `v` is positive, the argument `v_hat` of `sqrtf` is not negative, and the
divisor `sqrtf(v_hat) + epsilon` is positive. A failed check gives `none`, as a fault
does. -/
def adam_apply_checked {α : Type} [LinearOrderedField α] (env : Env α)
    (state : AdamState α) (bias_correction1 bias_correction2 : α) (i : Nat) (param : Ptr)
    (j : Nat) (heap : Heap α) : Option (Heap α) := do
  let mi ← state.m[i]?
  let vi ← state.v[i]?
  let mj ← read_data heap mi j
  let _ ← check (0 < bias_correction1)
  let m_hat := mj / bias_correction1
  let vj ← read_data heap vi j
  let _ ← check (0 ≤ vj)
  let _ ← check (0 < bias_correction2)
  let v_hat := vj / bias_correction2
  let dj ← read_data heap param j
  let _ ← check (0 ≤ v_hat)
  let _ ← check (0 < env.sqrtf v_hat + state.epsilon)
  write_data heap param j
    (dj - state.learning_rate * m_hat / (env.sqrtf v_hat + state.epsilon))

/-- The body of the inner loop of `adam_step` with its operands checked where they are
used: the two moment assignments, then the checked parameter update. -/
def adam_update_element_checked {α : Type} [LinearOrderedField α] (env : Env α)
    (state : AdamState α) (bias_correction1 bias_correction2 : α) (i : Nat) (param : Ptr)
    (j : Nat) (heap : Heap α) : Option (Heap α) :=
  (adam_store_moments state i param j heap).bind
    (adam_apply_checked env state bias_correction1 bias_correction2 i param j)

/-- The function `adam_step`, statement by statement as `adam_step`, with the counter
checked where `powf` uses it (`t ≥ 1`, after `state->t += 1`) and the inner loop body
replaced by `adam_update_element_checked`. -/
def adam_step_checked {α : Type} [LinearOrderedField α] (env : Env α) (heap : Heap α)
    (opt : Optimizer α) : Option (Heap α × Optimizer α) :=
  match opt.state with
  | some (OptimizerState.adam state0) =>
    if state0.t + 1 ≤ INT_MAX then
      let state : AdamState α := { state0 with t := state0.t + 1 }
      if 1 ≤ state.t then
        let bias_correction1 : α := 1 - state.beta1 ^ state.t
        let bias_correction2 : α := 1 - state.beta2 ^ state.t
        (for_loop opt.num_parameters (fun i (heap : Heap α) => do
            let ps ← opt.parameters
            let param ← ps[i]?
            let tp ← heap[param]?
            if tp.grad.isNone then pure heap
            else
              for_loop tp.size
                (adam_update_element_checked env state bias_correction1 bias_correction2 i
                  param) heap)
          heap).map
          (fun h => (h, { opt with state := some (OptimizerState.adam state) }))
      else none
    else none
  | _ => none

/-- The training run `adam_steps` with every call checked (`adam_step_checked`). -/
def adam_steps_checked {α : Type} [LinearOrderedField α] (env : Env α)
    (grads : Nat → Heap α → Heap α) :
    Nat → Heap α → Optimizer α → Option (Heap α × Optimizer α)
  | 0, heap, opt => some (heap, opt)
  | n + 1, heap, opt =>
    match adam_steps_checked env grads n heap opt with
    | none => none
    | some (h, o) => adam_step_checked env (grads n h) o

end Core

/-! ## Theorems -/

/-! ### Loops -/

/-- Invariant rule for `for_loop_from`: if every iteration in range succeeds and carries
the invariant from `j` to `j + 1`, the loop succeeds and the invariant holds at the end. -/
theorem for_loop_from_inv {σ : Type} (body : Nat → σ → Option σ) (P : Nat → σ → Prop) :
    ∀ (k i : Nat) (s : σ), P i s →
      (∀ j s, i ≤ j → j < i + k → P j s → ∃ s2, body j s = some s2 ∧ P (j + 1) s2) →
      ∃ s2, for_loop_from body k i s = some s2 ∧ P (i + k) s2 := by
  intro k
  induction k with
  | zero =>
    intro i s h0 _
    exact ⟨s, rfl, by simpa using h0⟩
  | succ k ih =>
    intro i s h0 hstep
    obtain ⟨s1, hb, hp1⟩ := hstep i s (Nat.le_refl i) (by omega) h0
    obtain ⟨s2, hl, hp2⟩ := ih (i + 1) s1 hp1
      (fun j s hj hj2 hp => hstep j s (by omega) (by omega) hp)
    refine ⟨s2, ?_, ?_⟩
    · simp [for_loop_from, hb, hl]
    · have e : i + (k + 1) = i + 1 + k := by omega
      rw [e]; exact hp2

/-- Invariant rule for `for_loop`. -/
theorem for_loop_inv {σ : Type} (n : Nat) (body : Nat → σ → Option σ) (P : Nat → σ → Prop)
    (s : σ) (h0 : P 0 s)
    (hstep : ∀ j s, j < n → P j s → ∃ s2, body j s = some s2 ∧ P (j + 1) s2) :
    ∃ s2, for_loop n body s = some s2 ∧ P n s2 := by
  have h := for_loop_from_inv body P n 0 s h0
    (fun j s _ hj hp => hstep j s (by omega) hp)
  simpa [for_loop] using h

namespace Trebuchet

/-! ### Order of pushes -/

theorem PushedBefore.append {stack : List Ptr} {a b : Ptr} (h : PushedBefore stack a b)
    (more : List Ptr) : PushedBefore (stack ++ more) a b := by
  obtain ⟨ha, hb, hlt⟩ := h
  refine ⟨List.mem_append_left _ ha, List.mem_append_left _ hb, ?_⟩
  rw [List.indexOf_append_of_mem ha, List.indexOf_append_of_mem hb]
  exact hlt

theorem PushedBefore.push {stack : List Ptr} {a T : Ptr} (ha : a ∈ stack) (hT : T ∉ stack) :
    PushedBefore (stack ++ [T]) a T := by
  refine ⟨List.mem_append_left _ ha, by simp, ?_⟩
  rw [List.indexOf_append_of_mem ha, List.indexOf_append_of_not_mem hT]
  have h1 : List.indexOf a stack < stack.length := List.indexOf_lt_length.mpr ha
  omega

/-- A duplicate-free list of addresses below `n` has at most `n` entries. -/
theorem length_le_of_nodup_of_lt {l : List Nat} {n : Nat} (hnd : l.Nodup)
    (hlt : ∀ x ∈ l, x < n) : l.length ≤ n := by
  have hsub : l ⊆ List.range n := fun x hx => List.mem_range.mpr (hlt x hx)
  have h := (List.subperm_of_subset hnd hsub).length_le
  simpa using h

/-- A duplicate-free stack inside `visited` that misses a visited tensor is strictly
shorter than `visited`. -/
theorem stack_length_lt {stack visited : List Ptr} {T : Ptr} (hnd : stack.Nodup)
    (hsub : ∀ x ∈ stack, x ∈ visited) (hT : T ∈ visited) (hTs : T ∉ stack) :
    stack.length < visited.length := by
  have hnd2 : (T :: stack).Nodup := List.nodup_cons.mpr ⟨hTs, hnd⟩
  have hsub2 : (T :: stack) ⊆ visited := by
    intro x hx
    rcases List.mem_cons.mp hx with h | h
    · rw [h]; exact hT
    · exact hsub x h
  have h := (List.subperm_of_subset hnd2 hsub2).length_le
  simp at h
  omega

end Trebuchet

namespace Trebuchet

/-- C1 (evaluation of the code at the failing input): after `tensor_backward` on the root
of the diamond, the gradient buffer of `X` is still absent; in particular it is not the
sum `2 + 5 = 7` of the two branch-local gradients. -/
theorem tensor_backward_diamond_grad_absent :
    ((tensor_backward diamond (some 5))[0]?).map Tensor.grad = some none ∧
    ((tensor_backward diamond (some 5))[0]?).map Tensor.grad ≠ some (some [7]) := by
  constructor
  · rfl
  · intro h
    have h2 : ((tensor_backward diamond (some 5))[0]?).map Tensor.grad = some none := rfl
    rw [h2] at h
    cases h

end Trebuchet

namespace Trebuchet

theorem SortExt.refl (st : SortState) : SortExt st st :=
  ⟨⟨[], by simp⟩, ⟨[], by simp, by simp⟩, fun _ h1 h2 => ⟨h1, h2⟩⟩

theorem SortExt.visited_mono {st st2 : SortState} (h : SortExt st st2) :
    ∀ x ∈ st.visited, x ∈ st2.visited := by
  obtain ⟨more, hm⟩ := h.visited_ext
  intro x hx
  rw [hm]; exact List.mem_append_left _ hx

theorem SortExt.trans {st st2 st3 : SortState} (h1 : SortExt st st2) (h2 : SortExt st2 st3) :
    SortExt st st3 := by
  obtain ⟨v1, hv1⟩ := h1.visited_ext
  obtain ⟨v2, hv2⟩ := h2.visited_ext
  obtain ⟨s1, hs1, hn1⟩ := h1.stack_ext
  obtain ⟨s2, hs2, hn2⟩ := h2.stack_ext
  refine ⟨⟨v1 ++ v2, by rw [hv2, hv1, List.append_assoc]⟩,
    ⟨s1 ++ s2, by rw [hs2, hs1, List.append_assoc], ?_⟩, ?_⟩
  · intro x hx
    rcases List.mem_append.mp hx with h | h
    · exact hn1 x h
    · exact fun hxv => hn2 x h (h1.visited_mono x hxv)
  · intro x hx hxs
    obtain ⟨a, b⟩ := h2.gray x hx hxs
    exact h1.gray x a b

/-- A tensor that is visited but not pushed before a call is still not pushed after it. -/
theorem SortExt.not_pushed {st st2 : SortState} (h : SortExt st st2) {x : Ptr}
    (hx : x ∈ st.visited) (hxs : x ∉ st.stack) : x ∉ st2.stack := by
  obtain ⟨more, hs, hn⟩ := h.stack_ext
  rw [hs]
  intro hmem
  rcases List.mem_append.mp hmem with h | h
  · exact hxs h
  · exact hn x h hx


/-- What a call of the traversal on `T` from state `st` guarantees. -/
theorem visit_inputs_spec {α : Type} (heap : Heap α) (hwf : WellFormed heap)
    (recurse : Ptr → SortState → Option SortState) (fuel : Nat)
    (hrec : ∀ (I : Ptr) (s : SortState), I < heap.length → SortInv heap s →
      heap.length - s.visited.length < fuel →
      ∃ s2, recurse I s = some s2 ∧ SortInv heap s2 ∧ SortExt s s2 ∧ I ∈ s2.visited ∧
        ((∀ x, ¬ Relation.TransGen (RgInput heap) x x) →
          (∀ G, G ∈ s.visited → G ∉ s.stack → Relation.TransGen (RgInput heap) I G) →
          ProducersFirst heap s.stack → ProducersFirst heap s2.stack))
    (T : Ptr) (t : Tensor α) (ht : heap[T]? = some t) (st : SortState)
    (hinv : SortInv heap st) (hfuel : heap.length - st.visited.length < fuel) :
    ∃ st2, visit_inputs recurse heap t st = some st2 ∧ SortInv heap st2 ∧ SortExt st st2 ∧
      (∀ I, RgInput heap I T → I ∈ st2.visited) ∧
      ((∀ x, ¬ Relation.TransGen (RgInput heap) x x) →
        (∀ G, G ∈ st.visited → G ∉ st.stack →
          G = T ∨ Relation.TransGen (RgInput heap) T G) →
        ProducersFirst heap st.stack → ProducersFirst heap st2.stack) := by
  cases hin : t.inputs with
  | none =>
    refine ⟨st, by simp [visit_inputs, hin], hinv, SortExt.refl st, ?_, fun _ _ h => h⟩
    rintro I ⟨⟨t2, inputs, i, h1, h2, _, _⟩, _⟩
    rw [ht] at h1
    cases h1
    rw [hin] at h2
    cases h2
  | some inputs =>
    obtain ⟨hlen, hvalid⟩ := hwf T t inputs ht hin
    have hloop := for_loop_inv t.num_inputs
      (fun i s =>
        match inputs[i]? with
        | none => none
        | some none => some s
        | some (some I) =>
          match heap[I]? with
          | none => none
          | some ti => if ti.requires_grad ≠ 0 then recurse I s else some s)
      (fun k s => SortInv heap s ∧ SortExt st s ∧
        (∀ i I, i < k → inputs[i]? = some (some I) →
          (∃ ti, heap[I]? = some ti ∧ ti.requires_grad ≠ 0) → I ∈ s.visited) ∧
        ((∀ x, ¬ Relation.TransGen (RgInput heap) x x) →
          (∀ G, G ∈ st.visited → G ∉ st.stack →
            G = T ∨ Relation.TransGen (RgInput heap) T G) →
          ProducersFirst heap st.stack → ProducersFirst heap s.stack))
      st ⟨hinv, SortExt.refl st, fun i I hi => absurd hi (Nat.not_lt_zero i), fun _ _ h => h⟩
      (by
        rintro j s hj ⟨hs1, hs2, hs3, hs4⟩
        have hjlen : j < inputs.length := by omega
        have hget : inputs[j]? = some inputs[j] := List.getElem?_eq_getElem hjlen
        cases hI : inputs[j] with
        | none =>
          rw [hI] at hget
          refine ⟨s, by simp [hget], hs1, hs2, ?_, hs4⟩
          intro i I hi hiI hrg
          rcases Nat.lt_succ_iff_lt_or_eq.mp hi with h | h
          · exact hs3 i I h hiI hrg
          · rw [h, hget] at hiI
            cases hiI
        | some I =>
          rw [hI] at hget
          have hIlt : I < heap.length := hvalid j I hj hget
          have hti : heap[I]? = some heap[I] := List.getElem?_eq_getElem hIlt
          by_cases hrg : (heap[I]).requires_grad ≠ 0
          · have hfuel2 : heap.length - s.visited.length < fuel := by
              obtain ⟨more, hm⟩ := hs2.visited_ext
              rw [hm, List.length_append]
              omega
            obtain ⟨s2, hr, hr1, hr2, hr3, hr4⟩ := hrec I s hIlt hs1 hfuel2
            refine ⟨s2, by simp [hget, hti, hrg, hr], hr1, hs2.trans hr2, ?_, ?_⟩
            · intro i I2 hi hiI hrg2
              rcases Nat.lt_succ_iff_lt_or_eq.mp hi with h | h
              · exact hr2.visited_mono _ (hs3 i I2 h hiI hrg2)
              · rw [h, hget] at hiI
                cases hiI
                exact hr3
            · intro hac hg hord
              refine hr4 hac ?_ (hs4 hac hg hord)
              intro G hG hGs
              obtain ⟨a, b⟩ := hs2.gray G hG hGs
              have hedge : RgInput heap I T := ⟨⟨t, inputs, j, ht, hin, hj, hget⟩, heap[I], hti, hrg⟩
              rcases hg G a b with h | h
              · rw [h]; exact Relation.TransGen.single hedge
              · exact Relation.TransGen.head hedge h
          · refine ⟨s, by simp [hget, hti, hrg], hs1, hs2, ?_, hs4⟩
            intro i I2 hi hiI hrg2
            rcases Nat.lt_succ_iff_lt_or_eq.mp hi with h | h
            · exact hs3 i I2 h hiI hrg2
            · rw [h, hget] at hiI
              cases hiI
              obtain ⟨ti, h1, h2⟩ := hrg2
              rw [hti] at h1
              cases h1
              exact absurd h2 hrg)
    obtain ⟨st2, hl, h1, h2, h3, h4⟩ := hloop
    refine ⟨st2, by simp only [visit_inputs, hin]; exact hl, h1, h2, ?_, h4⟩
    rintro I ⟨⟨t2, inputs2, i, e1, e2, e3, e4⟩, hrg⟩
    rw [ht] at e1
    cases e1
    rw [hin] at e2
    cases e2
    exact h3 i I e3 e4 hrg


/-- What a call of `topological_sort_util` on `T` guarantees when the recursion bound
exceeds the number of unvisited tensors: it returns, keeps the bookkeeping invariant,
only extends the arrays, visits `T`, and (in a graph without cycles, when every tensor
in progress depends on `T`) keeps producers before consumers in the stack. -/
theorem topological_sort_util_spec {α : Type} (heap : Heap α) (max_size : Nat)
    (hwf : WellFormed heap) (hmax : heap.length ≤ max_size) :
    ∀ (fuel : Nat) (T : Ptr) (st : SortState),
      T < heap.length → SortInv heap st → heap.length - st.visited.length < fuel →
      ∃ st2, topological_sort_util heap max_size fuel T st = some st2 ∧
        SortInv heap st2 ∧ SortExt st st2 ∧ T ∈ st2.visited ∧
        ((∀ x, ¬ Relation.TransGen (RgInput heap) x x) →
          (∀ G, G ∈ st.visited → G ∉ st.stack → Relation.TransGen (RgInput heap) T G) →
          ProducersFirst heap st.stack → ProducersFirst heap st2.stack) := by
  intro fuel
  induction fuel with
  | zero => intro T st _ _ h; omega
  | succ fuel ih =>
    intro T st hT hinv hfuel
    by_cases hvis : T ∈ st.visited
    · exact ⟨st, by simp [topological_sort_util, hvis], hinv, SortExt.refl st, hvis,
        fun _ _ h => h⟩
    · have ht : heap[T]? = some heap[T] := List.getElem?_eq_getElem hT
      have hTs : T ∉ st.stack := fun h => hvis (hinv.stack_sub T h)
      have hinv1 : SortInv heap { st with visited := st.visited ++ [T] } := by
        refine ⟨fun x hx => List.mem_append_left _ (hinv.stack_sub x hx), hinv.stack_nodup,
          ?_, ?_⟩
        · exact List.Nodup.append hinv.visited_nodup (List.nodup_singleton T)
            (List.disjoint_singleton.mpr hvis)
        · intro x hx
          rcases List.mem_append.mp hx with h | h
          · exact hinv.visited_valid x h
          · rw [List.mem_singleton.mp h]; exact hT
      have hlen1 : st.visited.length + 1 ≤ heap.length := by
        have h := length_le_of_nodup_of_lt hinv1.visited_nodup hinv1.visited_valid
        simpa using h
      obtain ⟨s2, hv, h1, h2, h3, h4⟩ := visit_inputs_spec heap hwf
        (topological_sort_util heap max_size fuel) fuel ih T heap[T] ht
        { st with visited := st.visited ++ [T] } hinv1
        (by simp only [List.length_append, List.length_singleton]; omega)
      have hTv2 : T ∈ s2.visited := h2.visited_mono T (by simp)
      have hTs2 : T ∉ s2.stack := h2.not_pushed (by simp) hTs
      have hroom : s2.stack.length < max_size := by
        have a := stack_length_lt h1.stack_nodup h1.stack_sub hTv2 hTs2
        have b := length_le_of_nodup_of_lt h1.visited_nodup h1.visited_valid
        omega
      refine ⟨{ s2 with stack := s2.stack ++ [T] }, ?_, ?_, ?_, hTv2, ?_⟩
      · simp [topological_sort_util, hvis, ht, hv, hroom]
      · refine ⟨?_, ?_, h1.visited_nodup, h1.visited_valid⟩
        · intro x hx
          rcases List.mem_append.mp hx with h | h
          · exact h1.stack_sub x h
          · rw [List.mem_singleton.mp h]; exact hTv2
        · exact List.Nodup.append h1.stack_nodup (List.nodup_singleton T)
            (List.disjoint_singleton.mpr hTs2)
      · obtain ⟨v, hvx⟩ := h2.visited_ext
        obtain ⟨m, hm, hmn⟩ := h2.stack_ext
        refine ⟨⟨[T] ++ v, ?_⟩, ⟨m ++ [T], ?_, ?_⟩, ?_⟩
        · show s2.visited = st.visited ++ ([T] ++ v)
          rw [hvx, List.append_assoc]
        · show s2.stack ++ [T] = st.stack ++ (m ++ [T])
          rw [hm, List.append_assoc]
        · intro x hx hxv
          rcases List.mem_append.mp hx with h | h
          · exact hmn x h (List.mem_append_left _ hxv)
          · rw [List.mem_singleton.mp h] at hxv; exact hvis hxv
        · intro x hx hxs
          have hxs2 : x ∉ s2.stack := fun h => hxs (List.mem_append_left _ h)
          have hxT : x ≠ T := fun h => hxs (by rw [h]; simp)
          obtain ⟨a, b⟩ := h2.gray x hx hxs2
          refine ⟨?_, b⟩
          rcases List.mem_append.mp a with h | h
          · exact h
          · exact absurd (List.mem_singleton.mp h) hxT
      · intro hac hg hord
        have hord2 : ProducersFirst heap s2.stack := by
          refine h4 hac ?_ hord
          intro G hG hGs
          rcases List.mem_append.mp hG with h | h
          · exact Or.inr (hg G h hGs)
          · exact Or.inl (List.mem_singleton.mp h)
        intro U hU I hedge
        rcases List.mem_append.mp hU with h | h
        · exact (hord2 U h I hedge).append [T]
        · rw [List.mem_singleton.mp h] at hedge ⊢
          have hIv : I ∈ s2.visited := h3 I hedge
          have hIs : I ∈ s2.stack := by
            by_contra hns
            obtain ⟨a, b⟩ := h2.gray I hIv hns
            rcases List.mem_append.mp a with h5 | h5
            · exact hac T (Relation.TransGen.tail (hg I h5 b) hedge)
            · rw [List.mem_singleton.mp h5] at hedge
              exact hac T (Relation.TransGen.single hedge)
          exact PushedBefore.push hIs hTs2


/-- A heap in which every input has a lower address than its consumer has no cycle. -/
theorem acyclic_of_inputs_lt {α : Type} (heap : Heap α)
    (h : ∀ I T, InputRef heap I T → I < T) : Acyclic heap := by
  have hlt : ∀ a b, Relation.TransGen (InputRef heap) a b → a < b := by
    intro a b hab
    induction hab with
    | single e => exact h _ _ e
    | tail _ e ih => exact Nat.lt_trans ih (h _ _ e)
  intro T hT
  exact Nat.lt_irrefl T (hlt T T hT)

theorem chain_inputRef (I T : Ptr) (h : InputRef chain I T) : I = 0 ∧ T = 1 := by
  obtain ⟨t, inputs, i, h1, h2, h3, h4⟩ := h
  match T, h1 with
  | 0, h1 =>
    have e : t = scalar_leaf 3 1 := by simpa [chain] using h1.symm
    rw [e] at h2
    simp [scalar_leaf] at h2
  | 1, h1 =>
    have e : t = { scalar_leaf 6 1 with op := OpType.OP_TRANSPOSE, inputs := some [some 0],
                                        num_inputs := 1 } := by simpa [chain] using h1.symm
    rw [e] at h2 h3
    simp only [Option.some.injEq] at h2
    have hi : i = 0 := by simp at h3; omega
    rw [← h2, hi] at h4
    simp at h4
    exact ⟨h4.symm, rfl⟩
  | n + 2, h1 => simp [chain] at h1

theorem chain_acyclic : Acyclic chain :=
  acyclic_of_inputs_lt chain (fun I T h => by
    obtain ⟨a, b⟩ := chain_inputRef I T h
    rw [a, b]
    exact Nat.zero_lt_one)

theorem chain_wellFormed : WellFormed chain := by
  intro T t inputs h1 h2
  match T, h1 with
  | 0, h1 =>
    have e : t = scalar_leaf 3 1 := by simpa [chain] using h1.symm
    rw [e] at h2
    simp [scalar_leaf] at h2
  | 1, h1 =>
    have e : t = { scalar_leaf 6 1 with op := OpType.OP_TRANSPOSE, inputs := some [some 0],
                                        num_inputs := 1 } := by simpa [chain] using h1.symm
    rw [e] at h2
    simp only [Option.some.injEq] at h2
    rw [e, ← h2]
    refine ⟨by simp, ?_⟩
    intro i I hi hI
    have hi0 : i = 0 := by simp at hi; omega
    rw [hi0] at hI
    simp at hI
    rw [← hI]
    simp [chain]
  | n + 2, h1 => simp [chain] at h1

theorem chain_rgInput : RgInput chain 0 1 :=
  ⟨⟨_, [some 0], 0, rfl, rfl, by decide, rfl⟩, ⟨_, rfl, by decide⟩⟩

/-- C2 (as stated, refuted): on the well-formed acyclic chain `X <- R`, started from `R`
with empty arrays and room for both tensors, the traversal returns the stack `[X, R]`:
the consumer `R` is pushed after its producer `X`, not before it. -/
theorem topological_sort_util_consumers_first_fails :
    WellFormed chain ∧ Acyclic chain ∧
    ∃ st, topological_sort_util chain 2 3 1 ⟨[], []⟩ = some st ∧ st.stack = [0, 1] ∧
      ¬ ConsumersFirst chain st.stack := by
  refine ⟨chain_wellFormed, chain_acyclic, ⟨[1, 0], [0, 1]⟩, by decide, rfl, ?_⟩
  intro h
  have hp : PushedBefore [0, 1] 1 0 := h 1 (by decide) 0 (by decide) chain_rgInput
  revert hp
  decide

/-- C2 (amended): for every well-formed acyclic tensor graph and every root in it, with
empty arrays, `max_size` at least the number of tensors and a recursion bound above
it, `topological_sort_util` returns a stack that contains the root and in which every
tensor was pushed after each of its non-null `requires_grad` inputs: producers are
pushed before their consumers. -/
theorem topological_sort_util_producers_first {α : Type} (heap : Heap α) (root : Ptr)
    (max_size fuel : Nat) (hwf : WellFormed heap) (hac : Acyclic heap)
    (hroot : root < heap.length) (hmax : heap.length ≤ max_size)
    (hfuel : heap.length < fuel) :
    ∃ st, topological_sort_util heap max_size fuel root ⟨[], []⟩ = some st ∧
      root ∈ st.stack ∧ ProducersFirst heap st.stack := by
  have hinv0 : SortInv heap (⟨[], []⟩ : SortState) :=
    ⟨by simp, List.nodup_nil, List.nodup_nil, by simp⟩
  obtain ⟨st, h1, _, h3, h4, h5⟩ := topological_sort_util_spec heap max_size hwf hmax fuel
    root ⟨[], []⟩ hroot hinv0 (by simpa using hfuel)
  refine ⟨st, h1, ?_, ?_⟩
  · by_contra hns
    have h := (h3.gray root h4 hns).1
    simp at h
  · refine h5 ?_ (by simp) (by intro U hU; simp at hU)
    intro x hx
    exact hac x (Relation.TransGen.mono (fun _ _ h => h.1) hx)

/-- C2 (amended), instance: the chain `X <- R` sorted from `R`. -/
theorem topological_sort_util_producers_first_witness :
    ∃ st, topological_sort_util chain 2 3 1 ⟨[], []⟩ = some st ∧
      1 ∈ st.stack ∧ ProducersFirst chain st.stack :=
  topological_sort_util_producers_first chain 1 2 3 chain_wellFormed chain_acyclic
    (by decide) (by decide) (by decide)

end Trebuchet

/-! ### Heap access -/

theorem getElem?_eq_some_getD {α : Type} (l : List α) (k : Nat) (d : α)
    (h : k < l.length) : l[k]? = some (l.getD k d) := by
  simp [List.getD, List.getElem?_eq_getElem h]

theorem getD_of_getElem? {α : Type} {l : List α} {k : Nat} {x : α} (d : α)
    (h : l[k]? = some x) : l.getD k d = x := by
  simp [List.getD, h]

theorem heap_set_self {α : Type} (heap : Heap α) (p : Ptr) (t t2 : Tensor α)
    (h : heap[p]? = some t) : (heap.set p t2)[p]? = some t2 := by
  have hp : p < heap.length := by
    by_contra hn
    rw [List.getElem?_eq_none (Nat.le_of_not_lt hn)] at h
    cases h
  simp [List.getElem?_set, hp]

theorem heap_set_other {α : Type} (heap : Heap α) (p q : Ptr) (t2 : Tensor α)
    (h : q ≠ p) : (heap.set p t2)[q]? = heap[q]? := by
  simp [List.getElem?_set, Ne.symm h]

theorem read_data_eq {α : Type} {heap : Heap α} {p : Ptr} {t : Tensor α}
    (h : heap[p]? = some t) (j : Nat) : read_data heap p j = t.data[j]? := by
  simp [read_data, h]

theorem read_grad_eq {α : Type} {heap : Heap α} {p : Ptr} {t : Tensor α} {g : List α}
    (h : heap[p]? = some t) (hg : t.grad = some g) (j : Nat) : read_grad heap p j = g[j]? := by
  simp [read_grad, h, hg]

theorem write_data_eq {α : Type} {heap : Heap α} {p : Ptr} {t : Tensor α}
    (h : heap[p]? = some t) {j : Nat} (hj : j < t.data.length) (x : α) :
    write_data heap p j x = some (heap.set p { t with data := t.data.set j x }) := by
  simp [write_data, h, hj]

theorem heap_lt_of_getElem? {α : Type} {heap : Heap α} {p : Ptr} {t : Tensor α}
    (h : heap[p]? = some t) : p < heap.length := by
  by_contra hn
  rw [List.getElem?_eq_none (Nat.le_of_not_lt hn)] at h
  cases h

/-- What a successful `write_data` does to the heap. -/
theorem write_data_spec {α : Type} {heap : Heap α} {p : Ptr} {t : Tensor α}
    (h : heap[p]? = some t) {j : Nat} (hj : j < t.data.length) (x : α) :
    ∃ h2, write_data heap p j x = some h2 ∧ h2.length = heap.length ∧
      h2[p]? = some { t with data := t.data.set j x } ∧ ∀ q, q ≠ p → h2[q]? = heap[q]? :=
  ⟨_, write_data_eq h hj x, by simp, heap_set_self heap p t _ h,
    fun q hq => heap_set_other heap p q _ hq⟩

/-- Rule for a loop over a heap whose iterations work on pairwise disjoint sets of cells
(`F k` for iteration `k`): if iteration `k`, run on a heap that still holds the original
cells of `F k`, succeeds, changes cells of `F k` only and establishes `R k`, and `R k` only
depends on the cells of `F k`, then the loop succeeds, every `R k` holds at the end and the
cells outside all `F k` are the original ones. -/
theorem for_loop_heap {α : Type} (n : Nat) (body : Nat → Heap α → Option (Heap α))
    (heap : Heap α) (F : Nat → Ptr → Prop) (R : Nat → Heap α → Prop)
    (hdisj : ∀ i k, i < n → k < n → i ≠ k → ∀ q, F i q → ¬ F k q)
    (hstable : ∀ k h h2, R k h → (∀ q, F k q → h2[q]? = h[q]?) → R k h2)
    (hstep : ∀ k h, k < n → h.length = heap.length → (∀ q, F k q → h[q]? = heap[q]?) →
      ∃ h2, body k h = some h2 ∧ h2.length = h.length ∧
        (∀ q, ¬ F k q → h2[q]? = h[q]?) ∧ R k h2) :
    ∃ h, for_loop n body heap = some h ∧ h.length = heap.length ∧
      (∀ q, (∀ i, i < n → ¬ F i q) → h[q]? = heap[q]?) ∧ ∀ i, i < n → R i h := by
  have key := for_loop_inv n body
    (fun k h => h.length = heap.length ∧
      (∀ q, (∀ i, i < k → ¬ F i q) → h[q]? = heap[q]?) ∧ ∀ i, i < k → R i h)
    heap ⟨rfl, fun _ _ => rfl, fun i hi => absurd hi (Nat.not_lt_zero i)⟩
    (by
      rintro k h hk ⟨hl, hu, hr⟩
      have hcells : ∀ q, F k q → h[q]? = heap[q]? := by
        intro q hq
        apply hu
        intro i hi hFi
        exact hdisj i k (by omega) hk (by omega) q hFi hq
      obtain ⟨h2, hb, hl2, hframe, hR⟩ := hstep k h hk hl hcells
      refine ⟨h2, hb, by rw [hl2, hl], ?_, ?_⟩
      · intro q hq
        rw [hframe q (hq k (Nat.lt_succ_self k))]
        exact hu q (fun i hi => hq i (by omega))
      · intro i hi
        rcases Nat.lt_succ_iff_lt_or_eq.mp hi with h3 | h3
        · refine hstable i h h2 (hr i h3) ?_
          intro q hq
          exact hframe q (hdisj i k (by omega) hk (by omega) q hq)
        · rw [h3]; exact hR)
  obtain ⟨h, h1, h2, h3, h4⟩ := key
  exact ⟨h, h1, h2, h3, h4⟩

namespace Core

/-- The inner loop of `sgd_step` without momentum, run for `n` elements on parameter `p`:
element `k < n` of the data becomes `data[k] - lr * grad[k]`, nothing else changes. -/
theorem sgd_plain_loop {α : Type} [LinearOrderedField α] (lr : α) (heap : Heap α) (p : Ptr)
    (tp : Tensor α) (g : List α) (hp : heap[p]? = some tp) (hg : tp.grad = some g)
    (n : Nat) (hnd : n ≤ tp.data.length) (hng : n ≤ g.length) :
    ∃ h d, for_loop n (fun j (heap : Heap α) => do
          let dj ← read_data heap p j
          let gj ← read_grad heap p j
          write_data heap p j (dj - lr * gj)) heap = some h ∧
      h.length = heap.length ∧ (∀ q, q ≠ p → h[q]? = heap[q]?) ∧
      h[p]? = some { tp with data := d } ∧ d.length = tp.data.length ∧
      (∀ k, k < n → d[k]? = some (tp.data.getD k 0 - lr * g.getD k 0)) ∧
      (∀ k, n ≤ k → d[k]? = tp.data[k]?) := by
  have key := for_loop_inv n (fun j (heap : Heap α) => do
          let dj ← read_data heap p j
          let gj ← read_grad heap p j
          write_data heap p j (dj - lr * gj))
    (fun j h => h.length = heap.length ∧ (∀ q, q ≠ p → h[q]? = heap[q]?) ∧
      ∃ d, h[p]? = some { tp with data := d } ∧ d.length = tp.data.length ∧
      (∀ k, k < j → d[k]? = some (tp.data.getD k 0 - lr * g.getD k 0)) ∧
      (∀ k, j ≤ k → d[k]? = tp.data[k]?))
    heap ⟨rfl, fun _ _ => rfl, tp.data, by simpa using hp, rfl,
      fun k hk => absurd hk (Nat.not_lt_zero k), fun _ _ => rfl⟩
    (by
      rintro j h hj ⟨hl, hu, d, hd, hdl, hlow, hhigh⟩
      have hjd : j < d.length := by omega
      have hdj : d[j]? = some (tp.data.getD j 0) := by
        rw [hhigh j (Nat.le_refl j)]
        exact getElem?_eq_some_getD _ _ _ (by omega)
      have hgj : g[j]? = some (g.getD j 0) := getElem?_eq_some_getD _ _ _ (by omega)
      obtain ⟨h2, hw, hl2, hp2, hu2⟩ := write_data_spec hd (j := j) hjd
        (tp.data.getD j 0 - lr * g.getD j 0)
      refine ⟨h2, ?_, by rw [hl2, hl], fun q hq => by rw [hu2 q hq, hu q hq],
        d.set j (tp.data.getD j 0 - lr * g.getD j 0), hp2, by simp [hdl], ?_, ?_⟩
      · simp only [read_data_eq hd, read_grad_eq hd hg, hdj, hgj, Option.bind_eq_bind,
          Option.some_bind]
        exact hw
      · intro k hk
        rcases Nat.lt_succ_iff_lt_or_eq.mp hk with h3 | h3
        · rw [List.getElem?_set_ne (by omega)]
          exact hlow k h3
        · rw [h3, List.getElem?_set_self hjd]
      · intro k hk
        rw [List.getElem?_set_ne (by omega)]
        exact hhigh k (by omega))
  obtain ⟨h, h1, h2, h3, d, h4, h5, h6, h7⟩ := key
  exact ⟨h, d, h1, h2, h3, h4, h5, h6, h7⟩

end Core
namespace Core

/-- The inner loop of `sgd_step` with momentum, run for `n` elements on parameter `p` with
velocity tensor `v` (a different tensor): element `k < n` of the velocity becomes
`momentum * velocity[k] - lr * grad[k]` and element `k` of the data becomes
`data[k] +` that value; nothing else changes. -/
theorem sgd_momentum_loop {α : Type} [LinearOrderedField α] (state : SGDState α)
    (heap : Heap α) (i : Nat) (p v : Ptr) (vs : List Ptr) (tp tv : Tensor α) (g : List α)
    (hvs : state.velocity = some vs) (hv : vs[i]? = some v) (hpv : p ≠ v)
    (hp : heap[p]? = some tp) (htv : heap[v]? = some tv) (hg : tp.grad = some g)
    (n : Nat) (hnd : n ≤ tp.data.length) (hnv : n ≤ tv.data.length) (hng : n ≤ g.length) :
    ∃ h dp dv, for_loop n (fun j (heap : Heap α) => do
          let velocity ← state.velocity
          let vel ← velocity[i]?
          let vj ← read_data heap vel j
          let gj ← read_grad heap p j
          let heap ← write_data heap vel j (state.momentum * vj - state.learning_rate * gj)
          let dj ← read_data heap p j
          let vj ← read_data heap vel j
          write_data heap p j (dj + vj)) heap = some h ∧
      h.length = heap.length ∧ (∀ q, q ≠ p → q ≠ v → h[q]? = heap[q]?) ∧
      h[p]? = some { tp with data := dp } ∧ dp.length = tp.data.length ∧
      h[v]? = some { tv with data := dv } ∧ dv.length = tv.data.length ∧
      (∀ k, k < n →
        dv[k]? = some (state.momentum * tv.data.getD k 0 - state.learning_rate * g.getD k 0) ∧
        dp[k]? = some (tp.data.getD k 0 +
          (state.momentum * tv.data.getD k 0 - state.learning_rate * g.getD k 0))) ∧
      (∀ k, n ≤ k → dv[k]? = tv.data[k]? ∧ dp[k]? = tp.data[k]?) := by
  have key := for_loop_inv n (fun j (heap : Heap α) => do
          let velocity ← state.velocity
          let vel ← velocity[i]?
          let vj ← read_data heap vel j
          let gj ← read_grad heap p j
          let heap ← write_data heap vel j (state.momentum * vj - state.learning_rate * gj)
          let dj ← read_data heap p j
          let vj ← read_data heap vel j
          write_data heap p j (dj + vj))
    (fun j h => h.length = heap.length ∧ (∀ q, q ≠ p → q ≠ v → h[q]? = heap[q]?) ∧
      ∃ dp dv, h[p]? = some { tp with data := dp } ∧ dp.length = tp.data.length ∧
      h[v]? = some { tv with data := dv } ∧ dv.length = tv.data.length ∧
      (∀ k, k < j →
        dv[k]? = some (state.momentum * tv.data.getD k 0 - state.learning_rate * g.getD k 0) ∧
        dp[k]? = some (tp.data.getD k 0 +
          (state.momentum * tv.data.getD k 0 - state.learning_rate * g.getD k 0))) ∧
      (∀ k, j ≤ k → dv[k]? = tv.data[k]? ∧ dp[k]? = tp.data[k]?))
    heap ⟨rfl, fun _ _ _ => rfl, tp.data, tv.data, by simpa using hp, rfl, by simpa using htv,
      rfl, fun k hk => absurd hk (Nat.not_lt_zero k), fun _ _ => ⟨rfl, rfl⟩⟩
    (by
      rintro j h hj ⟨hl, hu, dp, dv, hdp, hdpl, hdv, hdvl, hlow, hhigh⟩
      have hjp : j < dp.length := by omega
      have hjv : j < dv.length := by omega
      have hdvj : dv[j]? = some (tv.data.getD j 0) := by
        rw [(hhigh j (Nat.le_refl j)).1]
        exact getElem?_eq_some_getD _ _ _ (by omega)
      have hdpj : dp[j]? = some (tp.data.getD j 0) := by
        rw [(hhigh j (Nat.le_refl j)).2]
        exact getElem?_eq_some_getD _ _ _ (by omega)
      have hgj : g[j]? = some (g.getD j 0) := getElem?_eq_some_getD _ _ _ (by omega)
      obtain ⟨h1, hw1, hl1, hv1, hu1⟩ := write_data_spec hdv (j := j) hjv
        (state.momentum * tv.data.getD j 0 - state.learning_rate * g.getD j 0)
      have hp1 : h1[p]? = some { tp with data := dp } := by rw [hu1 p hpv, hdp]
      obtain ⟨h2, hw2, hl2, hp2, hu2⟩ := write_data_spec hp1 (j := j) hjp
        (tp.data.getD j 0 +
          (state.momentum * tv.data.getD j 0 - state.learning_rate * g.getD j 0))
      have hv2 : h2[v]? = some { tv with data := (dv.set j
          (state.momentum * tv.data.getD j 0 - state.learning_rate * g.getD j 0)) } := by
        rw [hu2 v (Ne.symm hpv), hv1]
      refine ⟨h2, ?_, by rw [hl2, hl1, hl], ?_, _, _, hp2, by simp [hdpl], hv2,
        by simp [hdvl], ?_, ?_⟩
      · simp only [hvs, hv, read_data_eq hdv, read_grad_eq hdp hg, hdvj, hgj,
          Option.bind_eq_bind, Option.some_bind, hw1, read_data_eq hp1, read_data_eq hv1,
          hdpj, List.getElem?_set_self hjv]
        exact hw2
      · intro q hq1 hq2
        rw [hu2 q hq1, hu1 q hq2, hu q hq1 hq2]
      · intro k hk
        rcases Nat.lt_succ_iff_lt_or_eq.mp hk with h3 | h3
        · rw [List.getElem?_set_ne (by omega), List.getElem?_set_ne (by omega)]
          exact hlow k h3
        · rw [h3, List.getElem?_set_self hjp, List.getElem?_set_self hjv]
          exact ⟨rfl, rfl⟩
      · intro k hk
        rw [List.getElem?_set_ne (by omega), List.getElem?_set_ne (by omega)]
        exact hhigh k (by omega))
  obtain ⟨h, h1, h2, h3, dp, dv, h4, h5, h6, h7, h8, h9⟩ := key
  exact ⟨h, dp, dv, h1, h2, h3, h4, h5, h6, h7, h8, h9⟩

end Core
theorem read_data_congr {α : Type} {h h2 : Heap α} {q : Ptr} (e : h2[q]? = h[q]?) (j : Nat) :
    read_data h2 q j = read_data h q j := by
  simp [read_data, e]

theorem take_index_inj {l : List Ptr} {n i k : Nat} {q : Ptr} (hnd : (l.take n).Nodup)
    (hi : i < n) (hk : k < n) (h1 : l[i]? = some q) (h2 : l[k]? = some q) : i = k := by
  have e1 : (l.take n)[i]? = some q := by rw [List.getElem?_take_of_lt hi, h1]
  have e2 : (l.take n)[k]? = some q := by rw [List.getElem?_take_of_lt hk, h2]
  have hlt : i < (l.take n).length := by
    by_contra hn
    rw [List.getElem?_eq_none (Nat.le_of_not_lt hn)] at e1
    cases e1
  exact List.getElem?_inj hlt hnd (by rw [e1, e2])

theorem take_append_disjoint {l1 l2 : List Ptr} {n i k : Nat} {q : Ptr}
    (hnd : (l1.take n ++ l2.take n).Nodup) (hi : i < n) (hk : k < n)
    (h1 : l1[i]? = some q) (h2 : l2[k]? = some q) : False := by
  have m1 : q ∈ l1.take n :=
    List.mem_iff_getElem?.mpr ⟨i, by rw [List.getElem?_take_of_lt hi, h1]⟩
  have m2 : q ∈ l2.take n :=
    List.mem_iff_getElem?.mpr ⟨k, by rw [List.getElem?_take_of_lt hk, h2]⟩
  exact List.disjoint_of_nodup_append hnd m1 m2
namespace Core

/-- C3: on a well-formed SGD optimizer, `sgd_step` returns, leaves the optimizer record
as it is and modifies no gradient buffer. For a parameter whose gradient is absent, the
tensor (and, with momentum, its velocity tensor) is unchanged. For a parameter whose
gradient is present and every element `j < size`: without momentum,
`data'[j] = data[j] - lr * grad[j]`; with `momentum > 0`,
`velocity'[j] = momentum * velocity[j] - lr * grad[j]` and
`data'[j] = data[j] + velocity'[j]`. -/
theorem sgd_step_spec {α : Type} [LinearOrderedField α] (heap : Heap α) (opt : Optimizer α)
    (state : SGDState α) (ps : List Ptr) (hwf : SGDWellFormed heap opt state ps) :
    ∃ heap2, sgd_step heap opt = some (heap2, opt) ∧
      (∀ (q : Ptr) (t : Tensor α), heap[q]? = some t →
        ∃ t2 : Tensor α, heap2[q]? = some t2 ∧ t2.grad = t.grad) ∧
      ∀ (i : Nat) (p : Ptr) (tp : Tensor α), i < opt.num_parameters → ps[i]? = some p → heap[p]? = some tp →
        (tp.grad = none → heap2[p]? = some tp ∧
          ∀ (vs : List Ptr) (v : Ptr), 0 < state.momentum → state.velocity = some vs → vs[i]? = some v →
            heap2[v]? = heap[v]?) ∧
        (∀ (g : List α) (j : Nat) (dj gj : α), tp.grad = some g → j < tp.size → tp.data[j]? = some dj →
          g[j]? = some gj →
          (¬ 0 < state.momentum →
            read_data heap2 p j = some (dj - state.learning_rate * gj)) ∧
          (0 < state.momentum → ∀ (vs : List Ptr) (v : Ptr) (vj : α), state.velocity = some vs → vs[i]? = some v →
            read_data heap v j = some vj →
            read_data heap2 v j = some (state.momentum * vj - state.learning_rate * gj) ∧
            read_data heap2 p j =
              some (dj + (state.momentum * vj - state.learning_rate * gj)))) := by
  obtain ⟨hst, hps, hnum, hnd, hok, hvel⟩ := hwf
  have hloop := for_loop_heap opt.num_parameters
    (fun i (heap : Heap α) => do
        let ps ← opt.parameters
        let param ← ps[i]?
        let tp ← heap[param]?
        if tp.grad.isNone then pure heap
        else if state.momentum > 0 then
          for_loop tp.size (fun j (heap : Heap α) => do
            let velocity ← state.velocity
            let vel ← velocity[i]?
            let vj ← read_data heap vel j
            let gj ← read_grad heap param j
            let heap ← write_data heap vel j (state.momentum * vj - state.learning_rate * gj)
            let dj ← read_data heap param j
            let vj ← read_data heap vel j
            write_data heap param j (dj + vj)) heap
        else
          for_loop tp.size (fun j (heap : Heap α) => do
            let dj ← read_data heap param j
            let gj ← read_grad heap param j
            write_data heap param j (dj - state.learning_rate * gj)) heap)
    heap
    (fun (k : Nat) (q : Ptr) => ps[k]? = some q ∨
      (0 < state.momentum ∧ ∃ vs : List Ptr, state.velocity = some vs ∧ vs[k]? = some q))
    (fun k h => ∀ (p : Ptr) (tp : Tensor α), ps[k]? = some p → heap[p]? = some tp →
      (∃ t2 : Tensor α, h[p]? = some t2 ∧ t2.grad = tp.grad) ∧
      (∀ (vs : List Ptr) (v : Ptr) (tv : Tensor α), 0 < state.momentum → state.velocity = some vs → vs[k]? = some v →
        heap[v]? = some tv → ∃ t2 : Tensor α, h[v]? = some t2 ∧ t2.grad = tv.grad) ∧
      (tp.grad = none → h[p]? = some tp ∧
        ∀ (vs : List Ptr) (v : Ptr), 0 < state.momentum → state.velocity = some vs → vs[k]? = some v →
          h[v]? = heap[v]?) ∧
      (∀ (g : List α) (j : Nat) (dj gj : α), tp.grad = some g → j < tp.size → tp.data[j]? = some dj →
        g[j]? = some gj →
        (¬ 0 < state.momentum → read_data h p j = some (dj - state.learning_rate * gj)) ∧
        (0 < state.momentum → ∀ (vs : List Ptr) (v : Ptr) (vj : α), state.velocity = some vs → vs[k]? = some v →
          read_data heap v j = some vj →
          read_data h v j = some (state.momentum * vj - state.learning_rate * gj) ∧
          read_data h p j = some (dj + (state.momentum * vj - state.learning_rate * gj)))))
    (by
      -- the cells of different iterations are disjoint
      intro i k hi hk hik q hFi hFk
      rcases hFi with h1 | ⟨hm, vs, hvs, h1⟩
      · rcases hFk with h2 | ⟨hm, vs, hvs, h2⟩
        · exact hik (take_index_inj hnd hi hk h1 h2)
        · obtain ⟨vs2, e, _, hnd2, _⟩ := hvel hm
          rw [hvs] at e
          cases e
          exact take_append_disjoint hnd2 hi hk h1 h2
      · obtain ⟨vs2, e, _, hnd2, _⟩ := hvel hm
        rw [hvs] at e
        cases e
        rcases hFk with h2 | ⟨_, vs3, hvs3, h2⟩
        · exact take_append_disjoint hnd2 hk hi h2 h1
        · rw [hvs] at hvs3
          cases hvs3
          exact hik (take_index_inj (List.Nodup.of_append_right hnd2) hi hk h1 h2))
    (by
      -- the postcondition of iteration k reads the cells of iteration k only
      intro k h h2 hR hsame p tp hp htp
      obtain ⟨r1, r2, r3, r4⟩ := hR p tp hp htp
      have ep : h2[p]? = h[p]? := hsame p (Or.inl hp)
      refine ⟨by rw [ep]; exact r1, ?_, ?_, ?_⟩
      · intro vs v tv hm hvs hv htv
        rw [hsame v (Or.inr ⟨hm, vs, hvs, hv⟩)]
        exact r2 vs v tv hm hvs hv htv
      · intro hgn
        refine ⟨by rw [ep]; exact (r3 hgn).1, ?_⟩
        intro vs v hm hvs hv
        rw [hsame v (Or.inr ⟨hm, vs, hvs, hv⟩)]
        exact (r3 hgn).2 vs v hm hvs hv
      · intro g j dj gj hg hj hdj hgj
        obtain ⟨a, b⟩ := r4 g j dj gj hg hj hdj hgj
        refine ⟨fun hm => by rw [read_data_congr ep]; exact a hm, ?_⟩
        intro hm vs v vj hvs hv hvj
        rw [read_data_congr ep, read_data_congr (hsame v (Or.inr ⟨hm, vs, hvs, hv⟩))]
        exact b hm vs v vj hvs hv hvj)
    (by
      intro k h hk hlen hcells
      have hkl : k < ps.length := by omega
      have hpk : ps[k]? = some ps[k] := List.getElem?_eq_getElem hkl
      obtain ⟨tp, htp, hsz, hgsz⟩ := hok k ps[k] hk hpk
      have hhp : h[ps[k]]? = some tp := by rw [hcells _ (Or.inl hpk), htp]
      cases hgrad : tp.grad with
      | none =>
        refine ⟨h, ?_, rfl, fun _ _ => rfl, ?_⟩
        · simp [hps, hpk, hhp, hgrad]
        · intro p tp2 hp htp2
          rw [hpk] at hp
          cases hp
          rw [htp] at htp2
          cases htp2
          refine ⟨⟨tp, hhp, rfl⟩, ?_, ?_, ?_⟩
          · intro vs v tv hm hvs hv htv
            exact ⟨tv, by rw [hcells v (Or.inr ⟨hm, vs, hvs, hv⟩), htv], rfl⟩
          · intro _
            exact ⟨hhp, fun vs v hm hvs hv => hcells v (Or.inr ⟨hm, vs, hvs, hv⟩)⟩
          · intro g j dj gj hg
            rw [hgrad] at hg
            cases hg
      | some g =>
        by_cases hm : 0 < state.momentum
        · obtain ⟨vs, hvs, hvl, hnd2, hvok⟩ := hvel hm
          have hvk : vs[k]? = some vs[k] := List.getElem?_eq_getElem (by omega)
          obtain ⟨tv, htv, hvsz⟩ := hvok k ps[k] vs[k] tp hk hpk hvk htp
          have hhv : h[vs[k]]? = some tv := by
            rw [hcells _ (Or.inr ⟨hm, vs, hvs, hvk⟩), htv]
          have hpv : ps[k] ≠ vs[k] := by
            intro e
            exact take_append_disjoint hnd2 hk hk hpk (by rw [hvk, e])
          obtain ⟨h2, dp, dv, hl, hl2, hu, hp2, hdpl, hv2, hdvl, hlow, _⟩ :=
            sgd_momentum_loop state h k ps[k] vs[k] vs tp tv g hvs hvk hpv hhp hhv hgrad
              tp.size hsz hvsz (hgsz g hgrad)
          refine ⟨h2, ?_, hl2, ?_, ?_⟩
          · simp only [hps, hpk, hhp, hgrad, Option.bind_eq_bind, Option.some_bind,
              Option.isNone_some, Bool.false_eq_true, if_false, gt_iff_lt, hm, if_true]
            exact hl
          · intro q hq
            apply hu q
            · intro e
              exact hq (Or.inl (by rw [e, hpk]))
            · intro e
              exact hq (Or.inr ⟨hm, vs, hvs, by rw [e, hvk]⟩)
          · intro p tp2 hp htp2
            rw [hpk] at hp
            cases hp
            rw [htp] at htp2
            cases htp2
            refine ⟨⟨_, hp2, rfl⟩, ?_, ?_, ?_⟩
            · intro vs2 v tv2 _ hvs2 hv htv2
              rw [hvs] at hvs2
              cases hvs2
              rw [hvk] at hv
              cases hv
              rw [htv] at htv2
              cases htv2
              exact ⟨_, hv2, rfl⟩
            · intro hgn
              rw [hgrad] at hgn
              cases hgn
            · intro g2 j dj gj hg hj hdj hgj
              rw [hgrad] at hg
              cases hg
              refine ⟨fun hnm => absurd hm hnm, ?_⟩
              intro _ vs2 v vj hvs2 hv hvj
              rw [hvs] at hvs2
              cases hvs2
              rw [hvk] at hv
              cases hv
              rw [read_data_eq htv] at hvj
              obtain ⟨a, b⟩ := hlow j hj
              rw [read_data_eq hv2, read_data_eq hp2]
              simp only
              rw [a, b, getD_of_getElem? 0 hvj, getD_of_getElem? 0 hgj,
                getD_of_getElem? 0 hdj]
              exact ⟨rfl, rfl⟩
        · obtain ⟨h2, d, hl, hl2, hu, hp2, hdl, hlow, _⟩ :=
            sgd_plain_loop state.learning_rate h ps[k] tp g hhp hgrad tp.size hsz
              (hgsz g hgrad)
          refine ⟨h2, ?_, hl2, ?_, ?_⟩
          · simp only [hps, hpk, hhp, hgrad, Option.bind_eq_bind, Option.some_bind,
              Option.isNone_some, Bool.false_eq_true, if_false, gt_iff_lt, hm]
            exact hl
          · intro q hq
            apply hu q
            intro e
            exact hq (Or.inl (by rw [e, hpk]))
          · intro p tp2 hp htp2
            rw [hpk] at hp
            cases hp
            rw [htp] at htp2
            cases htp2
            refine ⟨⟨_, hp2, rfl⟩, ?_, ?_, ?_⟩
            · intro vs v tv hm2
              exact absurd hm2 hm
            · intro hgn
              rw [hgrad] at hgn
              cases hgn
            · intro g2 j dj gj hg hj hdj hgj
              rw [hgrad] at hg
              cases hg
              refine ⟨fun _ => ?_, fun hm2 => absurd hm2 hm⟩
              rw [read_data_eq hp2]
              simp only
              rw [hlow j hj, getD_of_getElem? 0 hgj, getD_of_getElem? 0 hdj])
  obtain ⟨h, hl, _, hframe, hR⟩ := hloop
  refine ⟨h, ?_, ?_, ?_⟩
  · simp only [sgd_step, hst]
    rw [hl]
    rfl
  · intro q t hq
    by_cases hex : ∃ i : Nat, i < opt.num_parameters ∧ (ps[i]? = some q ∨
        (0 < state.momentum ∧ ∃ vs : List Ptr, state.velocity = some vs ∧ vs[i]? = some q))
    · obtain ⟨i, hi, hF⟩ := hex
      have hpi : ps[i]? = some ps[i] := List.getElem?_eq_getElem (by omega)
      obtain ⟨tp, htp, _, _⟩ := hok i ps[i] hi hpi
      obtain ⟨r1, r2, _, _⟩ := hR i hi ps[i] tp hpi htp
      rcases hF with h1 | ⟨hm, vs, hvs, h1⟩
      · rw [hpi] at h1
        cases h1
        rw [htp] at hq
        cases hq
        exact r1
      · exact r2 vs q t hm hvs h1 hq
    · refine ⟨t, ?_, rfl⟩
      rw [hframe q (fun i hi hF => hex ⟨i, hi, hF⟩), hq]
  · intro i p tp hi hp htp
    obtain ⟨_, _, r3, r4⟩ := hR i hi p tp hp htp
    exact ⟨r3, r4⟩

end Core
namespace Core

/-- The inner loop of `adam_step`, run for `n` elements on parameter `p` with moment tensors
`mi` and `vi` (three different tensors): for `k < n`,
`m'[k] = beta1 * m[k] + (1 - beta1) * g[k]`,
`v'[k] = beta2 * v[k] + (1 - beta2) * g[k] * g[k]` and
`data'[k] = data[k] - lr * (m'[k] / bc1) / (sqrtf (v'[k] / bc2) + epsilon)`;
nothing else changes. -/
theorem adam_loop {α : Type} [LinearOrderedField α] (env : Env α) (state : AdamState α)
    (bc1 bc2 : α) (heap : Heap α) (i : Nat) (p mi vi : Ptr) (tp tm tv : Tensor α)
    (g : List α) (hmi : state.m[i]? = some mi) (hvi : state.v[i]? = some vi)
    (hpm : p ≠ mi) (hpv : p ≠ vi) (hmv : mi ≠ vi)
    (hp : heap[p]? = some tp) (htm : heap[mi]? = some tm) (htv : heap[vi]? = some tv)
    (hg : tp.grad = some g) (n : Nat) (hnd : n ≤ tp.data.length)
    (hnm : n ≤ tm.data.length) (hnv : n ≤ tv.data.length) (hng : n ≤ g.length) :
    ∃ h dp dm dv, for_loop n (adam_update_element env state bc1 bc2 i p) heap
        = some h ∧
      h.length = heap.length ∧ (∀ q, q ≠ p → q ≠ mi → q ≠ vi → h[q]? = heap[q]?) ∧
      h[p]? = some { tp with data := dp } ∧ h[mi]? = some { tm with data := dm } ∧
      h[vi]? = some { tv with data := dv } ∧
      (∀ k, k < n →
        dm[k]? = some (state.beta1 * tm.data.getD k 0 + (1 - state.beta1) * g.getD k 0) ∧
        dv[k]? = some (state.beta2 * tv.data.getD k 0 +
          (1 - state.beta2) * g.getD k 0 * g.getD k 0) ∧
        dp[k]? = some (tp.data.getD k 0 - state.learning_rate *
          ((state.beta1 * tm.data.getD k 0 + (1 - state.beta1) * g.getD k 0) / bc1) /
          (env.sqrtf ((state.beta2 * tv.data.getD k 0 +
            (1 - state.beta2) * g.getD k 0 * g.getD k 0) / bc2) + state.epsilon))) := by
  have key := for_loop_inv n (adam_update_element env state bc1 bc2 i p)
    (fun j h => h.length = heap.length ∧
      (∀ q, q ≠ p → q ≠ mi → q ≠ vi → h[q]? = heap[q]?) ∧
      ∃ dp dm dv, h[p]? = some { tp with data := dp } ∧ dp.length = tp.data.length ∧
        h[mi]? = some { tm with data := dm } ∧ dm.length = tm.data.length ∧
        h[vi]? = some { tv with data := dv } ∧ dv.length = tv.data.length ∧
        (∀ k, k < j →
          dm[k]? = some (state.beta1 * tm.data.getD k 0 + (1 - state.beta1) * g.getD k 0) ∧
          dv[k]? = some (state.beta2 * tv.data.getD k 0 +
            (1 - state.beta2) * g.getD k 0 * g.getD k 0) ∧
          dp[k]? = some (tp.data.getD k 0 - state.learning_rate *
            ((state.beta1 * tm.data.getD k 0 + (1 - state.beta1) * g.getD k 0) / bc1) /
            (env.sqrtf ((state.beta2 * tv.data.getD k 0 +
              (1 - state.beta2) * g.getD k 0 * g.getD k 0) / bc2) + state.epsilon))) ∧
        (∀ k, j ≤ k → dm[k]? = tm.data[k]? ∧ dv[k]? = tv.data[k]? ∧ dp[k]? = tp.data[k]?))
    heap ⟨rfl, fun _ _ _ _ => rfl, tp.data, tm.data, tv.data, by simpa using hp, rfl,
      by simpa using htm, rfl, by simpa using htv, rfl,
      fun k hk => absurd hk (Nat.not_lt_zero k), fun _ _ => ⟨rfl, rfl, rfl⟩⟩
    (by
      rintro j h hj ⟨hl, hu, dp, dm, dv, hdp, hdpl, hdm, hdml, hdv, hdvl, hlow, hhigh⟩
      have hjp : j < dp.length := by omega
      have hjm : j < dm.length := by omega
      have hjv : j < dv.length := by omega
      obtain ⟨e1, e2, e3⟩ := hhigh j (Nat.le_refl j)
      have hdmj : dm[j]? = some (tm.data.getD j 0) := by
        rw [e1]; exact getElem?_eq_some_getD _ _ _ (by omega)
      have hdvj : dv[j]? = some (tv.data.getD j 0) := by
        rw [e2]; exact getElem?_eq_some_getD _ _ _ (by omega)
      have hdpj : dp[j]? = some (tp.data.getD j 0) := by
        rw [e3]; exact getElem?_eq_some_getD _ _ _ (by omega)
      have hgj : g[j]? = some (g.getD j 0) := getElem?_eq_some_getD _ _ _ (by omega)
      -- m[i]->data[j] = ...
      obtain ⟨h1, hw1, hl1, hm1, hu1⟩ := write_data_spec hdm (j := j) hjm
        (state.beta1 * tm.data.getD j 0 + (1 - state.beta1) * g.getD j 0)
      have hp1 : h1[p]? = some { tp with data := dp } := by rw [hu1 p hpm, hdp]
      have hv1 : h1[vi]? = some { tv with data := dv } := by rw [hu1 vi (Ne.symm hmv), hdv]
      -- v[i]->data[j] = ...
      obtain ⟨h2, hw2, hl2, hv2, hu2⟩ := write_data_spec hv1 (j := j) hjv
        (state.beta2 * tv.data.getD j 0 + (1 - state.beta2) * g.getD j 0 * g.getD j 0)
      have hp2 : h2[p]? = some { tp with data := dp } := by rw [hu2 p hpv, hp1]
      have hm2 : h2[mi]? = some { tm with data := (dm.set j
          (state.beta1 * tm.data.getD j 0 + (1 - state.beta1) * g.getD j 0)) } := by
        rw [hu2 mi hmv, hm1]
      -- param->data[j] -= ...
      obtain ⟨h3, hw3, hl3, hp3, hu3⟩ := write_data_spec hp2 (j := j) hjp
        (tp.data.getD j 0 - state.learning_rate *
          ((state.beta1 * tm.data.getD j 0 + (1 - state.beta1) * g.getD j 0) / bc1) /
          (env.sqrtf ((state.beta2 * tv.data.getD j 0 +
            (1 - state.beta2) * g.getD j 0 * g.getD j 0) / bc2) + state.epsilon))
      have hm3 : h3[mi]? = some { tm with data := (dm.set j
          (state.beta1 * tm.data.getD j 0 + (1 - state.beta1) * g.getD j 0)) } := by
        rw [hu3 mi (Ne.symm hpm), hm2]
      have hv3 : h3[vi]? = some { tv with data := (dv.set j
          (state.beta2 * tv.data.getD j 0 +
            (1 - state.beta2) * g.getD j 0 * g.getD j 0)) } := by
        rw [hu3 vi (Ne.symm hpv), hv2]
      refine ⟨h3, ?_, by rw [hl3, hl2, hl1, hl], ?_, _, _, _, hp3, by simp [hdpl], hm3,
        by simp [hdml], hv3, by simp [hdvl], ?_, ?_⟩
      · simp only [adam_update_element, hmi, hvi, read_data_eq hdm, read_grad_eq hdp hg, hdmj,
          hgj, Option.bind_eq_bind, Option.some_bind, hw1, read_data_eq hv1, read_grad_eq hp1 hg,
          hdvj, hw2, read_data_eq hm2, read_data_eq hv2, read_data_eq hp2, hdpj,
          List.getElem?_set_self hjm, List.getElem?_set_self hjv]
        exact hw3
      · intro q hq1 hq2 hq3
        rw [hu3 q hq1, hu2 q hq3, hu1 q hq2, hu q hq1 hq2 hq3]
      · intro k hk
        rcases Nat.lt_succ_iff_lt_or_eq.mp hk with h4 | h4
        · rw [List.getElem?_set_ne (by omega), List.getElem?_set_ne (by omega),
            List.getElem?_set_ne (by omega)]
          exact hlow k h4
        · rw [h4, List.getElem?_set_self hjp, List.getElem?_set_self hjv,
            List.getElem?_set_self hjm]
          exact ⟨rfl, rfl, rfl⟩
      · intro k hk
        rw [List.getElem?_set_ne (by omega), List.getElem?_set_ne (by omega),
          List.getElem?_set_ne (by omega)]
        exact hhigh k (by omega))
  obtain ⟨h, h1, h2, h3, dp, dm, dv, h4, _, h6, _, h8, _, h10, _⟩ := key
  exact ⟨h, dp, dm, dv, h1, h2, h3, h4, h6, h8, h10⟩

end Core
namespace Core

theorem sgd_example_wellFormed :
    SGDWellFormed example_heap sgd_example_opt sgd_example_state [0] := by
  refine ⟨rfl, rfl, by decide, by decide, ?_, ?_⟩
  · intro i p hi hp
    have hi0 : i = 0 := by
      have : i < 1 := hi
      omega
    rw [hi0] at hp
    cases hp
    refine ⟨example_param, rfl, by decide, ?_⟩
    intro g hg
    cases hg
    decide
  · intro _
    refine ⟨[1], rfl, by decide, by decide, ?_⟩
    intro i p v tp hi hp hv htp
    have hi0 : i = 0 := by
      have : i < 1 := hi
      omega
    rw [hi0] at hp hv
    cases hp
    cases hv
    cases htp
    exact ⟨example_state_tensor, rfl, by decide⟩

/-- C3, instance: one step of SGD with momentum 9/10 and learning rate 1/10 on a parameter
with data `[1]`, gradient `[10]` and velocity `[0]`. -/
theorem sgd_step_spec_witness :
    SGDWellFormed example_heap sgd_example_opt sgd_example_state [0] ∧
    ∃ heap2, sgd_step example_heap sgd_example_opt = some (heap2, sgd_example_opt) ∧
      read_data heap2 1 0 = some (9 / 10 * 0 - 1 / 10 * 10) ∧
      read_data heap2 0 0 = some (1 + (9 / 10 * 0 - 1 / 10 * 10)) := by
  refine ⟨sgd_example_wellFormed, ?_⟩
  obtain ⟨heap2, h1, _, h3⟩ :=
    sgd_step_spec example_heap sgd_example_opt sgd_example_state [0] sgd_example_wellFormed
  refine ⟨heap2, h1, ?_⟩
  have h := ((h3 0 0 example_param (by decide) rfl rfl).2 [10] 0 1 10 rfl (by decide)
    rfl rfl).2 (by norm_num [sgd_example_state]) [1] 1 0 rfl rfl rfl
  exact h

end Core
namespace Core

/-- C4: on a well-formed Adam optimizer, `adam_step` returns with the counter `t`
incremented by exactly one, whatever the parameters and their gradients are. For every
element `j < size` of every parameter `i` whose gradient `g` is present,
`m' = beta1 * m + (1 - beta1) * g`, `v' = beta2 * v + (1 - beta2) * g * g` and
`data' = data - lr * (m' / (1 - beta1 ^ t')) / (sqrtf (v' / (1 - beta2 ^ t')) + epsilon)`
with `t' = t + 1`. Arithmetic is exact in any ordered field; `sqrtf` is the function of the
environment (the real square root over the reals). -/
theorem adam_step_spec {α : Type} [LinearOrderedField α] (env : Env α) (heap : Heap α)
    (opt : Optimizer α) (state : AdamState α) (ps : List Ptr)
    (hwf : AdamWellFormed heap opt state ps) :
    ∃ heap2,
      adam_step env heap opt = some (heap2,
        { opt with
          state := some (OptimizerState.adam { state with t := state.t + 1 }) }) ∧
      ∀ (i : Nat) (p mi vi : Ptr) (tp : Tensor α) (g : List α) (j : Nat) (dj gj mj vj : α),
        i < opt.num_parameters → ps[i]? = some p → state.m[i]? = some mi →
        state.v[i]? = some vi → heap[p]? = some tp → tp.grad = some g → j < tp.size →
        tp.data[j]? = some dj → g[j]? = some gj → read_data heap mi j = some mj →
        read_data heap vi j = some vj →
        read_data heap2 mi j = some (state.beta1 * mj + (1 - state.beta1) * gj) ∧
        read_data heap2 vi j = some (state.beta2 * vj + (1 - state.beta2) * gj * gj) ∧
        read_data heap2 p j = some (dj - state.learning_rate *
          ((state.beta1 * mj + (1 - state.beta1) * gj) / (1 - state.beta1 ^ (state.t + 1))) /
          (env.sqrtf ((state.beta2 * vj + (1 - state.beta2) * gj * gj) /
            (1 - state.beta2 ^ (state.t + 1))) + state.epsilon)) := by
  obtain ⟨hst, hps, hcnt, hnum, hml, hvl, hndp, hndm, hndv, hpm, hpv, hmv, hok, hmom⟩ := hwf
  have hloop := for_loop_heap opt.num_parameters
    (fun i (heap : Heap α) => do
          let ps ← opt.parameters
          let param ← ps[i]?
          let tp ← heap[param]?
          if tp.grad.isNone then pure heap
          else
            for_loop tp.size
              (adam_update_element env { state with t := state.t + 1 }
                (1 - state.beta1 ^ (state.t + 1)) (1 - state.beta2 ^ (state.t + 1)) i param)
              heap)
    heap
    (fun (k : Nat) (q : Ptr) =>
      ps[k]? = some q ∨ state.m[k]? = some q ∨ state.v[k]? = some q)
    (fun k h => ∀ (p mi vi : Ptr) (tp : Tensor α) (g : List α) (j : Nat) (dj gj mj vj : α),
      ps[k]? = some p → state.m[k]? = some mi → state.v[k]? = some vi →
      heap[p]? = some tp → tp.grad = some g → j < tp.size →
      tp.data[j]? = some dj → g[j]? = some gj → read_data heap mi j = some mj →
      read_data heap vi j = some vj →
      read_data h mi j = some (state.beta1 * mj + (1 - state.beta1) * gj) ∧
      read_data h vi j = some (state.beta2 * vj + (1 - state.beta2) * gj * gj) ∧
      read_data h p j = some (dj - state.learning_rate *
        ((state.beta1 * mj + (1 - state.beta1) * gj) / (1 - state.beta1 ^ (state.t + 1))) /
        (env.sqrtf ((state.beta2 * vj + (1 - state.beta2) * gj * gj) /
          (1 - state.beta2 ^ (state.t + 1))) + state.epsilon)))
    (by
      intro i k hi hk hik q hFi hFk
      rcases hFi with h1 | h1 | h1
      · rcases hFk with h2 | h2 | h2
        · exact hik (take_index_inj hndp hi hk h1 h2)
        · exact take_append_disjoint hpm hi hk h1 h2
        · exact take_append_disjoint hpv hi hk h1 h2
      · rcases hFk with h2 | h2 | h2
        · exact take_append_disjoint hpm hk hi h2 h1
        · exact hik (take_index_inj hndm hi hk h1 h2)
        · exact take_append_disjoint hmv hi hk h1 h2
      · rcases hFk with h2 | h2 | h2
        · exact take_append_disjoint hpv hk hi h2 h1
        · exact take_append_disjoint hmv hk hi h2 h1
        · exact hik (take_index_inj hndv hi hk h1 h2))
    (by
      intro k h h2 hR hsame p mi vi tp g j dj gj mj vj hp hm hv htp hg hj hdj hgj hmj hvj
      rw [read_data_congr (hsame mi (Or.inr (Or.inl hm))),
        read_data_congr (hsame vi (Or.inr (Or.inr hv))),
        read_data_congr (hsame p (Or.inl hp))]
      exact hR p mi vi tp g j dj gj mj vj hp hm hv htp hg hj hdj hgj hmj hvj)
    (by
      intro k h hk hlen hcells
      have hpk : ps[k]? = some ps[k] := List.getElem?_eq_getElem (by omega)
      have hmk : state.m[k]? = some state.m[k] := List.getElem?_eq_getElem (by omega)
      have hvk : state.v[k]? = some state.v[k] := List.getElem?_eq_getElem (by omega)
      obtain ⟨tp, htp, hsz, hgsz⟩ := hok k ps[k] hk hpk
      have hhp : h[ps[k]]? = some tp := by rw [hcells _ (Or.inl hpk), htp]
      cases hgrad : tp.grad with
      | none =>
        refine ⟨h, ?_, rfl, fun _ _ => rfl, ?_⟩
        · simp only [hps, hpk, hhp, hgrad, Option.bind_eq_bind, Option.some_bind,
            Option.isNone_none, if_true]
          rfl
        · intro p mi vi tp2 g j dj gj mj vj hp _ _ htp2 hg
          rw [hpk] at hp
          cases hp
          rw [htp] at htp2
          cases htp2
          rw [hgrad] at hg
          cases hg
      | some g =>
        obtain ⟨tm, tv, htm, htv, hmsz, hvsz⟩ :=
          hmom k ps[k] state.m[k] state.v[k] tp hk hpk hmk hvk htp
        have hhm : h[state.m[k]]? = some tm := by
          rw [hcells _ (Or.inr (Or.inl hmk)), htm]
        have hhv : h[state.v[k]]? = some tv := by
          rw [hcells _ (Or.inr (Or.inr hvk)), htv]
        have hne1 : ps[k] ≠ state.m[k] := fun e =>
          take_append_disjoint hpm hk hk hpk (by rw [hmk, e])
        have hne2 : ps[k] ≠ state.v[k] := fun e =>
          take_append_disjoint hpv hk hk hpk (by rw [hvk, e])
        have hne3 : state.m[k] ≠ state.v[k] := fun e =>
          take_append_disjoint hmv hk hk hmk (by rw [hvk, e])
        obtain ⟨h2, dp, dm, dv, hl, hl2, hu, hp2, hm2, hv2, hlow⟩ :=
          adam_loop env { state with t := state.t + 1 } (1 - state.beta1 ^ (state.t + 1))
            (1 - state.beta2 ^ (state.t + 1)) h k ps[k] state.m[k] state.v[k] tp tm tv g
            hmk hvk hne1 hne2 hne3 hhp hhm hhv hgrad tp.size hsz hmsz hvsz (hgsz g hgrad)
        refine ⟨h2, ?_, hl2, ?_, ?_⟩
        · simp only [hps, hpk, hhp, hgrad, Option.bind_eq_bind, Option.some_bind,
            Option.isNone_some, Bool.false_eq_true, if_false]
          exact hl
        · intro q hq
          apply hu q
          · exact fun e => hq (Or.inl (by rw [e, hpk]))
          · exact fun e => hq (Or.inr (Or.inl (by rw [e, hmk])))
          · exact fun e => hq (Or.inr (Or.inr (by rw [e, hvk])))
        · intro p mi vi tp2 g2 j dj gj mj vj hp hm hv htp2 hg hj hdj hgj hmj hvj
          rw [hpk] at hp
          cases hp
          rw [hmk] at hm
          cases hm
          rw [hvk] at hv
          cases hv
          rw [htp] at htp2
          cases htp2
          rw [hgrad] at hg
          cases hg
          rw [read_data_eq htm] at hmj
          rw [read_data_eq htv] at hvj
          obtain ⟨a, b, c⟩ := hlow j hj
          rw [read_data_eq hm2, read_data_eq hv2, read_data_eq hp2]
          simp only
          rw [a, b, c, getD_of_getElem? 0 hmj, getD_of_getElem? 0 hvj,
            getD_of_getElem? 0 hgj, getD_of_getElem? 0 hdj]
          exact ⟨rfl, rfl, rfl⟩)
  obtain ⟨h, hl, _, _, hR⟩ := hloop
  refine ⟨h, ?_, ?_⟩
  · simp only [adam_step, hst, if_pos hcnt]
    rw [hl]
    rfl
  · intro i p mi vi tp g j dj gj mj vj hi hp hm hv htp hg hj hdj hgj hmj hvj
    exact hR i hi p mi vi tp g j dj gj mj vj hp hm hv htp hg hj hdj hgj hmj hvj

end Core
namespace Core

theorem adam_example_wellFormed :
    AdamWellFormed example_heap adam_example_opt adam_example_state [0] := by
  refine ⟨rfl, rfl, by decide, by decide, by decide, by decide, by decide, by decide,
    by decide, by decide, by decide, by decide, ?_, ?_⟩
  · intro i p hi hp
    have hi0 : i = 0 := by
      have : i < 1 := hi
      omega
    rw [hi0] at hp
    cases hp
    refine ⟨example_param, rfl, by decide, ?_⟩
    intro g hg
    cases hg
    decide
  · intro i p mi vi tp hi hp hm hv htp
    have hi0 : i = 0 := by
      have : i < 1 := hi
      omega
    rw [hi0] at hp hm hv
    cases hp
    cases hm
    cases hv
    cases htp
    exact ⟨example_state_tensor, example_state_tensor, rfl, rfl, by decide, by decide⟩

/-- C4, instance: the first Adam step on a parameter with data `[1]`, gradient `[10]` and
zero moments sets the counter to 1 and the first moment to `(1 - 9/10) * 10`. -/
theorem adam_step_spec_witness :
    AdamWellFormed example_heap adam_example_opt adam_example_state [0] ∧
    ∃ heap2,
      adam_step example_env example_heap adam_example_opt = some (heap2,
        { adam_example_opt with
          state := some (OptimizerState.adam { adam_example_state with t := 0 + 1 }) }) ∧
      read_data heap2 1 0 = some (9 / 10 * 0 + (1 - 9 / 10) * 10) := by
  refine ⟨adam_example_wellFormed, ?_⟩
  obtain ⟨heap2, h1, h2⟩ := adam_step_spec example_env example_heap adam_example_opt
    adam_example_state [0] adam_example_wellFormed
  refine ⟨heap2, h1, ?_⟩
  exact (h2 0 0 1 2 example_param [10] 0 1 10 0 0 (by decide) rfl rfl rfl rfl rfl
    (by decide) rfl rfl rfl rfl).1

end Core
namespace Core

/-- C5: `optimizer_create` returns the null result when the parameter list is null or
`num_parameters` is 0, when one of the three registry lookups for the configured name
fails, and when the init-state function does not deliver a state. Otherwise it returns an
optimizer that holds the very parameter list it was given, the same count, the step and
free-state functions registered under the name, and the state that was built. -/
theorem optimizer_create_contract {α : Type} [LinearOrderedField α] (reg : OptimizerRegistry)
    (env : Env α) (heap : Heap α) (parameters : Option (List Ptr)) (num_parameters : Nat)
    (config : OptimizerConfig α) :
    ((parameters = none ∨ num_parameters = 0) →
      optimizer_create reg env heap parameters num_parameters config = none) ∧
    ((reg.get_optimizer_init_state_fn config.name = none ∨
        reg.get_optimizer_step_fn config.name = none ∨
        reg.get_optimizer_free_state_fn config.name = none) →
      optimizer_create reg env heap parameters num_parameters config = none) ∧
    (∀ (ps : List Ptr) (init_fn : OptimizerInitStateFn) (step_fn : OptimizerStepFn)
        (free_fn : OptimizerFreeStateFn),
      parameters = some ps → num_parameters ≠ 0 →
      reg.get_optimizer_init_state_fn config.name = some init_fn →
      reg.get_optimizer_step_fn config.name = some step_fn →
      reg.get_optimizer_free_state_fn config.name = some free_fn →
      (call_init_state init_fn env heap parameters num_parameters config.params = none →
        optimizer_create reg env heap parameters num_parameters config = none) ∧
      (∀ (heap2 : Heap α) (state : OptimizerState α),
        call_init_state init_fn env heap parameters num_parameters config.params =
          some (heap2, state) →
        ∃ opt, optimizer_create reg env heap parameters num_parameters config =
            some (heap2, opt) ∧
          opt.parameters = some ps ∧ opt.num_parameters = num_parameters ∧
          opt.step = some step_fn ∧ opt.free_state = some free_fn ∧
          opt.state = some state ∧ opt.name = config.name)) := by
  refine ⟨?_, ?_, ?_⟩
  · intro h
    rcases h with h | h
    · simp [optimizer_create, h]
    · simp [optimizer_create, h]
  · intro h
    unfold optimizer_create
    split
    · rfl
    · rcases h with h | h | h
      · simp [h]
      · rw [h]
        cases reg.get_optimizer_init_state_fn config.name <;> rfl
      · rw [h]
        cases reg.get_optimizer_init_state_fn config.name <;>
          cases reg.get_optimizer_step_fn config.name <;> rfl
  · intro ps init_fn step_fn free_fn hps hn h1 h2 h3
    have hguard : ¬ (parameters.isNone = true ∨ num_parameters = 0) := by
      simp [hps, hn]
    refine ⟨?_, ?_⟩
    · intro hnone
      simp only [optimizer_create, if_neg hguard, h1, h2, h3, hnone]
    · intro heap2 state hsome
      have e : optimizer_create reg env heap parameters num_parameters config =
          some (heap2, { name := config.name, parameters := parameters,
                         num_parameters := num_parameters, step := some step_fn,
                         zero_grad := some OptimizerZeroGradFn.optimizer_zero_grad,
                         free_state := some free_fn, state := some state }) := by
        simp only [optimizer_create, if_neg hguard, h1, h2, h3, hsome]
      exact ⟨_, e, hps, rfl, rfl, rfl, rfl, rfl⟩

/-- C5, instance: with the built-in registry, `ADAM(...)` over the one-parameter list
`[0]` of the example heap yields an optimizer over that list with the `adam_step`
capability. -/
theorem optimizer_create_contract_witness :
    ∃ heap2 opt,
      optimizer_create (optimizer_register_builtins OptimizerRegistry.empty) example_env
        example_heap (some [0]) 1 (ADAM (1 / 10) (9 / 10) (99 / 100) (1 / 100)) =
        some (heap2, opt) ∧
      opt.parameters = some [0] ∧ opt.num_parameters = 1 ∧
      opt.step = some OptimizerStepFn.adam_step := by
  obtain ⟨r, hr⟩ : ∃ r, call_init_state OptimizerInitStateFn.adam_init_state example_env
      example_heap (some [0]) 1
      (ADAM (1 / 10 : ℚ) (9 / 10) (99 / 100) (1 / 100)).params = some r := ⟨_, rfl⟩
  obtain ⟨opt, h1, h2, h3, h4, _⟩ :=
    ((optimizer_create_contract (optimizer_register_builtins OptimizerRegistry.empty)
      example_env example_heap (some [0]) 1 (ADAM (1 / 10) (9 / 10) (99 / 100) (1 / 100))).2.2
      [0] OptimizerInitStateFn.adam_init_state OptimizerStepFn.adam_step
      OptimizerFreeStateFn.adam_free_state rfl (by decide) rfl rfl rfl).2 r.1 r.2 hr
  exact ⟨r.1, opt, h1, h2, h3, h4⟩

end Core
namespace Core

theorem tensor_fill_eq {α : Type} {heap : Heap α} {T : Ptr} {t : Tensor α}
    (h : heap[T]? = some t) (x : α) :
    tensor_fill heap T x = some (heap.set T { t with data := List.replicate t.size x }) := by
  simp [tensor_fill, h]

/-- A fresh tensor made by `tensor_create` and then filled with zero: the heap grows by
one cell, the old cells are untouched, the new address is the old heap length and the new
tensor has the first `ndim` entries of `shape` as its shape and only zeros as data. -/
theorem create_fill_spec {α : Type} [Zero α] (env : Env α) (h : Heap α) (shape : List Nat)
    (ndim : Nat) :
    (tensor_create env h shape ndim).2 = h.length ∧
    ∃ h2 t, tensor_fill (tensor_create env h shape ndim).1
        (tensor_create env h shape ndim).2 0 = some h2 ∧
      h2.length = h.length + 1 ∧ (∀ q, q < h.length → h2[q]? = h[q]?) ∧
      h2[h.length]? = some t ∧ t.shape = shape.take ndim ∧
      t.size = (shape.take ndim).prod ∧ t.data = List.replicate t.size 0 := by
  obtain ⟨t0, ht0, hs0, hz0⟩ : ∃ t0 : Tensor α,
      (tensor_create env h shape ndim).1[(tensor_create env h shape ndim).2]? = some t0 ∧
      t0.shape = shape.take ndim ∧ t0.size = (shape.take ndim).prod :=
    ⟨{ ndim := ndim, shape := shape.take ndim, size := (shape.take ndim).prod,
       data := (List.range (shape.take ndim).prod).map env.uninit,
       grad := none, requires_grad := 0, op := OpType.OP_NONE, inputs := none,
       num_inputs := 0, backward_fn := none, extra_data := none },
      by simp [tensor_create], rfl, rfl⟩
  refine ⟨rfl, (tensor_create env h shape ndim).1.set (tensor_create env h shape ndim).2
      { t0 with data := List.replicate t0.size 0 },
    { t0 with data := List.replicate t0.size 0 }, tensor_fill_eq ht0 0, ?_, ?_, ?_,
    hs0, hz0, rfl⟩
  · simp [tensor_create]
  · intro q hq
    simp only [tensor_create]
    rw [List.getElem?_set_ne (by omega), List.getElem?_append_left hq]
  · have e : (tensor_create env h shape ndim).2 = h.length := rfl
    rw [← e]
    exact heap_set_self _ _ t0 _ ht0

end Core
namespace Core

theorem zeroLike_of_fill {α : Type} [Zero α] {tp t : Tensor α} (hshape : tp.shape.length ≤ tp.ndim)
    (h1 : t.shape = tp.shape.take tp.ndim) (h2 : t.size = (tp.shape.take tp.ndim).prod)
    (h3 : t.data = List.replicate t.size 0) : ZeroLike tp t := by
  have e : tp.shape.take tp.ndim = tp.shape := List.take_of_length_le hshape
  rw [e] at h1 h2
  refine ⟨h1, h2, by rw [h3, List.length_replicate], ?_⟩
  intro x hx
  rw [h3] at hx
  exact List.eq_of_mem_replicate hx

end Core
namespace Core

/-- One iteration of the loop of `adam_init_state` on a heap `h` that holds the parameter
`tp` at `param`: two tensors are appended, at addresses `h.length` and `h.length + 1`, both
zero tensors of the shape of `tp`; the old cells are untouched. -/
theorem adam_create_fill_spec {α : Type} [Zero α] (env : Env α) (h : Heap α) (param : Ptr)
    (tp : Tensor α) (hp : h[param]? = some tp) (hshape : tp.shape.length ≤ tp.ndim) :
    ∃ h1 h2 tm tv,
      (tensor_create env h tp.shape tp.ndim).1[param]? = some tp ∧
      tensor_fill
        (tensor_create env (tensor_create env h tp.shape tp.ndim).1 tp.shape tp.ndim).1
        (tensor_create env h tp.shape tp.ndim).2 0 = some h1 ∧
      tensor_fill h1
        (tensor_create env (tensor_create env h tp.shape tp.ndim).1 tp.shape tp.ndim).2 0 =
          some h2 ∧
      (tensor_create env h tp.shape tp.ndim).2 = h.length ∧
      (tensor_create env (tensor_create env h tp.shape tp.ndim).1 tp.shape tp.ndim).2 =
        h.length + 1 ∧
      h2.length = h.length + 2 ∧ (∀ q, q < h.length → h2[q]? = h[q]?) ∧
      h2[h.length]? = some tm ∧ h2[h.length + 1]? = some tv ∧
      ZeroLike tp tm ∧ ZeroLike tp tv := by
  have hplt : param < h.length := heap_lt_of_getElem? hp
  have e1 : (tensor_create env h tp.shape tp.ndim).1[param]? = some tp := by
    simp only [tensor_create]
    rw [List.getElem?_append_left hplt, hp]
  obtain ⟨t0, ht0, hs0, hz0⟩ : ∃ t0 : Tensor α,
      (tensor_create env h tp.shape tp.ndim).1 = h ++ [t0] ∧
      t0.shape = tp.shape.take tp.ndim ∧ t0.size = (tp.shape.take tp.ndim).prod :=
    ⟨{ ndim := tp.ndim, shape := tp.shape.take tp.ndim, size := (tp.shape.take tp.ndim).prod,
       data := (List.range (tp.shape.take tp.ndim).prod).map env.uninit,
       grad := none, requires_grad := 0, op := OpType.OP_NONE, inputs := none,
       num_inputs := 0, backward_fn := none, extra_data := none }, rfl, rfl, rfl⟩
  obtain ⟨t1, ht1, hs1, hz1⟩ : ∃ t1 : Tensor α,
      (tensor_create env (h ++ [t0]) tp.shape tp.ndim).1 = h ++ [t0] ++ [t1] ∧
      t1.shape = tp.shape.take tp.ndim ∧ t1.size = (tp.shape.take tp.ndim).prod :=
    ⟨{ ndim := tp.ndim, shape := tp.shape.take tp.ndim, size := (tp.shape.take tp.ndim).prod,
       data := (List.range (tp.shape.take tp.ndim).prod).map env.uninit,
       grad := none, requires_grad := 0, op := OpType.OP_NONE, inputs := none,
       num_inputs := 0, backward_fn := none, extra_data := none }, rfl, rfl, rfl⟩
  have a1 : (tensor_create env h tp.shape tp.ndim).2 = h.length := rfl
  have a2 : (tensor_create env (h ++ [t0]) tp.shape tp.ndim).2 = h.length + 1 := by
    simp [tensor_create]
  have g0 : (h ++ [t0] ++ [t1])[h.length]? = some t0 := by
    rw [List.getElem?_append_left (by simp), List.getElem?_append_right (Nat.le_refl _)]
    simp
  have f0 := tensor_fill_eq g0 (0 : α)
  have g1 : ((h ++ [t0] ++ [t1]).set h.length
      { t0 with data := List.replicate t0.size 0 })[h.length + 1]? = some t1 := by
    rw [List.getElem?_set_ne (by omega),
      List.getElem?_append_right (by simp)]
    simp
  have f1 := tensor_fill_eq g1 (0 : α)
  refine ⟨(h ++ [t0] ++ [t1]).set h.length { t0 with data := List.replicate t0.size 0 },
    ((h ++ [t0] ++ [t1]).set h.length { t0 with data := List.replicate t0.size 0 }).set
      (h.length + 1) { t1 with data := List.replicate t1.size 0 },
    { t0 with data := List.replicate t0.size 0 },
    { t1 with data := List.replicate t1.size 0 }, e1, ?_, ?_, a1, ?_, ?_, ?_, ?_, ?_,
    zeroLike_of_fill hshape hs0 hz0 rfl, zeroLike_of_fill hshape hs1 hz1 rfl⟩
  · rw [ht0, ht1, a1]; exact f0
  · rw [ht0, a2]; exact f1
  · rw [ht0]; exact a2
  · simp
  · intro q hq
    rw [List.getElem?_set_ne (by omega), List.getElem?_set_ne (by omega),
      List.getElem?_append_left (by simp; omega), List.getElem?_append_left hq]
  · rw [List.getElem?_set_ne (by omega)]
    exact heap_set_self _ _ t0 _ g0
  · exact heap_set_self _ _ t1 _ g1

end Core
namespace Core

/-- The loop of `adam_init_state`: the moment entries of parameter `i` are the fresh
addresses `heap.length + 2 * i` and `heap.length + 2 * i + 1`, where zero tensors of the
shape of parameter `i` sit; the tensors of the old heap are untouched. -/
theorem adam_init_loop {α : Type} [Zero α] (env : Env α) (heap : Heap α) (ps : List Ptr)
    (n : Nat) (hlen : n ≤ ps.length)
    (hvalid : ∀ i p, i < n → ps[i]? = some p →
      ∃ tp, heap[p]? = some tp ∧ tp.shape.length ≤ tp.ndim) :
    ∃ h ms vs, for_loop n (fun i (s : Heap α × List Ptr × List Ptr) => do
          let ps ← some ps
          let param ← ps[i]?
          let tp ← s.1[param]?
          let cm := tensor_create env s.1 tp.shape tp.ndim
          let tp2 ← cm.1[param]?
          let cv := tensor_create env cm.1 tp2.shape tp2.ndim
          let h ← tensor_fill cv.1 cm.2 0
          let h ← tensor_fill h cv.2 0
          pure (h, s.2.1 ++ [cm.2], s.2.2 ++ [cv.2])) (heap, [], []) = some (h, ms, vs) ∧
      h.length = heap.length + 2 * n ∧ (∀ q, q < heap.length → h[q]? = heap[q]?) ∧
      ms.length = n ∧ vs.length = n ∧
      ∀ i p tp, i < n → ps[i]? = some p → heap[p]? = some tp →
        ∃ tm tv, ms[i]? = some (heap.length + 2 * i) ∧
          vs[i]? = some (heap.length + 2 * i + 1) ∧
          h[heap.length + 2 * i]? = some tm ∧ h[heap.length + 2 * i + 1]? = some tv ∧
          ZeroLike tp tm ∧ ZeroLike tp tv := by
  have key := for_loop_inv n (fun i (s : Heap α × List Ptr × List Ptr) => do
          let ps ← some ps
          let param ← ps[i]?
          let tp ← s.1[param]?
          let cm := tensor_create env s.1 tp.shape tp.ndim
          let tp2 ← cm.1[param]?
          let cv := tensor_create env cm.1 tp2.shape tp2.ndim
          let h ← tensor_fill cv.1 cm.2 0
          let h ← tensor_fill h cv.2 0
          pure (h, s.2.1 ++ [cm.2], s.2.2 ++ [cv.2]))
    (fun k s => s.1.length = heap.length + 2 * k ∧
      (∀ q, q < heap.length → s.1[q]? = heap[q]?) ∧
      s.2.1.length = k ∧ s.2.2.length = k ∧
      ∀ i p tp, i < k → ps[i]? = some p → heap[p]? = some tp →
        ∃ tm tv, s.2.1[i]? = some (heap.length + 2 * i) ∧
          s.2.2[i]? = some (heap.length + 2 * i + 1) ∧
          s.1[heap.length + 2 * i]? = some tm ∧ s.1[heap.length + 2 * i + 1]? = some tv ∧
          ZeroLike tp tm ∧ ZeroLike tp tv)
    (heap, [], []) ⟨rfl, fun _ _ => rfl, rfl, rfl,
      fun i p tp hi => absurd hi (Nat.not_lt_zero i)⟩
    (by
      rintro k ⟨h, ms, vs⟩ hk ⟨hl, hold, hml, hvl, hdone⟩
      simp only at hl hold hml hvl hdone
      have hpk : ps[k]? = some ps[k] := List.getElem?_eq_getElem (by omega)
      obtain ⟨tp, htp, hshape⟩ := hvalid k ps[k] hk hpk
      have hplt : ps[k] < heap.length := heap_lt_of_getElem? htp
      have hhp : h[ps[k]]? = some tp := by rw [hold _ hplt, htp]
      obtain ⟨h1, h2, tm, tv, e1, f0, f1, a1, a2, hl2, hold2, hm2, hv2, zm, zv⟩ :=
        adam_create_fill_spec env h ps[k] tp hhp hshape
      refine ⟨(h2, ms ++ [h.length], vs ++ [h.length + 1]), ?_, ?_, ?_, ?_, ?_, ?_⟩
      · rw [a1] at f0
        rw [a2] at f1
        simp only [hpk, hhp, Option.bind_eq_bind, Option.some_bind, e1, f0, f1, a1, a2]
        rfl
      · simp only [hl2, hl]; omega
      · intro q hq
        simp only
        rw [hold2 q (by omega), hold q hq]
      · simp [hml]
      · simp [hvl]
      · intro i p tp2 hi hp htp2
        simp only
        rcases Nat.lt_succ_iff_lt_or_eq.mp hi with h3 | h3
        · obtain ⟨tm2, tv2, a, b, c, d, e, f⟩ := hdone i p tp2 h3 hp htp2
          refine ⟨tm2, tv2, ?_, ?_, ?_, ?_, e, f⟩
          · rw [List.getElem?_append_left (by omega), a]
          · rw [List.getElem?_append_left (by omega), b]
          · rw [hold2 _ (by omega), c]
          · rw [hold2 _ (by omega), d]
        · rw [h3] at hp ⊢
          rw [hpk] at hp
          cases hp
          rw [htp] at htp2
          cases htp2
          refine ⟨tm, tv, ?_, ?_, ?_, ?_, zm, zv⟩
          · rw [List.getElem?_append_right (by omega)]
            simp [hml, hl]
          · rw [List.getElem?_append_right (by omega)]
            simp [hvl, hl]
          · rw [← hl]; exact hm2
          · rw [← hl]; exact hv2)
  obtain ⟨⟨h, ms, vs⟩, h1, h2, h3, h4, h5, h6⟩ := key
  exact ⟨h, ms, vs, h1, h2, h3, h4, h5, h6⟩

end Core
namespace Core

end Core
namespace Core

end Core
namespace Core

/-- The constructor `tensor_randn`: the heap grows by one cell at the old heap length,
holding a tensor of the given shape with `size` data elements; old cells are untouched. -/
theorem tensor_randn_spec {α : Type} (env : Env α) (h : Heap α) (shape : List Nat)
    (ndim : Nat) (seed : Int) :
    ∃ h2 t, tensor_randn env h shape ndim seed = some (h2, h.length) ∧
      h2.length = h.length + 1 ∧ (∀ q, q < h.length → h2[q]? = h[q]?) ∧
      h2[h.length]? = some t ∧ t.shape = shape.take ndim ∧
      t.size = (shape.take ndim).prod ∧ t.data.length = t.size := by
  have hget : (tensor_create env h shape ndim).1[(tensor_create env h shape ndim).2]? =
      some { ndim := ndim, shape := shape.take ndim, size := (shape.take ndim).prod,
             data := (List.range (shape.take ndim).prod).map env.uninit,
             grad := none, requires_grad := 0, op := OpType.OP_NONE, inputs := none,
             num_inputs := 0, backward_fn := none, extra_data := none } := by
    simp [tensor_create]
  refine ⟨(tensor_create env h shape ndim).1.set (tensor_create env h shape ndim).2
      { ndim := ndim, shape := shape.take ndim, size := (shape.take ndim).prod,
        data := (List.range (shape.take ndim).prod).map (env.randn seed),
        grad := none, requires_grad := 0, op := OpType.OP_NONE, inputs := none,
        num_inputs := 0, backward_fn := none, extra_data := none },
    { ndim := ndim, shape := shape.take ndim, size := (shape.take ndim).prod,
      data := (List.range (shape.take ndim).prod).map (env.randn seed),
      grad := none, requires_grad := 0, op := OpType.OP_NONE, inputs := none,
      num_inputs := 0, backward_fn := none, extra_data := none },
    ?_, ?_, ?_, ?_, rfl, rfl, by simp⟩
  · simp only [tensor_randn, hget]
    rfl
  · simp [tensor_create]
  · intro q hq
    simp only [tensor_create]
    rw [List.getElem?_set_ne (by omega), List.getElem?_append_left hq]
  · have e : (tensor_create env h shape ndim).2 = h.length := rfl
    rw [← e]
    exact heap_set_self _ _ _ _ hget

/-- The constructor `tensor_zeroes`: the heap grows by one cell at the old heap length,
holding a zero tensor of the given shape; old cells are untouched. -/
theorem tensor_zeroes_spec {α : Type} [Zero α] (env : Env α) (h : Heap α) (shape : List Nat)
    (ndim : Nat) :
    ∃ h2 t, tensor_zeroes env h shape ndim = some (h2, h.length) ∧
      h2.length = h.length + 1 ∧ (∀ q, q < h.length → h2[q]? = h[q]?) ∧
      h2[h.length]? = some t ∧ t.shape = shape.take ndim ∧
      t.size = (shape.take ndim).prod ∧ t.data = List.replicate t.size 0 := by
  obtain ⟨hc, h2, t, hfill, hl, hold, hnew, hs, hz, hd⟩ := create_fill_spec env h shape ndim
  refine ⟨h2, t, ?_, hl, hold, hnew, hs, hz, hd⟩
  simp only [tensor_zeroes, hfill, Option.map_some']
  rfl

/-- The loop of `linear_create` that scales the weights: the data of the tensor at `p`
changes (every element `k < n` is multiplied by `scale`), nothing else does. -/
theorem scale_loop {α : Type} [LinearOrderedField α] (scale : α) (heap : Heap α) (p : Ptr)
    (tp : Tensor α) (hp : heap[p]? = some tp) (n : Nat) (hnd : n ≤ tp.data.length) :
    ∃ h d, for_loop n (fun i (heap : Heap α) => do
          let x ← read_data heap p i
          write_data heap p i (x * scale)) heap = some h ∧
      h.length = heap.length ∧ (∀ q, q ≠ p → h[q]? = heap[q]?) ∧
      h[p]? = some { tp with data := d } ∧ d.length = tp.data.length ∧
      (∀ k, k < n → d[k]? = some (tp.data.getD k 0 * scale)) := by
  have key := for_loop_inv n (fun i (heap : Heap α) => do
          let x ← read_data heap p i
          write_data heap p i (x * scale))
    (fun j h => h.length = heap.length ∧ (∀ q, q ≠ p → h[q]? = heap[q]?) ∧
      ∃ d, h[p]? = some { tp with data := d } ∧ d.length = tp.data.length ∧
      (∀ k, k < j → d[k]? = some (tp.data.getD k 0 * scale)) ∧
      (∀ k, j ≤ k → d[k]? = tp.data[k]?))
    heap ⟨rfl, fun _ _ => rfl, tp.data, by simpa using hp, rfl,
      fun k hk => absurd hk (Nat.not_lt_zero k), fun _ _ => rfl⟩
    (by
      rintro j h hj ⟨hl, hu, d, hd, hdl, hlow, hhigh⟩
      have hjd : j < d.length := by omega
      have hdj : d[j]? = some (tp.data.getD j 0) := by
        rw [hhigh j (Nat.le_refl j)]
        exact getElem?_eq_some_getD _ _ _ (by omega)
      obtain ⟨h2, hw, hl2, hp2, hu2⟩ := write_data_spec hd (j := j) hjd
        (tp.data.getD j 0 * scale)
      refine ⟨h2, ?_, by rw [hl2, hl], fun q hq => by rw [hu2 q hq, hu q hq],
        d.set j (tp.data.getD j 0 * scale), hp2, by simp [hdl], ?_, ?_⟩
      · simp only [read_data_eq hd, hdj, Option.bind_eq_bind, Option.some_bind]
        exact hw
      · intro k hk
        rcases Nat.lt_succ_iff_lt_or_eq.mp hk with h3 | h3
        · rw [List.getElem?_set_ne (by omega)]
          exact hlow k h3
        · rw [h3, List.getElem?_set_self hjd]
      · intro k hk
        rw [List.getElem?_set_ne (by omega)]
        exact hhigh k (by omega))
  obtain ⟨h, h1, h2, h3, d, h4, h5, h6, _⟩ := key
  exact ⟨h, d, h1, h2, h3, h4, h5, h6⟩

theorem builtins_linear (reg : LayerRegistry) :
    (layer_register_builtins reg).get_layer_create_fn "linear" =
      some LayerCreateFn.linear_create := by
  simp [layer_register_builtins, register_layer]

/-- The run of `layer_create` on `LINEAR(in_features, out_features)`: the weights are
created at the old heap length (heap `h1`), scaled in place (heap `h2`), the bias is created
at the next address (heap `h3`), and the layer refers to the two addresses. -/
theorem layer_create_linear_eq {α : Type} [LinearOrderedField α] (reg : LayerRegistry)
    (env : Env α) (heap : Heap α) (in_features out_features : Nat) :
    ∃ (h1 h2 h3 : Heap α) (tw tb : Tensor α) (d : List α),
      h1.length = heap.length + 1 ∧ (∀ q, q < heap.length → h1[q]? = heap[q]?) ∧
      tw.shape = [in_features, out_features] ∧
      h2.length = h1.length ∧ (∀ q, q ≠ heap.length → h2[q]? = h1[q]?) ∧
      h2[heap.length]? = some { tw with data := d } ∧
      (∀ q, q < h2.length → h3[q]? = h2[q]?) ∧ h3[h2.length]? = some tb ∧
      tb.shape = [out_features] ∧ tb.size = out_features ∧
      tb.data = List.replicate tb.size 0 ∧
      layer_create (layer_register_builtins reg) env heap (LINEAR in_features out_features) =
        some (h3,
          { name := "linear", weights := some heap.length, bias := some h2.length,
            output := none, parameters := some [heap.length, h2.length],
            num_parameters := 2, forward := some LayerForwardFn.linear_forward,
            config_data := some (LayerParams.linear ⟨in_features, out_features⟩),
            config_data_size := sizeof_LinearParams }) := by
  obtain ⟨h1, tw, hr, hl1, hold1, hw1, hs1, hz1, hd1⟩ :=
    tensor_randn_spec env heap [in_features, out_features] 2 42
  obtain ⟨h2, d, hloop, hl2, hu2, hw2, _, _⟩ :=
    scale_loop (env.sqrtf (2 / (in_features : α))) h1 heap.length tw hw1 tw.size
      (by rw [hd1])
  obtain ⟨h3, tb, hz, hl3, hold3, hb3, hs3, hz3, hd3⟩ :=
    tensor_zeroes_spec env h2 [out_features] 1
  refine ⟨h1, h2, h3, tw, tb, d, hl1, hold1, by rw [hs1]; rfl, hl2, hu2, hw2, hold3, hb3,
    by rw [hs3]; rfl, by rw [hz3]; simp, hd3, ?_⟩
  simp only [Option.bind_eq_bind] at hloop
  simp only [layer_create, builtins_linear, LINEAR, linear_create, hr, Option.bind_eq_bind,
    Option.some_bind, hw1, hloop, hz]
  rfl

/-- C7: for every `in_features` and `out_features`, `layer_create` on
`LINEAR(in_features, out_features)` with the built-in registry returns a layer whose
weight tensor has shape `[in_features, out_features]`, whose bias tensor has shape
`[out_features]` and `out_features` elements, all zero, and whose parameter list is exactly
`[weights, bias]` with `num_parameters = 2`: two different fresh tensors that are the
layer's own `weights` and `bias`. The tensors of the old heap are untouched. -/
theorem layer_create_linear {α : Type} [LinearOrderedField α] (reg : LayerRegistry)
    (env : Env α) (heap : Heap α) (in_features out_features : Nat) :
    ∃ heap2 l w b tw tb,
      layer_create (layer_register_builtins reg) env heap (LINEAR in_features out_features) =
        some (heap2, l) ∧
      l.weights = some w ∧ l.bias = some b ∧ w ≠ b ∧ heap.length ≤ w ∧ heap.length ≤ b ∧
      heap2[w]? = some tw ∧ heap2[b]? = some tb ∧
      tw.shape = [in_features, out_features] ∧ tb.shape = [out_features] ∧
      tb.data.length = out_features ∧ (∀ x ∈ tb.data, x = 0) ∧
      l.parameters = some [w, b] ∧ l.num_parameters = 2 ∧
      l.forward = some LayerForwardFn.linear_forward ∧
      ∀ q, q < heap.length → heap2[q]? = heap[q]? := by
  obtain ⟨h1, h2, h3, tw, tb, d, hl1, hold1, hs1, hl2, hu2, hw2, hold3, hb3, hs3, hsize, hd3,
    hcreate⟩ := layer_create_linear_eq reg env heap in_features out_features
  have hlt : heap.length < h2.length := by rw [hl2, hl1]; exact Nat.lt_succ_self _
  refine ⟨h3, _, heap.length, h2.length, { tw with data := d }, tb, hcreate, rfl, rfl, ?_, ?_,
    ?_, ?_, hb3, hs1, hs3, ?_, ?_, rfl, rfl, rfl, ?_⟩
  · exact Nat.ne_of_lt hlt
  · exact Nat.le_refl _
  · exact Nat.le_of_lt hlt
  · rw [hold3 _ hlt, hw2]
  · rw [hd3, List.length_replicate, hsize]
  · intro x hx
    rw [hd3] at hx
    exact List.eq_of_mem_replicate hx
  · intro q hq
    rw [hold3 q (Nat.lt_trans hq hlt), hu2 q (Nat.ne_of_lt hq), hold1 q hq]

end Core
namespace Core

theorem builtins_activation (reg : LayerRegistry) (config : LayerConfig)
    (h : config ∈ [RELU, SIGMOID, TANH, SOFTMAX]) :
    (layer_register_builtins reg).get_layer_create_fn config.name =
      some LayerCreateFn.activation_create := by
  simp only [List.mem_cons, List.mem_singleton, List.not_mem_nil, or_false] at h
  rcases h with h | h | h | h <;> rw [h] <;>
    simp [layer_register_builtins, register_layer, RELU, SIGMOID, TANH, SOFTMAX]

/-- C8: `layer_get_parameters` on a layer and a non-null `num_params` returns the layer's
parameter list and writes its `num_parameters`; with a null layer or a null `num_params`
it returns null and writes nothing. For a layer that `layer_create` builds from `RELU()`,
`SIGMOID()`, `TANH()` or `SOFTMAX()` the layer owns no weights and no bias and the count
is 0; for one built from `LINEAR(..)` the list is `[weights, bias]` and the count is 2. -/
theorem layer_get_parameters_spec {α : Type} [LinearOrderedField α] (reg : LayerRegistry)
    (env : Env α) (heap : Heap α) :
    (∀ (l : Layer) (k : Nat),
      layer_get_parameters (some l) (some k) = (l.parameters, some l.num_parameters)) ∧
    (∀ (np : Option Nat), layer_get_parameters none np = (none, np)) ∧
    (∀ (l : Option Layer), layer_get_parameters l none = (none, none)) ∧
    (∀ config ∈ [RELU, SIGMOID, TANH, SOFTMAX], ∃ l,
      layer_create (layer_register_builtins reg) env heap config = some (heap, l) ∧
      l.weights = none ∧ l.bias = none ∧
      ∀ k : Nat, layer_get_parameters (some l) (some k) = (none, some 0)) ∧
    (∀ in_features out_features : Nat, ∃ heap2 l w b,
      layer_create (layer_register_builtins reg) env heap (LINEAR in_features out_features) =
        some (heap2, l) ∧
      l.weights = some w ∧ l.bias = some b ∧
      ∀ k : Nat, layer_get_parameters (some l) (some k) = (some [w, b], some 2)) := by
  refine ⟨fun l k => rfl, fun np => ?_, fun l => ?_, ?_, ?_⟩
  · cases np <;> rfl
  · cases l <;> rfl
  · intro config hc
    refine ⟨activation_create (layer_register_builtins reg) config, ?_, rfl, rfl,
      fun k => rfl⟩
    simp only [layer_create, builtins_activation reg config hc]
  · intro in_features out_features
    obtain ⟨h1, h2, h3, tw, tb, d, _, _, _, _, _, _, _, _, _, _, _, hcreate⟩ :=
      layer_create_linear_eq reg env heap in_features out_features
    exact ⟨h3, _, heap.length, h2.length, hcreate, rfl, rfl, fun k => rfl⟩

/-- C9: `layer_forward` returns null and leaves the state of the operations as it is (so
no operation was invoked, whatever the operations do) when the layer is null, when it has
no forward function, and, for a layer whose forward function is `linear_forward`, when the
input, the weights or the bias is null. Otherwise a Linear layer returns
`tensor_add(tensor_matmul(input, weights), bias)`. -/
theorem layer_forward_spec {ω : Type} (ops : Ops ω) (w : ω) (input : Option Ptr) :
    layer_forward ops w none input = (w, none) ∧
    (∀ l : Layer, l.forward = none → layer_forward ops w (some l) input = (w, none)) ∧
    (∀ l : Layer, l.forward = some LayerForwardFn.linear_forward →
      (input = none ∨ l.weights = none ∨ l.bias = none) →
      layer_forward ops w (some l) input = (w, none)) ∧
    (∀ (l : Layer) (x wt b : Ptr), l.forward = some LayerForwardFn.linear_forward →
      input = some x → l.weights = some wt → l.bias = some b →
      layer_forward ops w (some l) input =
        ops.tensor_add (ops.tensor_matmul w (some x) (some wt)).1
          (ops.tensor_matmul w (some x) (some wt)).2 (some b)) := by
  refine ⟨rfl, ?_, ?_, ?_⟩
  · intro l hf
    simp only [layer_forward, hf]
  · intro l hf hnull
    have hc : input.isNone = true ∨ l.weights.isNone = true ∨ l.bias.isNone = true := by
      rcases hnull with h | h | h
      · exact Or.inl (by rw [h]; rfl)
      · exact Or.inr (Or.inl (by rw [h]; rfl))
      · exact Or.inr (Or.inr (by rw [h]; rfl))
    simp only [layer_forward, hf, call_forward, linear_forward, if_pos hc]
  · intro l x wt b hf hx hw hb
    have hc : ¬ (input.isNone = true ∨ l.weights.isNone = true ∨ l.bias.isNone = true) := by
      rw [hx, hw, hb]
      simp
    simp only [layer_forward, hf, call_forward, linear_forward, if_neg hc]
    rw [hx, hw, hb]

/-- C9, instance: a Linear layer with weights at address 0 and bias at address 1, over
operations that count their calls: with a null input the result is null and the count
stays 0; with an input the two operations are called. -/
theorem layer_forward_spec_witness :
    layer_forward counting_ops 0
      (some { name := "linear", weights := some 0, bias := some 1, output := none,
              parameters := some [0, 1], num_parameters := 2,
              forward := some LayerForwardFn.linear_forward, config_data := none,
              config_data_size := 0 }) none = (0, none) ∧
    layer_forward counting_ops 0
      (some { name := "linear", weights := some 0, bias := some 1, output := none,
              parameters := some [0, 1], num_parameters := 2,
              forward := some LayerForwardFn.linear_forward, config_data := none,
              config_data_size := 0 }) (some 2) = (2, none) :=
  ⟨(layer_forward_spec counting_ops 0 none).2.2.1 _ rfl (Or.inl rfl),
   (layer_forward_spec counting_ops 0 (some 2)).2.2.2 _ 2 0 1 rfl rfl rfl rfl⟩

end Core
namespace Core

theorem tensor_zero_grad_eq {α : Type} [Zero α] (mode : ZeroGradMode) {heap : Heap α}
    {T : Ptr} {t : Tensor α} (h : heap[T]? = some t) :
    tensor_zero_grad mode heap T = some (heap.set T (zero_grad_result mode t)) := by
  simp [tensor_zero_grad, h, zero_grad_result]

theorem zero_grad_result_idem {α : Type} [Zero α] (mode : ZeroGradMode) (t : Tensor α) :
    zero_grad_result mode (zero_grad_result mode t) = zero_grad_result mode t := by
  cases mode with
  | deallocate => rfl
  | reset =>
    cases hg : t.grad with
    | none => simp [zero_grad_result, hg]
    | some g => simp [zero_grad_result, hg, List.map_map]

theorem zero_grad_result_of_none {α : Type} [Zero α] (mode : ZeroGradMode) (t : Tensor α)
    (h : t.grad = none) : zero_grad_result mode t = t := by
  cases t
  cases mode <;> simp_all [zero_grad_result]

theorem gradZero_zero_grad_result {α : Type} [Zero α] (mode : ZeroGradMode) (t : Tensor α) :
    GradZero (zero_grad_result mode t) := by
  intro g hg x hx
  cases mode with
  | deallocate => simp [zero_grad_result] at hg
  | reset =>
    cases hgr : t.grad with
    | none => simp [zero_grad_result, hgr] at hg
    | some g0 =>
      simp only [zero_grad_result, hgr, Option.map_some', Option.some.injEq] at hg
      rw [← hg] at hx
      obtain ⟨_, _, e⟩ := List.mem_map.mp hx
      exact e.symm

/-- The loop of `optimizer_zero_grad` and `layer_zero_grad` over `n` live parameters: the
tensor of every parameter is replaced by its `zero_grad_result`, all other tensors are
untouched. -/
theorem zero_grad_loop {α : Type} [Zero α] (mode : ZeroGradMode) (heap : Heap α)
    (ps : List Ptr) (n : Nat) (hlen : n ≤ ps.length)
    (hvalid : ∀ i p, i < n → ps[i]? = some p → p < heap.length) :
    ∃ h, for_loop n (fun i (heap : Heap α) => do
          let ps ← some ps
          let param ← ps[i]?
          let tp ← heap[param]?
          if tp.grad.isSome then tensor_zero_grad mode heap param else pure heap) heap
        = some h ∧
      h.length = heap.length ∧
      (∀ q, (∀ i, i < n → ps[i]? ≠ some q) → h[q]? = heap[q]?) ∧
      (∀ i p t, i < n → ps[i]? = some p → heap[p]? = some t →
        h[p]? = some (zero_grad_result mode t)) := by
  exact for_loop_inv n (fun i (heap : Heap α) => do
          let ps ← some ps
          let param ← ps[i]?
          let tp ← heap[param]?
          if tp.grad.isSome then tensor_zero_grad mode heap param else pure heap)
    (fun k h => h.length = heap.length ∧
      (∀ q, (∀ i, i < k → ps[i]? ≠ some q) → h[q]? = heap[q]?) ∧
      (∀ i p t, i < k → ps[i]? = some p → heap[p]? = some t →
        h[p]? = some (zero_grad_result mode t)))
    heap ⟨rfl, fun _ _ => rfl, fun i p t hi => absurd hi (Nat.not_lt_zero i)⟩
    (by
      rintro k h hk ⟨hl, hu, hdone⟩
      have hpk : ps[k]? = some ps[k] := List.getElem?_eq_getElem (by omega)
      have hplt : ps[k] < heap.length := hvalid k ps[k] hk hpk
      have ht0 : heap[ps[k]]? = some heap[ps[k]] := List.getElem?_eq_getElem hplt
      -- the current tensor of the parameter, whether or not it was met before
      obtain ⟨c, hc, hzc⟩ : ∃ c, h[ps[k]]? = some c ∧
          zero_grad_result mode c = zero_grad_result mode heap[ps[k]] := by
        by_cases hex : ∃ i, i < k ∧ ps[i]? = some ps[k]
        · obtain ⟨i, hi, hpi⟩ := hex
          exact ⟨_, hdone i ps[k] _ hi hpi ht0, zero_grad_result_idem mode _⟩
        · refine ⟨heap[ps[k]], ?_, rfl⟩
          rw [hu ps[k] (fun i hi hpi => hex ⟨i, hi, hpi⟩), ht0]
      -- in both branches the heap afterwards is `h` with `zero_grad_result c` at the cell
      obtain ⟨h2, hb, hl2, hcell, hother⟩ : ∃ h2,
          (do
            let ps ← some ps
            let param ← ps[k]?
            let tp ← h[param]?
            if tp.grad.isSome then tensor_zero_grad mode h param else pure h) = some h2 ∧
          h2.length = h.length ∧ h2[ps[k]]? = some (zero_grad_result mode c) ∧
          ∀ q, q ≠ ps[k] → h2[q]? = h[q]? := by
        cases hg : c.grad with
        | none =>
          refine ⟨h, ?_, rfl, ?_, fun _ _ => rfl⟩
          · simp [hpk, hc, hg]
          · rw [zero_grad_result_of_none mode c hg, hc]
        | some g =>
          refine ⟨h.set ps[k] (zero_grad_result mode c), ?_, by simp,
            heap_set_self h _ c _ hc, fun q hq => heap_set_other h _ q _ hq⟩
          simp [hpk, hc, hg, tensor_zero_grad_eq mode hc]
      refine ⟨h2, hb, by rw [hl2, hl], ?_, ?_⟩
      · intro q hq
        have hne : q ≠ ps[k] := fun e => hq k (Nat.lt_succ_self k) (by rw [e, hpk])
        rw [hother q hne]
        exact hu q (fun i hi => hq i (by omega))
      · intro i p t hi hp htp
        by_cases hpe : p = ps[k]
        · rw [hpe] at htp ⊢
          rw [ht0] at htp
          cases htp
          rw [hcell, hzc]
        · rw [hother p hpe]
          rcases Nat.lt_succ_iff_lt_or_eq.mp hi with h3 | h3
          · exact hdone i p t h3 hp htp
          · rw [h3, hpk] at hp
            cases hp
            exact absurd rfl hpe)

end Core
namespace Core

/-- One pass of the zero-grad loop followed by a second one: the second pass returns the
heap it was given. -/
theorem zero_grad_loop_twice {α : Type} [Zero α] (mode : ZeroGradMode) (heap : Heap α)
    (ps : List Ptr) (n : Nat) (hlen : n ≤ ps.length)
    (hvalid : ∀ i p, i < n → ps[i]? = some p → p < heap.length) :
    ∃ h, for_loop n (fun i (heap : Heap α) => do
          let ps ← some ps
          let param ← ps[i]?
          let tp ← heap[param]?
          if tp.grad.isSome then tensor_zero_grad mode heap param else pure heap) heap
        = some h ∧
      for_loop n (fun i (heap : Heap α) => do
          let ps ← some ps
          let param ← ps[i]?
          let tp ← heap[param]?
          if tp.grad.isSome then tensor_zero_grad mode heap param else pure heap) h
        = some h ∧
      (∀ q, (∀ i, i < n → ps[i]? ≠ some q) → h[q]? = heap[q]?) ∧
      (∀ i p t, i < n → ps[i]? = some p → heap[p]? = some t →
        h[p]? = some (zero_grad_result mode t)) := by
  obtain ⟨h, hrun, hl, hu, hdone⟩ := zero_grad_loop mode heap ps n hlen hvalid
  obtain ⟨h3, hrun3, hl3, hu3, hdone3⟩ := zero_grad_loop mode h ps n hlen
    (fun i p hi hp => by rw [hl]; exact hvalid i p hi hp)
  have heq : h3 = h := by
    apply List.ext_getElem?
    intro q
    by_cases hex : ∃ i, i < n ∧ ps[i]? = some q
    · obtain ⟨i, hi, hpi⟩ := hex
      have hq : q < heap.length := hvalid i q hi hpi
      have ht : heap[q]? = some heap[q] := List.getElem?_eq_getElem hq
      have h2q := hdone i q _ hi hpi ht
      rw [hdone3 i q _ hi hpi h2q, h2q, zero_grad_result_idem]
    · exact hu3 q (fun i hi hpi => hex ⟨i, hi, hpi⟩)
  rw [heq] at hrun3
  exact ⟨h, hrun, hrun3, hu, hdone⟩

/-- C10: for an optimizer or a layer over a parameter list of `n` live tensors,
`optimizer_zero_grad` and `layer_zero_grad` return a heap in which every parameter has a
gradient that is absent or zero in every element, with data and shape as before; the
tensors that are not parameters are untouched, and running the operation again on the
result returns the same heap. A null optimizer or layer, and a layer without parameters,
leave the heap as it is. -/
theorem zero_grad_spec {α : Type} [Zero α] (mode : ZeroGradMode) (heap : Heap α)
    (ps : List Ptr) (n : Nat) (hlen : n ≤ ps.length)
    (hvalid : ∀ i p, i < n → ps[i]? = some p → p < heap.length) :
    (∀ opt : Optimizer α, opt.parameters = some ps → opt.num_parameters = n →
      ∃ heap2, optimizer_zero_grad mode heap (some opt) = some heap2 ∧
        optimizer_zero_grad mode heap2 (some opt) = some heap2 ∧
        (∀ q, (∀ i, i < n → ps[i]? ≠ some q) → heap2[q]? = heap[q]?) ∧
        ∀ i p t, i < n → ps[i]? = some p → heap[p]? = some t →
          ∃ t2, heap2[p]? = some t2 ∧ GradZero t2 ∧ t2.data = t.data ∧
            t2.shape = t.shape) ∧
    (∀ layer : Layer, layer.parameters = some ps → layer.num_parameters = n →
      ∃ heap2, layer_zero_grad mode heap (some layer) = some heap2 ∧
        layer_zero_grad mode heap2 (some layer) = some heap2 ∧
        (∀ q, (∀ i, i < n → ps[i]? ≠ some q) → heap2[q]? = heap[q]?) ∧
        ∀ i p t, i < n → ps[i]? = some p → heap[p]? = some t →
          ∃ t2, heap2[p]? = some t2 ∧ GradZero t2 ∧ t2.data = t.data ∧
            t2.shape = t.shape) ∧
    optimizer_zero_grad mode heap (none : Option (Optimizer α)) = some heap ∧
    layer_zero_grad mode heap none = some heap ∧
    (∀ layer : Layer, layer.num_parameters = 0 →
      layer_zero_grad mode heap (some layer) = some heap) := by
  obtain ⟨h, hrun, hrun2, hu, hdone⟩ := zero_grad_loop_twice mode heap ps n hlen hvalid
  have hpost : ∀ i p t, i < n → ps[i]? = some p → heap[p]? = some t →
      ∃ t2, h[p]? = some t2 ∧ GradZero t2 ∧ t2.data = t.data ∧ t2.shape = t.shape :=
    fun i p t hi hp ht =>
      ⟨_, hdone i p t hi hp ht, gradZero_zero_grad_result mode t, rfl, rfl⟩
  refine ⟨?_, ?_, rfl, rfl, ?_⟩
  · intro opt hps hn
    refine ⟨h, ?_, ?_, hu, hpost⟩
    · simp only [optimizer_zero_grad, hps, hn]
      exact hrun
    · simp only [optimizer_zero_grad, hps, hn]
      exact hrun2
  · intro layer hps hn
    refine ⟨h, ?_, ?_, hu, hpost⟩
    · simp only [layer_zero_grad, hps, hn]
      exact hrun
    · simp only [layer_zero_grad, hps, hn]
      exact hrun2
  · intro layer hn
    simp only [layer_zero_grad, hn]
    rfl

/-- C10, instance: `optimizer_zero_grad` (resetting) on the example optimizer, whose one
parameter has the gradient `[10]`. -/
theorem zero_grad_spec_witness :
    ∃ heap2, optimizer_zero_grad ZeroGradMode.reset example_heap (some sgd_example_opt) =
        some heap2 ∧
      optimizer_zero_grad ZeroGradMode.reset heap2 (some sgd_example_opt) = some heap2 ∧
      ∃ t2, heap2[0]? = some t2 ∧ GradZero t2 ∧ t2.data = [1] := by
  have hvalid : ∀ (i : Nat) (p : Ptr), i < 1 → ([0] : List Ptr)[i]? = some p →
      p < example_heap.length := by
    intro i p hi hp
    have hi0 : i = 0 := by omega
    rw [hi0] at hp
    cases hp
    decide
  obtain ⟨heap2, h1, h2, _, h4⟩ :=
    (zero_grad_spec ZeroGradMode.reset example_heap [0] 1 (by decide) hvalid).1
      sgd_example_opt rfl rfl
  obtain ⟨t2, a, b, c, _⟩ := h4 0 0 example_param (by decide) rfl rfl
  exact ⟨heap2, h1, h2, t2, a, b, c⟩

end Core
namespace Trebuchet

/-- C11 (evaluation of the code at the failing input): for the shape `[2]`, with every
allocation succeeding, `tensor_create` builds the tensor (at address 0 of an empty heap)
but the pointer its caller receives is whatever value `ret` happens to be there. With a
null value, `tensor_zeroes` and `tensor_ones` return null instead of the tensor built, and
the data of that tensor are neither cleared nor set to one. -/
theorem tensor_create_returns_unset_value :
    (∀ ret : Option Ptr,
      (tensor_create (fun _ => (7 : ℚ)) mallocs_ok ret [] [2] 1).map Prod.snd = some ret) ∧
    (tensor_zeroes (fun _ => (7 : ℚ)) mallocs_ok none [] [2] 1).map Prod.snd = some none ∧
    (tensor_ones (fun _ => (7 : ℚ)) mallocs_ok none [] [2] 1).map Prod.snd = some none ∧
    (tensor_zeroes (fun _ => (7 : ℚ)) mallocs_ok none [] [2] 1).map
      (fun r => r.1.map Tensor.data) = some [[7, 7]] := by
  refine ⟨fun ret => rfl, rfl, rfl, rfl⟩

end Trebuchet

namespace Trebuchet

/-! ### The traversal for an arbitrary `max_size` -/

theorem SortCall.call_refl {α : Type} {heap : Heap α} (max_size : Nat) (T : Ptr) {st : SortState}
    (hinv : SortInv heap st) : SortCall heap max_size T st st :=
  ⟨hinv, ⟨[], by simp, by simp⟩, ⟨[], by simp, by simp⟩, fun h => h,
    fun _ _ h1 h2 => ⟨h1, h2⟩⟩

theorem SortCall.call_visited_mono {α : Type} {heap : Heap α} {max_size : Nat} {T : Ptr}
    {st st2 : SortState} (h : SortCall heap max_size T st st2) :
    ∀ x ∈ st.visited, x ∈ st2.visited := by
  obtain ⟨more, hm, _⟩ := h.visited_ext
  intro x hx
  rw [hm]; exact List.mem_append_left _ hx

theorem SortCall.visited_length {α : Type} {heap : Heap α} {max_size : Nat} {T : Ptr}
    {st st2 : SortState} (h : SortCall heap max_size T st st2) :
    st.visited.length ≤ st2.visited.length := by
  obtain ⟨more, hm, _⟩ := h.visited_ext
  rw [hm, List.length_append]
  exact Nat.le_add_right _ _

/-- A call on `I` after a call on `T`, where `I` is reached from `T`, is a call on `T`. -/
theorem SortCall.call_trans {α : Type} {heap : Heap α} {max_size : Nat} {T I : Ptr}
    {st st2 st3 : SortState} (h1 : SortCall heap max_size T st st2)
    (h2 : SortCall heap max_size I st2 st3) (hIT : Reach heap I T) :
    SortCall heap max_size T st st3 := by
  obtain ⟨v1, hv1, hr1⟩ := h1.visited_ext
  obtain ⟨v2, hv2, hr2⟩ := h2.visited_ext
  obtain ⟨s1, hs1, hn1⟩ := h1.stack_ext
  obtain ⟨s2, hs2, hn2⟩ := h2.stack_ext
  refine ⟨h2.inv, ⟨v1 ++ v2, by rw [hv2, hv1, List.append_assoc], ?_⟩,
    ⟨s1 ++ s2, by rw [hs2, hs1, List.append_assoc], ?_⟩,
    fun h => h2.bound (h1.bound h), ?_⟩
  · intro x hx
    rcases List.mem_append.mp hx with h | h
    · exact hr1 x h
    · exact Relation.ReflTransGen.trans (hr2 x h) hIT
  · intro x hx
    rcases List.mem_append.mp hx with h | h
    · exact hn1 x h
    · exact fun hxv => hn2 x h (h1.call_visited_mono x hxv)
  · intro hlen x hx hxs
    obtain ⟨a, b⟩ := h2.gray hlen x hx hxs
    exact h1.gray (Nat.le_trans h2.visited_length hlen) x a b

/-- A tensor that is visited but not pushed before a call is still not pushed after it. -/
theorem SortCall.call_not_pushed {α : Type} {heap : Heap α} {max_size : Nat} {T : Ptr}
    {st st2 : SortState} (h : SortCall heap max_size T st st2) {x : Ptr}
    (hx : x ∈ st.visited) (hxs : x ∉ st.stack) : x ∉ st2.stack := by
  obtain ⟨more, hs, hn⟩ := h.stack_ext
  rw [hs]
  intro hmem
  rcases List.mem_append.mp hmem with h | h
  · exact hxs h
  · exact hn x h hx

end Trebuchet

namespace Trebuchet

/-- What the loop over the inputs of `T` guarantees, given the guarantee of the recursive
calls: it returns, every `requires_grad` input of `T` is visited afterwards, and (in a graph
without cycles, when `max_size` is not below the number of visited tensors and every tensor
in progress is `T` or depends on `T`) producers stay before consumers in the stack. -/
theorem visit_inputs_run {α : Type} (heap : Heap α) (max_size : Nat) (hwf : WellFormed heap)
    (recurse : Ptr → SortState → Option SortState) (fuel : Nat)
    (hrec : ∀ (I : Ptr) (s : SortState), I < heap.length → SortInv heap s →
      heap.length - s.visited.length < fuel →
      ∃ s2, recurse I s = some s2 ∧ SortCall heap max_size I s s2 ∧ I ∈ s2.visited ∧
        (s2.visited.length ≤ max_size →
          (I ∉ s.visited → ∃ pre, s2.stack = pre ++ [I]) ∧
          ((∀ x, ¬ Relation.TransGen (RgInput heap) x x) →
            (∀ G, G ∈ s.visited → G ∉ s.stack → Relation.TransGen (RgInput heap) I G) →
            ProducersFirst heap s.stack → ProducersFirst heap s2.stack)))
    (T : Ptr) (t : Tensor α) (ht : heap[T]? = some t) (st : SortState)
    (hinv : SortInv heap st) (hfuel : heap.length - st.visited.length < fuel) :
    ∃ st2, visit_inputs recurse heap t st = some st2 ∧ SortCall heap max_size T st st2 ∧
      (∀ I, RgInput heap I T → I ∈ st2.visited) ∧
      (st2.visited.length ≤ max_size →
        (∀ x, ¬ Relation.TransGen (RgInput heap) x x) →
        (∀ G, G ∈ st.visited → G ∉ st.stack →
          G = T ∨ Relation.TransGen (RgInput heap) T G) →
        ProducersFirst heap st.stack → ProducersFirst heap st2.stack) := by
  cases hin : t.inputs with
  | none =>
    refine ⟨st, by simp [visit_inputs, hin], SortCall.call_refl max_size T hinv, ?_,
      fun _ _ _ h => h⟩
    rintro I ⟨⟨t2, inputs, i, h1, h2, _, _⟩, _⟩
    rw [ht] at h1
    cases h1
    rw [hin] at h2
    cases h2
  | some inputs =>
    obtain ⟨hlen, hvalid⟩ := hwf T t inputs ht hin
    have hloop := for_loop_inv t.num_inputs
      (fun i s =>
        match inputs[i]? with
        | none => none
        | some none => some s
        | some (some I) =>
          match heap[I]? with
          | none => none
          | some ti => if ti.requires_grad ≠ 0 then recurse I s else some s)
      (fun k s => SortCall heap max_size T st s ∧
        (∀ i I, i < k → inputs[i]? = some (some I) →
          (∃ ti, heap[I]? = some ti ∧ ti.requires_grad ≠ 0) → I ∈ s.visited) ∧
        (s.visited.length ≤ max_size →
          (∀ x, ¬ Relation.TransGen (RgInput heap) x x) →
          (∀ G, G ∈ st.visited → G ∉ st.stack →
            G = T ∨ Relation.TransGen (RgInput heap) T G) →
          ProducersFirst heap st.stack → ProducersFirst heap s.stack))
      st ⟨SortCall.call_refl max_size T hinv, fun i I hi => absurd hi (Nat.not_lt_zero i),
        fun _ _ _ h => h⟩
      (by
        rintro j s hj ⟨hs2, hs3, hs4⟩
        have hjlen : j < inputs.length := by omega
        have hget : inputs[j]? = some inputs[j] := List.getElem?_eq_getElem hjlen
        cases hI : inputs[j] with
        | none =>
          rw [hI] at hget
          refine ⟨s, by simp [hget], hs2, ?_, hs4⟩
          intro i I hi hiI hrg
          rcases Nat.lt_succ_iff_lt_or_eq.mp hi with h | h
          · exact hs3 i I h hiI hrg
          · rw [h, hget] at hiI
            cases hiI
        | some I =>
          rw [hI] at hget
          have hIlt : I < heap.length := hvalid j I hj hget
          have hti : heap[I]? = some heap[I] := List.getElem?_eq_getElem hIlt
          by_cases hrg : (heap[I]).requires_grad ≠ 0
          · have hfuel2 : heap.length - s.visited.length < fuel := by
              have h := hs2.visited_length
              omega
            have hedge : RgInput heap I T :=
              ⟨⟨t, inputs, j, ht, hin, hj, hget⟩, heap[I], hti, hrg⟩
            obtain ⟨s2, hr, hr2, hr3, hr4⟩ := hrec I s hIlt hs2.inv hfuel2
            refine ⟨s2, by simp [hget, hti, hrg, hr],
              hs2.call_trans hr2 (Relation.ReflTransGen.single hedge), ?_, ?_⟩
            · intro i I2 hi hiI hrg2
              rcases Nat.lt_succ_iff_lt_or_eq.mp hi with h | h
              · exact hr2.call_visited_mono _ (hs3 i I2 h hiI hrg2)
              · rw [h, hget] at hiI
                cases hiI
                exact hr3
            · intro hlen2 hac hg hord
              have hlen1 : s.visited.length ≤ max_size :=
                Nat.le_trans hr2.visited_length hlen2
              refine (hr4 hlen2).2 hac ?_ (hs4 hlen1 hac hg hord)
              intro G hG hGs
              obtain ⟨a, b⟩ := hs2.gray hlen1 G hG hGs
              rcases hg G a b with h | h
              · rw [h]; exact Relation.TransGen.single hedge
              · exact Relation.TransGen.head hedge h
          · refine ⟨s, by simp [hget, hti, hrg], hs2, ?_, hs4⟩
            intro i I2 hi hiI hrg2
            rcases Nat.lt_succ_iff_lt_or_eq.mp hi with h | h
            · exact hs3 i I2 h hiI hrg2
            · rw [h, hget] at hiI
              cases hiI
              obtain ⟨ti, h1, h2⟩ := hrg2
              rw [hti] at h1
              cases h1
              exact absurd h2 hrg)
    obtain ⟨st2, hl, h2, h3, h4⟩ := hloop
    refine ⟨st2, by simp only [visit_inputs, hin]; exact hl, h2, ?_, h4⟩
    rintro I ⟨⟨t2, inputs2, i, e1, e2, e3, e4⟩, hrg⟩
    rw [ht] at e1
    cases e1
    rw [hin] at e2
    cases e2
    exact h3 i I e3 e4 hrg

end Trebuchet

namespace Trebuchet

/-- What a call of `topological_sort_util` on `T` guarantees for every `max_size`, in a
graph that may contain cycles, when the recursion bound exceeds the number of unvisited
tensors: it returns, `T` is visited, and the arrays change as `SortCall` says. When
`max_size` is not below the final number of visited tensors, a `T` that was not visited is
the last entry of the stack, and in a graph without cycles (every tensor in progress
depending on `T`) producers stay before consumers. -/
theorem topological_sort_util_run {α : Type} (heap : Heap α) (max_size : Nat)
    (hwf : WellFormed heap) :
    ∀ (fuel : Nat) (T : Ptr) (st : SortState),
      T < heap.length → SortInv heap st → heap.length - st.visited.length < fuel →
      ∃ st2, topological_sort_util heap max_size fuel T st = some st2 ∧
        SortCall heap max_size T st st2 ∧ T ∈ st2.visited ∧
        (st2.visited.length ≤ max_size →
          (T ∉ st.visited → ∃ pre, st2.stack = pre ++ [T]) ∧
          ((∀ x, ¬ Relation.TransGen (RgInput heap) x x) →
            (∀ G, G ∈ st.visited → G ∉ st.stack → Relation.TransGen (RgInput heap) T G) →
            ProducersFirst heap st.stack → ProducersFirst heap st2.stack)) := by
  intro fuel
  induction fuel with
  | zero => intro T st _ _ h; omega
  | succ fuel ih =>
    intro T st hT hinv hfuel
    by_cases hvis : T ∈ st.visited
    · exact ⟨st, by simp [topological_sort_util, hvis], SortCall.call_refl max_size T hinv, hvis,
        fun _ => ⟨fun h => absurd hvis h, fun _ _ h => h⟩⟩
    · have ht : heap[T]? = some heap[T] := List.getElem?_eq_getElem hT
      have hTs : T ∉ st.stack := fun h => hvis (hinv.stack_sub T h)
      have hinv1 : SortInv heap { st with visited := st.visited ++ [T] } := by
        refine ⟨fun x hx => List.mem_append_left _ (hinv.stack_sub x hx), hinv.stack_nodup,
          ?_, ?_⟩
        · exact List.Nodup.append hinv.visited_nodup (List.nodup_singleton T)
            (List.disjoint_singleton.mpr hvis)
        · intro x hx
          rcases List.mem_append.mp hx with h | h
          · exact hinv.visited_valid x h
          · rw [List.mem_singleton.mp h]; exact hT
      have hlen1 : st.visited.length + 1 ≤ heap.length := by
        have h := length_le_of_nodup_of_lt hinv1.visited_nodup hinv1.visited_valid
        simpa using h
      obtain ⟨s2, hv, h2, h3, h4⟩ := visit_inputs_run heap max_size hwf
        (topological_sort_util heap max_size fuel) fuel ih T heap[T] ht
        { st with visited := st.visited ++ [T] } hinv1
        (by simp only [List.length_append, List.length_singleton]; omega)
      have h1 := h2.inv
      have hTv2 : T ∈ s2.visited := h2.call_visited_mono T (by simp)
      have hTs2 : T ∉ s2.stack := h2.call_not_pushed (by simp) hTs
      have hshort : s2.stack.length < s2.visited.length :=
        stack_length_lt h1.stack_nodup h1.stack_sub hTv2 hTs2
      obtain ⟨v, hvx, hvr⟩ := h2.visited_ext
      obtain ⟨m, hm, hmn⟩ := h2.stack_ext
      have hvext : ∃ more, s2.visited = st.visited ++ more ∧ ∀ x ∈ more, Reach heap x T := by
        refine ⟨[T] ++ v, ?_, ?_⟩
        · rw [hvx, List.append_assoc]
        · intro x hx
          rcases List.mem_append.mp hx with h | h
          · rw [List.mem_singleton.mp h]; exact Relation.ReflTransGen.refl
          · exact hvr x h
      by_cases hroom : s2.stack.length < max_size
      · refine ⟨{ s2 with stack := s2.stack ++ [T] }, ?_, ⟨?_, hvext, ⟨m ++ [T], ?_, ?_⟩, ?_, ?_⟩,
          hTv2, ?_⟩
        · simp [topological_sort_util, hvis, ht, hv, hroom]
        · refine ⟨?_, ?_, h1.visited_nodup, h1.visited_valid⟩
          · intro x hx
            rcases List.mem_append.mp hx with h | h
            · exact h1.stack_sub x h
            · rw [List.mem_singleton.mp h]; exact hTv2
          · exact List.Nodup.append h1.stack_nodup (List.nodup_singleton T)
              (List.disjoint_singleton.mpr hTs2)
        · show s2.stack ++ [T] = st.stack ++ (m ++ [T])
          rw [hm, List.append_assoc]
        · intro x hx hxv
          rcases List.mem_append.mp hx with h | h
          · exact hmn x h (List.mem_append_left _ hxv)
          · rw [List.mem_singleton.mp h] at hxv; exact hvis hxv
        · intro _
          show (s2.stack ++ [T]).length ≤ max_size
          rw [List.length_append, List.length_singleton]
          exact hroom
        · intro hlen x hx hxs
          have hxs2 : x ∉ s2.stack := fun h => hxs (List.mem_append_left _ h)
          have hxT : x ≠ T := fun h => hxs (by rw [h]; simp)
          obtain ⟨a, b⟩ := h2.gray hlen x hx hxs2
          refine ⟨?_, b⟩
          rcases List.mem_append.mp a with h | h
          · exact h
          · exact absurd (List.mem_singleton.mp h) hxT
        · intro hlen
          refine ⟨fun _ => ⟨s2.stack, rfl⟩, ?_⟩
          intro hac hg hord
          have hord2 : ProducersFirst heap s2.stack := by
            refine h4 hlen hac ?_ hord
            intro G hG hGs
            rcases List.mem_append.mp hG with h | h
            · exact Or.inr (hg G h hGs)
            · exact Or.inl (List.mem_singleton.mp h)
          intro U hU I hedge
          rcases List.mem_append.mp hU with h | h
          · exact (hord2 U h I hedge).append [T]
          · rw [List.mem_singleton.mp h] at hedge ⊢
            have hIv : I ∈ s2.visited := h3 I hedge
            have hIs : I ∈ s2.stack := by
              by_contra hns
              obtain ⟨a, b⟩ := h2.gray hlen I hIv hns
              rcases List.mem_append.mp a with h5 | h5
              · exact hac T (Relation.TransGen.tail (hg I h5 b) hedge)
              · rw [List.mem_singleton.mp h5] at hedge
                exact hac T (Relation.TransGen.single hedge)
            exact PushedBefore.push hIs hTs2
      · refine ⟨s2, ?_, ⟨h1, hvext, ⟨m, hm, ?_⟩, h2.bound, ?_⟩, hTv2, ?_⟩
        · simp [topological_sort_util, hvis, ht, hv, hroom]
        · intro x hx hxv
          exact hmn x hx (List.mem_append_left _ hxv)
        · intro hlen
          exact absurd (Nat.lt_of_lt_of_le hshort hlen) hroom
        · intro hlen
          exact absurd (Nat.lt_of_lt_of_le hshort hlen) hroom

end Trebuchet

namespace Trebuchet

theorem sortInv_empty {α : Type} (heap : Heap α) : SortInv heap ⟨[], []⟩ :=
  ⟨by simp, List.nodup_nil, List.nodup_nil, by simp⟩

/-- A tensor reached from the root, other than the root, has `requires_grad` set. -/
theorem Reach.requires_grad {α : Type} {heap : Heap α} {x root : Ptr}
    (h : Reach heap x root) (hne : x ≠ root) :
    ∃ t, heap[x]? = some t ∧ t.requires_grad ≠ 0 := by
  rcases Relation.ReflTransGen.cases_head h with h | ⟨c, hxc, _⟩
  · exact absurd h hne
  · exact hxc.2

/-- A tensor reached from a root in the heap is in the heap. -/
theorem Reach.lt_length {α : Type} {heap : Heap α} {x root : Ptr}
    (h : Reach heap x root) (hroot : root < heap.length) : x < heap.length := by
  by_cases hne : x = root
  · rw [hne]; exact hroot
  · obtain ⟨t, ht, _⟩ := h.requires_grad hne
    exact (List.getElem?_eq_some_iff.mp ht).1

/-- Arrays as long as the heap have room for every root. -/
theorem room_of_length_le {α : Type} (heap : Heap α) (root : Ptr) (max_size : Nat)
    (hroot : root < heap.length) (hmax : heap.length ≤ max_size) :
    Room heap root max_size := by
  intro l hnd hl
  exact Nat.le_trans
    (length_le_of_nodup_of_lt hnd (fun x hx => (hl x hx).lt_length hroot)) hmax

/-- A stack that holds the root and respects the graph holds everything reached from the
root. -/
theorem mem_stack_of_reach {α : Type} {heap : Heap α} {stack : List Ptr} {x root : Ptr}
    (hpf : ProducersFirst heap stack) (hroot : root ∈ stack) (h : Reach heap x root) :
    x ∈ stack := by
  induction h using Relation.ReflTransGen.head_induction_on with
  | refl => exact hroot
  | head hac _ ih => exact (hpf _ ih _ hac).1

theorem self_loop_wellFormed : WellFormed self_loop := by
  intro T t inputs h1 h2
  match T, h1 with
  | 0, h1 =>
    have e : t = { scalar_leaf 3 1 with op := OpType.OP_TRANSPOSE, inputs := some [some 0],
                                        num_inputs := 1 } := by
      simpa [self_loop] using h1.symm
    rw [e] at h2
    simp only [Option.some.injEq] at h2
    rw [e, ← h2]
    refine ⟨by simp, ?_⟩
    intro i I hi hI
    have hi0 : i = 0 := by simp at hi; omega
    rw [hi0] at hI
    simp at hI
    rw [← hI]
    simp [self_loop]
  | n + 1, h1 => simp [self_loop] at h1

theorem self_loop_rgInput : RgInput self_loop 0 0 :=
  ⟨⟨_, [some 0], 0, rfl, rfl, by decide, rfl⟩, ⟨_, rfl, by decide⟩⟩

end Trebuchet

namespace Trebuchet

/-- In the diamond every input has a lower address than its consumer and is in the heap. -/
theorem diamond_inputRef (I T : Ptr) (h : InputRef diamond I T) : I < T ∧ T < 6 := by
  obtain ⟨t, inputs, i, h1, h2, h3, h4⟩ := h
  have hT : T < 6 := (List.getElem?_eq_some_iff.mp h1).1
  have key : ∀ (a b : Ptr) (x : ℚ) (op : OpType), t = scalar_node x op a b → I = a ∨ I = b := by
    intro a b x op e
    rw [e] at h2 h3
    simp only [scalar_node, Option.some.injEq] at h2 h3
    rw [← h2] at h4
    match i, h3, h4 with
    | 0, _, h4 => simp at h4; exact Or.inl h4.symm
    | 1, _, h4 => simp at h4; exact Or.inr h4.symm
  have leaf : ∀ (x : ℚ) (r : Int), t = scalar_leaf x r → False := by
    intro x r e
    rw [e] at h2
    simp [scalar_leaf] at h2
  match T, h1 with
  | 0, h1 => exact (leaf 3 1 (by simpa [diamond] using h1.symm)).elim
  | 1, h1 => exact (leaf 2 0 (by simpa [diamond] using h1.symm)).elim
  | 2, h1 => exact (leaf 5 0 (by simpa [diamond] using h1.symm)).elim
  | 3, h1 =>
    rcases key 0 1 6 OpType.OP_MUL (by simpa [diamond] using h1.symm) with h | h <;>
      rw [h] <;> decide
  | 4, h1 =>
    rcases key 0 2 15 OpType.OP_MUL (by simpa [diamond] using h1.symm) with h | h <;>
      rw [h] <;> decide
  | 5, h1 =>
    rcases key 3 4 21 OpType.OP_ADD (by simpa [diamond] using h1.symm) with h | h <;>
      rw [h] <;> decide
  | n + 6, h1 => simp [diamond] at h1

theorem diamond_acyclic : Acyclic diamond :=
  acyclic_of_inputs_lt diamond (fun I T h => (diamond_inputRef I T h).1)

theorem diamond_wellFormed : WellFormed diamond := by
  intro T t inputs h1 h2
  have hlt : ∀ (i : Nat) (I : Ptr), i < t.num_inputs → inputs[i]? = some (some I) →
      I < diamond.length := by
    intro i I hi hI
    have h := diamond_inputRef I T ⟨t, inputs, i, h1, h2, hi, hI⟩
    have e : diamond.length = 6 := rfl
    rw [e]
    exact Nat.lt_trans h.1 h.2
  refine ⟨?_, hlt⟩
  have hT : T < 6 := (List.getElem?_eq_some_iff.mp h1).1
  have node : ∀ (a b : Ptr) (x : ℚ) (op : OpType), t = scalar_node x op a b →
      t.num_inputs ≤ inputs.length := by
    intro a b x op e
    rw [e] at h2
    simp only [scalar_node, Option.some.injEq] at h2
    rw [e, ← h2]
    simp [scalar_node]
  have leaf : ∀ (x : ℚ) (r : Int), t = scalar_leaf x r → t.num_inputs ≤ inputs.length := by
    intro x r e
    rw [e] at h2
    simp [scalar_leaf] at h2
  match T, h1 with
  | 0, h1 => exact leaf 3 1 (by simpa [diamond] using h1.symm)
  | 1, h1 => exact leaf 2 0 (by simpa [diamond] using h1.symm)
  | 2, h1 => exact leaf 5 0 (by simpa [diamond] using h1.symm)
  | 3, h1 => exact node 0 1 6 OpType.OP_MUL (by simpa [diamond] using h1.symm)
  | 4, h1 => exact node 0 2 15 OpType.OP_MUL (by simpa [diamond] using h1.symm)
  | 5, h1 => exact node 3 4 21 OpType.OP_ADD (by simpa [diamond] using h1.symm)
  | n + 6, h1 => simp [diamond] at h1

/-- In the diamond four tensors are reached from the root `R` along `requires_grad`
inputs (`X`, `A`, `B` and `R`; not the two constants), so arrays of four entries have
room for them although the heap holds six tensors. -/
theorem diamond_room : Room diamond 5 4 := by
  intro l hnd hl
  have hsub : l ⊆ [0, 3, 4, 5] := by
    intro x hx
    have hr := hl x hx
    by_cases hne : x = 5
    · rw [hne]; decide
    · obtain ⟨t, ht, hrg⟩ := hr.requires_grad hne
      match x, ht with
      | 0, _ => decide
      | 1, ht =>
        have e : t = scalar_leaf 2 0 := by simpa [diamond] using ht.symm
        rw [e] at hrg
        exact absurd rfl hrg
      | 2, ht =>
        have e : t = scalar_leaf 5 0 := by simpa [diamond] using ht.symm
        rw [e] at hrg
        exact absurd rfl hrg
      | 3, _ => decide
      | 4, _ => decide
      | 5, _ => decide
      | n + 6, ht => simp [diamond] at ht
  have h := (List.subperm_of_subset hnd hsub).length_le
  simpa using h

end Trebuchet

namespace Trebuchet

/-- C12: in every well-formed tensor graph (cycles allowed), for every root in it and every
`max_size`, the traversal started with an empty visited set and an empty stack returns
(given a recursion bound above the number of tensors) with no tensor twice in the visited
set and none twice in the stack, and every visited tensor and every stack entry other than
the root has `requires_grad` set and is reached from the root along `requires_grad`
inputs. -/
theorem topological_sort_util_visits_once {α : Type} (heap : Heap α) (root : Ptr)
    (max_size fuel : Nat) (hwf : WellFormed heap) (hroot : root < heap.length)
    (hfuel : heap.length < fuel) :
    ∃ st, topological_sort_util heap max_size fuel root ⟨[], []⟩ = some st ∧
      st.visited.Nodup ∧ st.stack.Nodup ∧
      (∀ x ∈ st.visited, x ≠ root →
        (∃ t, heap[x]? = some t ∧ t.requires_grad ≠ 0) ∧ Reach heap x root) ∧
      (∀ x ∈ st.stack, x ≠ root →
        (∃ t, heap[x]? = some t ∧ t.requires_grad ≠ 0) ∧ Reach heap x root) := by
  obtain ⟨st, hrun, hcall, _, _⟩ := topological_sort_util_run heap max_size hwf fuel root
    ⟨[], []⟩ hroot (sortInv_empty heap) (by simpa using hfuel)
  obtain ⟨more, hm, hreach⟩ := hcall.visited_ext
  have hvis : ∀ x ∈ st.visited, x ≠ root →
      (∃ t, heap[x]? = some t ∧ t.requires_grad ≠ 0) ∧ Reach heap x root := by
    intro x hx hne
    rw [hm, List.nil_append] at hx
    exact ⟨(hreach x hx).requires_grad hne, hreach x hx⟩
  exact ⟨st, hrun, hcall.inv.visited_nodup, hcall.inv.stack_nodup, hvis,
    fun x hx hne => hvis x (hcall.inv.stack_sub x hx) hne⟩

/-- C12, instance: the diamond sorted from `R` with arrays of four entries. -/
theorem topological_sort_util_visits_once_witness :
    ∃ st, topological_sort_util diamond 4 7 5 ⟨[], []⟩ = some st ∧
      st.visited.Nodup ∧ st.stack.Nodup ∧
      (∀ x ∈ st.visited, x ≠ 5 →
        (∃ t, diamond[x]? = some t ∧ t.requires_grad ≠ 0) ∧ Reach diamond x 5) ∧
      (∀ x ∈ st.stack, x ≠ 5 →
        (∃ t, diamond[x]? = some t ∧ t.requires_grad ≠ 0) ∧ Reach diamond x 5) :=
  topological_sort_util_visits_once diamond 5 4 7 diamond_wellFormed (by decide) (by decide)

/-- C13: in every well-formed tensor graph, for every root in it and every `max_size`, the
traversal started with empty arrays returns (given a recursion bound above the number of
tensors) a stack of at most `max_size` entries. If the graph is acyclic and `max_size` is
at least the number of tensors reached from the root, the stack holds exactly the root and
the tensors reached from it along `requires_grad` inputs, each once, every tensor at a
higher index than each of its non-null `requires_grad` inputs, and the root last. -/
theorem topological_sort_util_topological_order {α : Type} (heap : Heap α) (root : Ptr)
    (max_size fuel : Nat) (hwf : WellFormed heap) (hroot : root < heap.length)
    (hfuel : heap.length < fuel) :
    ∃ st, topological_sort_util heap max_size fuel root ⟨[], []⟩ = some st ∧
      st.stack.length ≤ max_size ∧
      (Acyclic heap → Room heap root max_size →
        (∀ x, x ∈ st.stack ↔ Reach heap x root) ∧ st.stack.Nodup ∧
        ProducersFirst heap st.stack ∧ st.stack.getLast? = some root) := by
  obtain ⟨st, hrun, hcall, _, hfull⟩ := topological_sort_util_run heap max_size hwf fuel root
    ⟨[], []⟩ hroot (sortInv_empty heap) (by simpa using hfuel)
  refine ⟨st, hrun, hcall.bound (Nat.zero_le _), ?_⟩
  intro hac hroom
  obtain ⟨more, hm, hreach⟩ := hcall.visited_ext
  rw [List.nil_append] at hm
  have hlen : st.visited.length ≤ max_size :=
    hroom st.visited hcall.inv.visited_nodup (fun x hx => hreach x (by rw [← hm]; exact hx))
  obtain ⟨hlast, hord⟩ := hfull hlen
  obtain ⟨pre, hpre⟩ := hlast (by simp)
  have hpf : ProducersFirst heap st.stack := by
    refine hord ?_ (by simp) (by intro U hU; simp at hU)
    intro x hx
    exact hac x (Relation.TransGen.mono (fun _ _ h => h.1) hx)
  have hrootmem : root ∈ st.stack := by rw [hpre]; simp
  refine ⟨fun x => ⟨fun hx => ?_, fun hx => mem_stack_of_reach hpf hrootmem hx⟩,
    hcall.inv.stack_nodup, hpf, by rw [hpre]; simp⟩
  have hxv := hcall.inv.stack_sub x hx
  rw [hm] at hxv
  exact hreach x hxv

/-- C13, instance: the diamond (six tensors, four of them reached from `R` along
`requires_grad` inputs) sorted from `R` with arrays of four entries. -/
theorem topological_sort_util_topological_order_witness :
    ∃ st, topological_sort_util diamond 4 7 5 ⟨[], []⟩ = some st ∧
      st.stack = [0, 3, 4, 5] ∧ st.stack.length ≤ 4 ∧
      (∀ x, x ∈ st.stack ↔ Reach diamond x 5) ∧ st.stack.Nodup ∧
      ProducersFirst diamond st.stack ∧ st.stack.getLast? = some 5 := by
  obtain ⟨st, h1, h2, h3⟩ := topological_sort_util_topological_order diamond 5 4 7
    diamond_wellFormed (by decide) (by decide)
  obtain ⟨a, b, c, d⟩ := h3 diamond_acyclic diamond_room
  have e : topological_sort_util diamond 4 7 5 ⟨[], []⟩ = some ⟨[5, 3, 0, 4], [0, 3, 4, 5]⟩ := by
    decide
  have hst : st = ⟨[5, 3, 0, 4], [0, 3, 4, 5]⟩ := by
    rw [e] at h1
    exact (Option.some.inj h1).symm
  exact ⟨st, h1, by rw [hst], h2, a, b, c, d⟩

/-- C14: `topological_sort_util` returns on every well-formed tensor graph, with or without
cycles or self-references, from every root in it and for every `max_size`, as soon as the
recursion bound exceeds the number of tensors. A call that passes the membership test
appends `T` to the visited set before the loop over its inputs runs, and the visited set,
which has one entry per such call, never holds more entries than the graph has tensors. -/
theorem topological_sort_util_terminates {α : Type} (heap : Heap α) (root : Ptr)
    (max_size fuel : Nat) (hwf : WellFormed heap) (hroot : root < heap.length)
    (hfuel : heap.length < fuel) :
    (∃ st, topological_sort_util heap max_size fuel root ⟨[], []⟩ = some st ∧
      st.visited.Nodup ∧ st.visited.length ≤ heap.length) ∧
    (∀ (n : Nat) (T : Ptr) (t : Tensor α) (st : SortState),
      T ∉ st.visited → heap[T]? = some t →
      topological_sort_util heap max_size (n + 1) T st =
        (visit_inputs (topological_sort_util heap max_size n) heap t
            { st with visited := st.visited ++ [T] }).map
          (fun s =>
            if s.stack.length < max_size then { s with stack := s.stack ++ [T] } else s)) := by
  constructor
  · obtain ⟨st, hrun, hcall, _, _⟩ := topological_sort_util_run heap max_size hwf fuel root
      ⟨[], []⟩ hroot (sortInv_empty heap) (by simpa using hfuel)
    exact ⟨st, hrun, hcall.inv.visited_nodup,
      length_le_of_nodup_of_lt hcall.inv.visited_nodup hcall.inv.visited_valid⟩
  · intro n T t st hvis ht
    simp only [topological_sort_util, hvis, ht, if_false]

/-- C14, instance: a tensor that is its own input, sorted from itself. -/
theorem topological_sort_util_terminates_witness :
    RgInput self_loop 0 0 ∧
    topological_sort_util self_loop 1 2 0 ⟨[], []⟩ = some ⟨[0], [0]⟩ ∧
    (∃ st, topological_sort_util self_loop 1 2 0 ⟨[], []⟩ = some st ∧
      st.visited.Nodup ∧ st.visited.length ≤ self_loop.length) :=
  ⟨self_loop_rgInput, by decide,
    (topological_sort_util_terminates self_loop 0 1 2 self_loop_wellFormed (by decide)
      (by decide)).1⟩

end Trebuchet

/-! ### Two loop bodies run side by side -/

/-- Invariant rule for two bodies run from the same state: if in every iteration in range
both bodies succeed with the same result and carry the invariant on, both loops succeed
with the same result and the invariant holds at the end. -/
theorem for_loop_from_inv2 {σ : Type} (body body2 : Nat → σ → Option σ)
    (P : Nat → σ → Prop) :
    ∀ (k i : Nat) (s : σ), P i s →
      (∀ j s, i ≤ j → j < i + k → P j s →
        ∃ s2, body j s = some s2 ∧ body2 j s = some s2 ∧ P (j + 1) s2) →
      ∃ s2, for_loop_from body k i s = some s2 ∧ for_loop_from body2 k i s = some s2 ∧
        P (i + k) s2 := by
  intro k
  induction k with
  | zero =>
    intro i s h0 _
    exact ⟨s, rfl, rfl, by simpa using h0⟩
  | succ k ih =>
    intro i s h0 hstep
    obtain ⟨s1, hb, hb2, hp1⟩ := hstep i s (Nat.le_refl i) (by omega) h0
    obtain ⟨s2, hl, hl2, hp2⟩ := ih (i + 1) s1 hp1
      (fun j s hj hj2 hp => hstep j s (by omega) (by omega) hp)
    refine ⟨s2, ?_, ?_, ?_⟩
    · simp [for_loop_from, hb, hl]
    · simp [for_loop_from, hb2, hl2]
    · have e : i + (k + 1) = i + 1 + k := by omega
      rw [e]; exact hp2

/-- Invariant rule for two bodies, for `for_loop`. -/
theorem for_loop_inv2 {σ : Type} (n : Nat) (body body2 : Nat → σ → Option σ)
    (P : Nat → σ → Prop) (s : σ) (h0 : P 0 s)
    (hstep : ∀ j s, j < n → P j s →
      ∃ s2, body j s = some s2 ∧ body2 j s = some s2 ∧ P (j + 1) s2) :
    ∃ s2, for_loop n body s = some s2 ∧ for_loop n body2 s = some s2 ∧ P n s2 := by
  have h := for_loop_from_inv2 body body2 P n 0 s h0
    (fun j s _ hj hp => hstep j s (by omega) hp)
  simpa [for_loop] using h

/-- The rule `for_loop_heap` for two bodies that give the same result in every
iteration. -/
theorem for_loop_heap2 {α : Type} (n : Nat) (body body2 : Nat → Heap α → Option (Heap α))
    (heap : Heap α) (F : Nat → Ptr → Prop) (R : Nat → Heap α → Prop)
    (hdisj : ∀ i k, i < n → k < n → i ≠ k → ∀ q, F i q → ¬ F k q)
    (hstable : ∀ k h h2, R k h → (∀ q, F k q → h2[q]? = h[q]?) → R k h2)
    (hstep : ∀ k h, k < n → h.length = heap.length → (∀ q, F k q → h[q]? = heap[q]?) →
      ∃ h2, body k h = some h2 ∧ body2 k h = some h2 ∧ h2.length = h.length ∧
        (∀ q, ¬ F k q → h2[q]? = h[q]?) ∧ R k h2) :
    ∃ h, for_loop n body heap = some h ∧ for_loop n body2 heap = some h ∧
      h.length = heap.length ∧
      (∀ q, (∀ i, i < n → ¬ F i q) → h[q]? = heap[q]?) ∧ ∀ i, i < n → R i h := by
  have key := for_loop_inv2 n body body2
    (fun k h => h.length = heap.length ∧
      (∀ q, (∀ i, i < k → ¬ F i q) → h[q]? = heap[q]?) ∧ ∀ i, i < k → R i h)
    heap ⟨rfl, fun _ _ => rfl, fun i hi => absurd hi (Nat.not_lt_zero i)⟩
    (by
      rintro k h hk ⟨hl, hu, hr⟩
      have hcells : ∀ q, F k q → h[q]? = heap[q]? := by
        intro q hq
        apply hu
        intro i hi hFi
        exact hdisj i k (by omega) hk (by omega) q hFi hq
      obtain ⟨h2, hb, hb2, hl2, hframe, hR⟩ := hstep k h hk hl hcells
      refine ⟨h2, hb, hb2, by rw [hl2, hl], ?_, ?_⟩
      · intro q hq
        rw [hframe q (hq k (Nat.lt_succ_self k))]
        exact hu q (fun i hi => hq i (by omega))
      · intro i hi
        rcases Nat.lt_succ_iff_lt_or_eq.mp hi with h3 | h3
        · refine hstable i h h2 (hr i h3) ?_
          intro q hq
          exact hframe q (hdisj i k (by omega) hk (by omega) q hq)
        · rw [h3]; exact hR)
  obtain ⟨h, h1, h1b, h2, h3, h4⟩ := key
  exact ⟨h, h1, h1b, h2, h3, h4⟩

namespace Core

theorem check_of {c : Prop} [Decidable c] (h : c) : check c = some () := if_pos h

theorem check_of_not {c : Prop} [Decidable c] (h : ¬ c) : check c = none := if_neg h

/-- One run of the body of the inner loop of `adam_step` on element `j` of a parameter `p`
with moment tensors `mi` and `vi` (three different tensors with room for element `j`), for
positive bias corrections, `0 ≤ beta2 ≤ 1`, `epsilon > 0`, a non-negative old second
moment and a `sqrtf` that is non-negative on non-negative arguments: the body succeeds,
the checked body succeeds with the same heap (every operand is usable where it is used),
element `j` of the three data buffers is written and nothing else, and the value written
to the second moment is `beta2 * v[j] + (1 - beta2) * g[j] * g[j]`. -/
theorem adam_update_element_spec {α : Type} [LinearOrderedField α] (env : Env α)
    (state : AdamState α) (bc1 bc2 : α) (h : Heap α) (i : Nat) (p mi vi : Ptr)
    (tp tm tv : Tensor α) (g : List α) (hmi : state.m[i]? = some mi)
    (hvi : state.v[i]? = some vi) (hpm : p ≠ mi) (hpv : p ≠ vi) (hmv : mi ≠ vi)
    (hp : h[p]? = some tp) (htm : h[mi]? = some tm) (htv : h[vi]? = some tv)
    (hg : tp.grad = some g) (j : Nat) (hjp : j < tp.data.length) (hjm : j < tm.data.length)
    (hjv : j < tv.data.length) (hjg : j < g.length)
    (hbc1 : 0 < bc1) (hbc2 : 0 < bc2) (hv2 : 0 ≤ state.beta2 * tv.data.getD j 0 +
      (1 - state.beta2) * g.getD j 0 * g.getD j 0)
    (heps : 0 < state.epsilon) (hsqrt : ∀ x, 0 ≤ x → 0 ≤ env.sqrtf x) :
    ∃ h2 x y, adam_update_element env state bc1 bc2 i p j h = some h2 ∧
      adam_update_element_checked env state bc1 bc2 i p j h = some h2 ∧
      h2.length = h.length ∧ (∀ q, q ≠ p → q ≠ mi → q ≠ vi → h2[q]? = h[q]?) ∧
      h2[p]? = some { tp with data := tp.data.set j x } ∧
      h2[mi]? = some { tm with data := tm.data.set j y } ∧
      h2[vi]? = some { tv with data := (tv.data.set j
        (state.beta2 * tv.data.getD j 0 + (1 - state.beta2) * g.getD j 0 * g.getD j 0)) } := by
  have hdmj : tm.data[j]? = some (tm.data.getD j 0) := getElem?_eq_some_getD _ _ _ hjm
  have hdvj : tv.data[j]? = some (tv.data.getD j 0) := getElem?_eq_some_getD _ _ _ hjv
  have hdpj : tp.data[j]? = some (tp.data.getD j 0) := getElem?_eq_some_getD _ _ _ hjp
  have hgj : g[j]? = some (g.getD j 0) := getElem?_eq_some_getD _ _ _ hjg
  -- m[i]->data[j] = ...
  obtain ⟨h1, hw1, hl1, hm1, hu1⟩ := write_data_spec htm (j := j) hjm
    (state.beta1 * tm.data.getD j 0 + (1 - state.beta1) * g.getD j 0)
  have hp1 : h1[p]? = some tp := by rw [hu1 p hpm, hp]
  have hv1 : h1[vi]? = some tv := by rw [hu1 vi (Ne.symm hmv), htv]
  -- v[i]->data[j] = ...
  obtain ⟨h2, hw2, hl2, hv2', hu2⟩ := write_data_spec hv1 (j := j) hjv
    (state.beta2 * tv.data.getD j 0 + (1 - state.beta2) * g.getD j 0 * g.getD j 0)
  have hp2 : h2[p]? = some tp := by rw [hu2 p hpv, hp1]
  have hm2 : h2[mi]? = some { tm with data := (tm.data.set j
      (state.beta1 * tm.data.getD j 0 + (1 - state.beta1) * g.getD j 0)) } := by
    rw [hu2 mi hmv, hm1]
  -- param->data[j] -= ...
  obtain ⟨h3, hw3, hl3, hp3, hu3⟩ := write_data_spec hp2 (j := j) hjp
    (tp.data.getD j 0 - state.learning_rate *
      ((state.beta1 * tm.data.getD j 0 + (1 - state.beta1) * g.getD j 0) / bc1) /
      (env.sqrtf ((state.beta2 * tv.data.getD j 0 +
        (1 - state.beta2) * g.getD j 0 * g.getD j 0) / bc2) + state.epsilon))
  have hm3 : h3[mi]? = some { tm with data := (tm.data.set j
      (state.beta1 * tm.data.getD j 0 + (1 - state.beta1) * g.getD j 0)) } := by
    rw [hu3 mi (Ne.symm hpm), hm2]
  have hv3 : h3[vi]? = some { tv with data := (tv.data.set j
      (state.beta2 * tv.data.getD j 0 +
        (1 - state.beta2) * g.getD j 0 * g.getD j 0)) } := by
    rw [hu3 vi (Ne.symm hpv), hv2']
  -- the operands at their points of use
  have hvhat : 0 ≤ (state.beta2 * tv.data.getD j 0 +
      (1 - state.beta2) * g.getD j 0 * g.getD j 0) / bc2 := div_nonneg hv2 (le_of_lt hbc2)
  have hdiv : 0 < env.sqrtf ((state.beta2 * tv.data.getD j 0 +
      (1 - state.beta2) * g.getD j 0 * g.getD j 0) / bc2) + state.epsilon :=
    add_pos_of_nonneg_of_pos (hsqrt _ hvhat) heps
  have hstore : adam_store_moments state i p j h = some h2 := by
    simp only [adam_store_moments, hmi, hvi, read_data_eq htm, read_grad_eq hp hg, hdmj,
      hgj, Option.bind_eq_bind, Option.some_bind, hw1, read_data_eq hv1, read_grad_eq hp1 hg,
      hdvj]
    exact hw2
  have happly : adam_apply_checked env state bc1 bc2 i p j h2 = some h3 := by
    simp only [adam_apply_checked, hmi, hvi, Option.bind_eq_bind, Option.some_bind,
      read_data_eq hm2, read_data_eq hv2', read_data_eq hp2, hdpj,
      List.getElem?_set_self hjm, List.getElem?_set_self hjv, check_of hbc1, check_of hbc2,
      check_of hv2, check_of hvhat, check_of hdiv]
    exact hw3
  refine ⟨h3, _, _, ?_, ?_, by rw [hl3, hl2, hl1], ?_, hp3, hm3, hv3⟩
  · simp only [adam_update_element, hmi, hvi, read_data_eq htm, read_grad_eq hp hg, hdmj,
      hgj, Option.bind_eq_bind, Option.some_bind, hw1, read_data_eq hv1, read_grad_eq hp1 hg,
      hdvj, hw2, read_data_eq hm2, read_data_eq hv2', read_data_eq hp2, hdpj,
      List.getElem?_set_self hjm, List.getElem?_set_self hjv]
    exact hw3
  · simp only [adam_update_element_checked, hstore, Option.bind_eq_bind, Option.some_bind]
    exact happly
  · intro q hq1 hq2 hq3
    rw [hu3 q hq1, hu2 q hq3, hu1 q hq2]

/-- The checked body stops when the bias correction that divides `m` is zero, as it is
for a counter of 0 (`1 - beta1 ^ 0 = 0`). -/
theorem adam_apply_checked_zero_bias {α : Type} [LinearOrderedField α] (env : Env α)
    (state : AdamState α) (bc2 : α) (i : Nat) (p : Ptr) (j : Nat) (h : Heap α) :
    adam_apply_checked env state (1 - state.beta1 ^ (0 : Int)) bc2 i p j h = none := by
  have hz : ¬ (0 : α) < 1 - state.beta1 ^ (0 : Int) := by simp
  simp only [adam_apply_checked, Option.bind_eq_bind, check_of_not hz]
  cases state.m[i]? <;> cases state.v[i]? <;> simp

/-- The checked call stops when the counter is below 1 where `powf` uses it. -/
theorem adam_step_checked_counter {α : Type} [LinearOrderedField α] (env : Env α)
    (heap : Heap α) (opt : Optimizer α) (state : AdamState α)
    (hst : opt.state = some (OptimizerState.adam state)) (ht : state.t + 1 < 1) :
    adam_step_checked env heap opt = none := by
  have hn : ¬ (1 ≤ state.t + 1) := by omega
  simp only [adam_step_checked, hst, if_neg hn]
  split <;> rfl

/-- The value `adam_step` writes to a second-moment element is not negative when the old
value is not negative and `0 ≤ beta2 ≤ 1`. -/
theorem second_moment_nonneg {α : Type} [LinearOrderedField α] (beta2 v g : α)
    (h0 : 0 ≤ beta2) (h1 : beta2 ≤ 1) (hv : 0 ≤ v) : 0 ≤ beta2 * v + (1 - beta2) * g * g := by
  have a : 0 ≤ beta2 * v := mul_nonneg h0 hv
  have b : 0 ≤ (1 - beta2) * (g * g) := mul_nonneg (sub_nonneg.mpr h1) (mul_self_nonneg g)
  rw [mul_assoc]
  exact add_nonneg a b

/-- An entry of a list is `d` or in the list. -/
theorem getD_mem_or_default {α : Type} (l : List α) (k : Nat) (d : α) :
    l.getD k d = d ∨ l.getD k d ∈ l := by
  by_cases hk : k < l.length
  · right
    rw [List.getD_eq_getElem l d hk]
    exact List.getElem_mem hk
  · left
    exact List.getD_eq_default l d (Nat.le_of_not_lt hk)

end Core

namespace Core

/-- The inner loop of `adam_step`, run for `n` elements on parameter `p` with moment
tensors `mi` and `vi` (three different tensors), for positive bias corrections,
`0 ≤ beta2 ≤ 1`, `epsilon > 0` and non-negative second moments: it succeeds, the loop over
the checked body succeeds with the same heap, the data of these three tensors only change,
the buffer lengths are kept, and every second-moment element is still non-negative. -/
theorem adam_loop_safe {α : Type} [LinearOrderedField α] (env : Env α) (state : AdamState α)
    (bc1 bc2 : α) (heap : Heap α) (i : Nat) (p mi vi : Ptr) (tp tm tv : Tensor α)
    (g : List α) (hmi : state.m[i]? = some mi) (hvi : state.v[i]? = some vi)
    (hpm : p ≠ mi) (hpv : p ≠ vi) (hmv : mi ≠ vi)
    (hp : heap[p]? = some tp) (htm : heap[mi]? = some tm) (htv : heap[vi]? = some tv)
    (hg : tp.grad = some g) (n : Nat) (hnd : n ≤ tp.data.length)
    (hnm : n ≤ tm.data.length) (hnv : n ≤ tv.data.length) (hng : n ≤ g.length)
    (h0 : 0 ≤ state.beta2) (h1 : state.beta2 ≤ 1) (hv : ∀ x ∈ tv.data, 0 ≤ x)
    (hbc1 : 0 < bc1) (hbc2 : 0 < bc2) (heps : 0 < state.epsilon)
    (hsqrt : ∀ x, 0 ≤ x → 0 ≤ env.sqrtf x) :
    ∃ h dp dm dv, for_loop n (adam_update_element env state bc1 bc2 i p) heap
        = some h ∧
      for_loop n (adam_update_element_checked env state bc1 bc2 i p) heap = some h ∧
      h.length = heap.length ∧ (∀ q, q ≠ p → q ≠ mi → q ≠ vi → h[q]? = heap[q]?) ∧
      h[p]? = some { tp with data := dp } ∧ h[mi]? = some { tm with data := dm } ∧
      h[vi]? = some { tv with data := dv } ∧
      dp.length = tp.data.length ∧ dm.length = tm.data.length ∧
      dv.length = tv.data.length ∧ ∀ x ∈ dv, 0 ≤ x := by
  have key := for_loop_inv2 n (adam_update_element env state bc1 bc2 i p)
    (adam_update_element_checked env state bc1 bc2 i p)
    (fun _ h => h.length = heap.length ∧
      (∀ q, q ≠ p → q ≠ mi → q ≠ vi → h[q]? = heap[q]?) ∧
      ∃ dp dm dv, h[p]? = some { tp with data := dp } ∧ dp.length = tp.data.length ∧
        h[mi]? = some { tm with data := dm } ∧ dm.length = tm.data.length ∧
        h[vi]? = some { tv with data := dv } ∧ dv.length = tv.data.length ∧
        ∀ x ∈ dv, 0 ≤ x)
    heap ⟨rfl, fun _ _ _ _ => rfl, tp.data, tm.data, tv.data, by simpa using hp, rfl,
      by simpa using htm, rfl, by simpa using htv, rfl, hv⟩
    (by
      rintro j h hj ⟨hl, hu, dp, dm, dv, hdp, hdpl, hdm, hdml, hdv, hdvl, hnn⟩
      have hold : 0 ≤ dv.getD j 0 := by
        rcases getD_mem_or_default dv j 0 with e | e
        · rw [e]
        · exact hnn _ e
      have hnew : 0 ≤ state.beta2 * dv.getD j 0 +
          (1 - state.beta2) * g.getD j 0 * g.getD j 0 :=
        second_moment_nonneg _ _ _ h0 h1 hold
      obtain ⟨h2, x, y, hrun, hrun2, hl2, hu2, hp2, hm2, hv2⟩ :=
        adam_update_element_spec env state bc1 bc2 h i p mi vi
          { tp with data := dp } { tm with data := dm } { tv with data := dv } g hmi hvi
          hpm hpv hmv hdp hdm hdv hg j (by show j < dp.length; omega)
          (by show j < dm.length; omega) (by show j < dv.length; omega) (by omega)
          hbc1 hbc2 hnew heps hsqrt
      refine ⟨h2, hrun, hrun2, by rw [hl2, hl], ?_, _, _, _, hp2, ?_, hm2, ?_, hv2, ?_, ?_⟩
      · intro q hq1 hq2 hq3
        rw [hu2 q hq1 hq2 hq3, hu q hq1 hq2 hq3]
      · simp [hdpl]
      · simp [hdml]
      · simp [hdvl]
      · intro z hz
        rcases List.mem_or_eq_of_mem_set hz with hz2 | hz2
        · exact hnn z hz2
        · rw [hz2]
          exact hnew)
  obtain ⟨h, hr, hr2, hl, hu, dp, dm, dv, a1, a2, a3, a4, a5, a6, a7⟩ := key
  exact ⟨h, dp, dm, dv, hr, hr2, hl, hu, a1, a3, a5, a2, a4, a6, a7⟩

end Core

namespace Core

/-- The bias correction `1 - beta ^ t` is positive for `0 ≤ beta < 1` and `t ≥ 1`. -/
theorem bias_correction_pos {α : Type} [LinearOrderedField α] (beta : α) (t : Int)
    (h0 : 0 ≤ beta) (h1 : beta < 1) (ht : 1 ≤ t) : 0 < 1 - beta ^ t := by
  obtain ⟨n, hn⟩ := Int.eq_ofNat_of_zero_le (Int.le_trans (by decide) ht)
  rw [hn, zpow_natCast]
  have hn0 : n ≠ 0 := by
    intro e
    rw [e] at hn
    rw [hn] at ht
    exact absurd ht (by decide)
  exact sub_pos.mpr (pow_lt_one₀ h0 h1 hn0)

theorem GradUpdate.keepsLayout {α : Type} {h h2 : Heap α} (hg : GradUpdate h h2) :
    KeepsLayout h h2 := by
  refine ⟨hg.1, ?_⟩
  intro q t hq
  obtain ⟨g, a, b⟩ := hg.2 q t hq
  exact ⟨_, a, rfl, rfl, Or.inr (fun gl e => b gl e)⟩

theorem GradUpdate.vNonneg {α : Type} [LinearOrderedField α] {h h2 : Heap α}
    (hg : GradUpdate h h2) {v : List Ptr} {n : Nat} (hv : VNonneg h v n) :
    VNonneg h2 v n := by
  intro i vi tv hi hvi htv x hx
  have hlt : vi < h.length := by
    rw [← hg.1]; exact heap_lt_of_getElem? htv
  obtain ⟨g, a, _⟩ := hg.2 vi h[vi] (List.getElem?_eq_getElem hlt)
  rw [htv] at a
  cases a
  exact hv i vi h[vi] hi hvi (List.getElem?_eq_getElem hlt) x hx

theorem example_grads_update (k : Nat) (h : Heap ℚ) : GradUpdate h (example_grads k h) := by
  refine ⟨by simp [example_grads], ?_⟩
  intro q t hq
  refine ⟨some (List.replicate t.size ((k : ℚ) - 1)), by simp [example_grads, hq], ?_⟩
  intro gl e
  cases e
  simp

/-- A heap that keeps the layout keeps an Adam optimizer well-formed, for any counter that
can still be incremented. -/
theorem AdamWellFormed.of_keepsLayout {α : Type} [LinearOrderedField α] {heap h2 : Heap α}
    {opt : Optimizer α} {state : AdamState α} {ps : List Ptr}
    (hwf : AdamWellFormed heap opt state ps) (hk : KeepsLayout heap h2)
    (opt2 : Optimizer α) (state2 : AdamState α)
    (hst : opt2.state = some (OptimizerState.adam state2))
    (hp : opt2.parameters = opt.parameters) (hn : opt2.num_parameters = opt.num_parameters)
    (hm : state2.m = state.m) (hv : state2.v = state.v) (hcnt : state2.t + 1 ≤ INT_MAX) :
    AdamWellFormed h2 opt2 state2 ps := by
  obtain ⟨_, hps, _, hnum, hml, hvl, hndp, hndm, hndv, hpm, hpv, hmv, hok, hmom⟩ := hwf
  refine ⟨hst, by rw [hp, hps], hcnt, by rw [hn]; exact hnum, by rw [hn, hm]; exact hml,
    by rw [hn, hv]; exact hvl, by rw [hn]; exact hndp, by rw [hn, hm]; exact hndm,
    by rw [hn, hv]; exact hndv, by rw [hn, hm]; exact hpm, by rw [hn, hv]; exact hpv,
    by rw [hn, hm, hv]; exact hmv, ?_, ?_⟩
  · intro i p hi hpi
    rw [hn] at hi
    obtain ⟨tp, htp, hsz, hgsz⟩ := hok i p hi hpi
    obtain ⟨t2, a, b, c, d⟩ := hk.2 p tp htp
    refine ⟨t2, a, by rw [b, c]; exact hsz, ?_⟩
    intro g hg
    rcases d with d | d
    · rw [b]
      exact hgsz g (by rw [← d, hg])
    · exact d g hg
  · intro i p mi vi tp2 hi hpi hmi hvi htp2
    rw [hn] at hi
    rw [hm] at hmi
    rw [hv] at hvi
    obtain ⟨tp, htp, _, _⟩ := hok i p hi hpi
    obtain ⟨t2, a, b, _, _⟩ := hk.2 p tp htp
    rw [htp2] at a
    cases a
    obtain ⟨tm, tv, htm, htv, hmsz, hvsz⟩ := hmom i p mi vi tp hi hpi hmi hvi htp
    obtain ⟨tm2, a1, _, c1, _⟩ := hk.2 mi tm htm
    obtain ⟨tv2, a2, _, c2, _⟩ := hk.2 vi tv htv
    exact ⟨tm2, tv2, a1, a2, by rw [b, c1]; exact hmsz, by rw [b, c2]; exact hvsz⟩

/-- A list whose entries are given by an injective function has no duplicates. -/
theorem nodup_of_getElem?_inj (l : List Ptr) (f : Nat → Ptr)
    (hf : ∀ i, i < l.length → l[i]? = some (f i)) (hinj : ∀ i k, f i = f k → i = k) :
    l.Nodup := by
  rw [List.nodup_iff_getElem?_ne_getElem?]
  intro i j hij hj e
  rw [hf i (Nat.lt_trans hij hj), hf j hj] at e
  exact Nat.ne_of_lt hij (hinj i j (Option.some.inj e))

theorem mem_take_getElem? {l : List Ptr} {n : Nat} {x : Ptr} (hx : x ∈ l.take n) :
    ∃ i, i < n ∧ l[i]? = some x := by
  obtain ⟨i, hi⟩ := List.getElem?_of_mem hx
  rw [List.getElem?_take] at hi
  by_cases hlt : i < n
  · exact ⟨i, hlt, by simpa [hlt] using hi⟩
  · simp [hlt] at hi

end Core

namespace Core

/-- One call of `adam_step` on a well-formed optimizer with `0 ≤ beta1 < 1`,
`0 ≤ beta2 < 1`, `epsilon > 0`, a counter that is not negative and second-moment elements
that are all non-negative: it returns with the counter incremented, the checked call
returns the same (every operand is usable where it is used), the layout of the heap is
kept, and the second-moment elements are still non-negative. -/
theorem adam_step_safe {α : Type} [LinearOrderedField α] (env : Env α) (heap : Heap α)
    (opt : Optimizer α) (state : AdamState α) (ps : List Ptr)
    (hwf : AdamWellFormed heap opt state ps) (hb1 : 0 ≤ state.beta1 ∧ state.beta1 < 1)
    (hb2 : 0 ≤ state.beta2 ∧ state.beta2 < 1) (heps : 0 < state.epsilon)
    (hsqrt : ∀ x, 0 ≤ x → 0 ≤ env.sqrtf x) (ht : 0 ≤ state.t)
    (hnn : VNonneg heap state.v opt.num_parameters) :
    ∃ heap2,
      adam_step env heap opt = some (heap2,
        { opt with
          state := some (OptimizerState.adam { state with t := state.t + 1 }) }) ∧
      adam_step_checked env heap opt = some (heap2,
        { opt with
          state := some (OptimizerState.adam { state with t := state.t + 1 }) }) ∧
      KeepsLayout heap heap2 ∧ VNonneg heap2 state.v opt.num_parameters := by
  obtain ⟨hst, hps, hcnt, hnum, hml, hvl, hndp, hndm, hndv, hpm, hpv, hmv, hok, hmom⟩ := hwf
  have h0 : 0 ≤ state.beta2 := hb2.1
  have h1 : state.beta2 ≤ 1 := le_of_lt hb2.2
  have ht1 : (1 : Int) ≤ state.t + 1 := by omega
  have hbc1 : 0 < 1 - state.beta1 ^ (state.t + 1) :=
    bias_correction_pos state.beta1 (state.t + 1) hb1.1 hb1.2 ht1
  have hbc2 : 0 < 1 - state.beta2 ^ (state.t + 1) :=
    bias_correction_pos state.beta2 (state.t + 1) hb2.1 hb2.2 ht1
  have hloop := for_loop_heap2 opt.num_parameters
    (fun i (heap : Heap α) => do
          let ps ← opt.parameters
          let param ← ps[i]?
          let tp ← heap[param]?
          if tp.grad.isNone then pure heap
          else
            for_loop tp.size
              (adam_update_element env { state with t := state.t + 1 }
                (1 - state.beta1 ^ (state.t + 1)) (1 - state.beta2 ^ (state.t + 1)) i param)
              heap)
    (fun i (heap : Heap α) => do
          let ps ← opt.parameters
          let param ← ps[i]?
          let tp ← heap[param]?
          if tp.grad.isNone then pure heap
          else
            for_loop tp.size
              (adam_update_element_checked env { state with t := state.t + 1 }
                (1 - state.beta1 ^ (state.t + 1)) (1 - state.beta2 ^ (state.t + 1)) i param)
              heap)
    heap
    (fun (k : Nat) (q : Ptr) =>
      ps[k]? = some q ∨ state.m[k]? = some q ∨ state.v[k]? = some q)
    (fun k h => ∀ (q : Ptr) (t : Tensor α),
      (ps[k]? = some q ∨ state.m[k]? = some q ∨ state.v[k]? = some q) → heap[q]? = some t →
      ∃ t2, h[q]? = some t2 ∧ t2.size = t.size ∧ t2.data.length = t.data.length ∧
        t2.grad = t.grad ∧ (state.v[k]? = some q → ∀ x ∈ t2.data, 0 ≤ x))
    (by
      intro i k hi hk hik q hFi hFk
      rcases hFi with h1 | h1 | h1
      · rcases hFk with h2 | h2 | h2
        · exact hik (take_index_inj hndp hi hk h1 h2)
        · exact take_append_disjoint hpm hi hk h1 h2
        · exact take_append_disjoint hpv hi hk h1 h2
      · rcases hFk with h2 | h2 | h2
        · exact take_append_disjoint hpm hk hi h2 h1
        · exact hik (take_index_inj hndm hi hk h1 h2)
        · exact take_append_disjoint hmv hi hk h1 h2
      · rcases hFk with h2 | h2 | h2
        · exact take_append_disjoint hpv hk hi h2 h1
        · exact take_append_disjoint hmv hk hi h2 h1
        · exact hik (take_index_inj hndv hi hk h1 h2))
    (by
      intro k h h2 hR hsame q t hF hq
      rw [hsame q hF]
      exact hR q t hF hq)
    (by
      intro k h hk hlen hcells
      have hpk : ps[k]? = some ps[k] := List.getElem?_eq_getElem (by omega)
      have hmk : state.m[k]? = some state.m[k] := List.getElem?_eq_getElem (by omega)
      have hvk : state.v[k]? = some state.v[k] := List.getElem?_eq_getElem (by omega)
      obtain ⟨tp, htp, hsz, hgsz⟩ := hok k ps[k] hk hpk
      have hhp : h[ps[k]]? = some tp := by rw [hcells _ (Or.inl hpk), htp]
      cases hgrad : tp.grad with
      | none =>
        refine ⟨h, ?_, ?_, rfl, fun _ _ => rfl, ?_⟩
        · simp only [hps, hpk, hhp, hgrad, Option.bind_eq_bind, Option.some_bind,
            Option.isNone_none, if_true]
          rfl
        · simp only [hps, hpk, hhp, hgrad, Option.bind_eq_bind, Option.some_bind,
            Option.isNone_none, if_true]
          rfl
        · intro q t hF hq
          refine ⟨t, by rw [hcells q hF, hq], rfl, rfl, rfl, ?_⟩
          intro hv
          exact hnn k q t hk hv hq
      | some g =>
        obtain ⟨tm, tv, htm, htv, hmsz, hvsz⟩ :=
          hmom k ps[k] state.m[k] state.v[k] tp hk hpk hmk hvk htp
        have hhm : h[state.m[k]]? = some tm := by
          rw [hcells _ (Or.inr (Or.inl hmk)), htm]
        have hhv : h[state.v[k]]? = some tv := by
          rw [hcells _ (Or.inr (Or.inr hvk)), htv]
        have hne1 : ps[k] ≠ state.m[k] := fun e =>
          take_append_disjoint hpm hk hk hpk (by rw [hmk, e])
        have hne2 : ps[k] ≠ state.v[k] := fun e =>
          take_append_disjoint hpv hk hk hpk (by rw [hvk, e])
        have hne3 : state.m[k] ≠ state.v[k] := fun e =>
          take_append_disjoint hmv hk hk hmk (by rw [hvk, e])
        obtain ⟨h2, dp, dm, dv, hl, hlc, hl2, hu, hp2, hm2, hv2, lp, lm, lv, hdv⟩ :=
          adam_loop_safe env { state with t := state.t + 1 } (1 - state.beta1 ^ (state.t + 1))
            (1 - state.beta2 ^ (state.t + 1)) h k ps[k] state.m[k] state.v[k] tp tm tv g
            hmk hvk hne1 hne2 hne3 hhp hhm hhv hgrad tp.size hsz hmsz hvsz (hgsz g hgrad)
            h0 h1 (hnn k state.v[k] tv hk hvk htv) hbc1 hbc2 heps hsqrt
        refine ⟨h2, ?_, ?_, hl2, ?_, ?_⟩
        · simp only [hps, hpk, hhp, hgrad, Option.bind_eq_bind, Option.some_bind,
            Option.isNone_some, Bool.false_eq_true, if_false]
          exact hl
        · simp only [hps, hpk, hhp, hgrad, Option.bind_eq_bind, Option.some_bind,
            Option.isNone_some, Bool.false_eq_true, if_false]
          exact hlc
        · intro q hq
          apply hu q
          · exact fun e => hq (Or.inl (by rw [e, hpk]))
          · exact fun e => hq (Or.inr (Or.inl (by rw [e, hmk])))
          · exact fun e => hq (Or.inr (Or.inr (by rw [e, hvk])))
        · intro q t hF hq
          rcases hF with hF | hF | hF
          · rw [hpk] at hF
            cases hF
            rw [htp] at hq
            cases hq
            refine ⟨_, hp2, rfl, lp, rfl, ?_⟩
            intro hv
            rw [hvk] at hv
            exact absurd (Option.some.inj hv).symm hne2
          · rw [hmk] at hF
            cases hF
            rw [htm] at hq
            cases hq
            refine ⟨_, hm2, rfl, lm, rfl, ?_⟩
            intro hv
            rw [hvk] at hv
            exact absurd (Option.some.inj hv).symm hne3
          · rw [hvk] at hF
            cases hF
            rw [htv] at hq
            cases hq
            exact ⟨_, hv2, rfl, lv, rfl, fun _ => hdv⟩)
  obtain ⟨h, hl, hlc, hlen, hout, hR⟩ := hloop
  refine ⟨h, ?_, ?_, ⟨hlen, ?_⟩, ?_⟩
  · simp only [adam_step, hst, if_pos hcnt]
    rw [hl]
    rfl
  · simp only [adam_step_checked, hst, if_pos hcnt, if_pos ht1]
    rw [hlc]
    rfl
  · intro q t hq
    by_cases hex : ∃ i, i < opt.num_parameters ∧
        (ps[i]? = some q ∨ state.m[i]? = some q ∨ state.v[i]? = some q)
    · obtain ⟨i, hi, hF⟩ := hex
      obtain ⟨t2, a, b, c, d, _⟩ := hR i hi q t hF hq
      exact ⟨t2, a, b, c, Or.inl d⟩
    · refine ⟨t, ?_, rfl, rfl, Or.inl rfl⟩
      rw [hout q (fun i hi hF => hex ⟨i, hi, hF⟩), hq]
  · intro i vi tv hi hvi htv x hx
    have hvlt : vi < heap.length := by
      rw [← hlen]; exact heap_lt_of_getElem? htv
    have hold : heap[vi]? = some heap[vi] := List.getElem?_eq_getElem hvlt
    obtain ⟨t2, a, _, _, _, e⟩ := hR i hi vi heap[vi] (Or.inr (Or.inr hvi)) hold
    rw [htv] at a
    cases a
    exact e hvi x hx

end Core

namespace Core

/-- The state built by `adam_init_state` over `num` distinct live parameters: the counter
is 0, the hyper-parameters are the ones given, every second-moment element is (zero, hence)
non-negative, and an optimizer over these parameters with this state is well-formed. -/
theorem adam_init_state_safe {α : Type} [LinearOrderedField α] (env : Env α) (heap : Heap α)
    (ps : List Ptr) (num : Nat) (p : AdamParams α) (hnum : num ≤ ps.length)
    (hnd : (ps.take num).Nodup)
    (hvalid : ∀ i q, i < num → ps[i]? = some q →
      ∃ tp, heap[q]? = some tp ∧ tp.shape.length ≤ tp.ndim ∧ tp.size ≤ tp.shape.prod ∧
        tp.size ≤ tp.data.length ∧ ∀ g, tp.grad = some g → tp.size ≤ g.length) :
    ∃ heap1 state,
      adam_init_state env heap (some ps) num (some (OptimizerParams.adam p)) =
        some (heap1, state) ∧
      state.t = 0 ∧ state.beta1 = p.beta1 ∧ state.beta2 = p.beta2 ∧
      state.epsilon = p.epsilon ∧ VNonneg heap1 state.v num ∧
      ∀ opt : Optimizer α, opt.parameters = some ps → opt.num_parameters = num →
        opt.state = some (OptimizerState.adam state) → AdamWellFormed heap1 opt state ps := by
  obtain ⟨h, ms, vs, hl, hlen, hold, hml, hvl, hdone⟩ :=
    adam_init_loop env heap ps num hnum (fun i q hi hq => by
      obtain ⟨tp, a, b, _⟩ := hvalid i q hi hq
      exact ⟨tp, a, b⟩)
  have hinit : adam_init_state env heap (some ps) num (some (OptimizerParams.adam p)) =
      some (h, { learning_rate := p.learning_rate, beta1 := p.beta1, beta2 := p.beta2,
                 epsilon := p.epsilon, t := 0, m := ms, v := vs }) := by
    simp only [adam_init_state]
    rw [hl]
    rfl
  -- the entries of the moment arrays
  have hent : ∀ i, i < num → ∃ tp tm tv, heap[ps[i]?.getD 0]? = some tp ∧
      ps[i]? = some (ps[i]?.getD 0) ∧
      ms[i]? = some (heap.length + 2 * i) ∧ vs[i]? = some (heap.length + 2 * i + 1) ∧
      h[heap.length + 2 * i]? = some tm ∧ h[heap.length + 2 * i + 1]? = some tv ∧
      ZeroLike tp tm ∧ ZeroLike tp tv ∧ tp.size ≤ tp.shape.prod := by
    intro i hi
    have hpi : ps[i]? = some ps[i] := List.getElem?_eq_getElem (by omega)
    obtain ⟨tp, a, _, c, _⟩ := hvalid i ps[i] hi hpi
    obtain ⟨tm, tv, b1, b2, b3, b4, b5, b6⟩ := hdone i ps[i] tp hi hpi a
    refine ⟨tp, tm, tv, ?_, ?_, b1, b2, b3, b4, b5, b6, c⟩
    · rw [hpi]; exact a
    · rw [hpi]; rfl
  have hmnd : (ms.take num).Nodup := by
    rw [List.take_of_length_le (by omega)]
    refine nodup_of_getElem?_inj ms (fun i => heap.length + 2 * i) ?_ (fun i k e => by
      have e2 : heap.length + 2 * i = heap.length + 2 * k := e
      omega)
    intro i hi
    obtain ⟨_, _, _, _, _, a, _⟩ := hent i (by omega)
    exact a
  have hvnd : (vs.take num).Nodup := by
    rw [List.take_of_length_le (by omega)]
    refine nodup_of_getElem?_inj vs (fun i => heap.length + 2 * i + 1) ?_ (fun i k e => by
      have e2 : heap.length + 2 * i + 1 = heap.length + 2 * k + 1 := e
      omega)
    intro i hi
    obtain ⟨_, _, _, _, _, _, a, _⟩ := hent i (by omega)
    exact a
  have hplt : ∀ x : Nat, x ∈ ps.take num → x < heap.length := by
    intro x hx
    obtain ⟨i, hi, hxi⟩ := mem_take_getElem? hx
    obtain ⟨tp, a, _⟩ := hvalid i x hi hxi
    exact heap_lt_of_getElem? a
  have hmge : ∀ x : Nat, x ∈ ms.take num → ∃ i, x = heap.length + 2 * i := by
    intro x hx
    obtain ⟨i, hi, hxi⟩ := mem_take_getElem? hx
    obtain ⟨_, _, _, _, _, a, _⟩ := hent i hi
    rw [a] at hxi
    exact ⟨i, (Option.some.inj hxi).symm⟩
  have hvge : ∀ x : Nat, x ∈ vs.take num → ∃ i, x = heap.length + 2 * i + 1 := by
    intro x hx
    obtain ⟨i, hi, hxi⟩ := mem_take_getElem? hx
    obtain ⟨_, _, _, _, _, _, a, _⟩ := hent i hi
    rw [a] at hxi
    exact ⟨i, (Option.some.inj hxi).symm⟩
  refine ⟨h, _, hinit, rfl, rfl, rfl, rfl, ?_, ?_⟩
  · intro i vi tv hi hvi htv x hx
    obtain ⟨tp, tm, tv2, _, _, _, a, _, b, _, c, _⟩ := hent i hi
    have e : vi = heap.length + 2 * i + 1 := by
      have hvi2 : vs[i]? = some vi := hvi
      rw [a] at hvi2
      exact (Option.some.inj hvi2).symm
    rw [e, b] at htv
    cases htv
    rw [c.2.2.2 x hx]
  · intro opt hps hn hst
    refine ⟨hst, hps, by show (0 : Int) + 1 ≤ INT_MAX; decide, by rw [hn]; exact hnum,
      by rw [hn]; exact Nat.le_of_eq hml.symm, by rw [hn]; exact Nat.le_of_eq hvl.symm,
      by rw [hn]; exact hnd, by rw [hn]; exact hmnd, by rw [hn]; exact hvnd, ?_, ?_, ?_,
      ?_, ?_⟩
    · rw [hn]
      refine List.Nodup.append hnd hmnd ?_
      intro x hx1 hx2
      have a := hplt x hx1
      obtain ⟨i, b⟩ := hmge x hx2
      rw [b] at a
      omega
    · rw [hn]
      refine List.Nodup.append hnd hvnd ?_
      intro x hx1 hx2
      have a := hplt x hx1
      obtain ⟨i, b⟩ := hvge x hx2
      rw [b] at a
      omega
    · rw [hn]
      refine List.Nodup.append hmnd hvnd ?_
      intro x hx1 hx2
      obtain ⟨i, a⟩ := hmge x hx1
      obtain ⟨k, b⟩ := hvge x hx2
      rw [a] at b
      omega
    · intro i q hi hq
      rw [hn] at hi
      obtain ⟨tp, a, _, _, c, d⟩ := hvalid i q hi hq
      exact ⟨tp, by rw [hold q (heap_lt_of_getElem? a), a], c, d⟩
    · intro i q mi vi tp2 hi hq hmi hvi htp2
      rw [hn] at hi
      obtain ⟨tp, tm, tv, a0, a1, a2, a3, a4, a5, a6, a7, a8⟩ := hent i hi
      have eq : ps[i]?.getD 0 = q := by rw [hq]; rfl
      rw [eq] at a0
      rw [hold q (heap_lt_of_getElem? a0), a0] at htp2
      cases htp2
      have e1 : mi = heap.length + 2 * i := by
        have hmi2 : ms[i]? = some mi := hmi
        rw [a2] at hmi2
        exact (Option.some.inj hmi2).symm
      have e2 : vi = heap.length + 2 * i + 1 := by
        have hvi2 : vs[i]? = some vi := hvi
        rw [a3] at hvi2
        exact (Option.some.inj hvi2).symm
      refine ⟨tm, tv, by rw [e1]; exact a4, by rw [e2]; exact a5, ?_, ?_⟩
      · rw [a6.2.2.1, a6.2.1]; exact a8
      · rw [a7.2.2.1, a7.2.1]; exact a8

end Core

namespace Core

/-- A run of `k` calls of `adam_step` from a well-formed optimizer with counter 0,
`0 ≤ beta1 < 1`, `0 ≤ beta2 < 1`, `epsilon > 0` and non-negative second moments, the
gradients being replaced before each call: while the counter fits an `int` every call
returns, the run of checked calls returns the same (in every call every operand is usable
where it is used), the counter is `k` afterwards, the second-moment elements are still
non-negative and the heap keeps its length. -/
theorem adam_steps_inv {α : Type} [LinearOrderedField α] (env : Env α)
    (grads : Nat → Heap α → Heap α) (hgrads : ∀ n h, GradUpdate h (grads n h))
    (heap1 : Heap α) (opt : Optimizer α) (state : AdamState α) (ps : List Ptr)
    (ht0 : state.t = 0) (hb1 : 0 ≤ state.beta1 ∧ state.beta1 < 1)
    (hb2 : 0 ≤ state.beta2 ∧ state.beta2 < 1) (heps : 0 < state.epsilon)
    (hsqrt : ∀ x, 0 ≤ x → 0 ≤ env.sqrtf x)
    (hwf : AdamWellFormed heap1 opt state ps)
    (hnn : VNonneg heap1 state.v opt.num_parameters) :
    ∀ k : Nat, (k : Int) ≤ INT_MAX →
      ∃ hk, adam_steps env grads k heap1 opt =
          some (hk, { opt with state := some (OptimizerState.adam { state with t := k }) }) ∧
        adam_steps_checked env grads k heap1 opt =
          some (hk, { opt with state := some (OptimizerState.adam { state with t := k }) }) ∧
        ((k : Int) + 1 ≤ INT_MAX →
          AdamWellFormed hk
            { opt with state := some (OptimizerState.adam { state with t := k }) }
            { state with t := k } ps) ∧
        hk.length = heap1.length ∧ VNonneg hk state.v opt.num_parameters := by
  intro k
  induction k with
  | zero =>
    intro _
    have es : ({ state with t := ((0 : Nat) : Int) } : AdamState α) = state := by
      cases state
      simp only at ht0
      rw [ht0]
      rfl
    have eo : ({ opt with state := some (OptimizerState.adam
        { state with t := ((0 : Nat) : Int) }) } : Optimizer α) = opt := by
      rw [es, ← hwf.state_eq]
    refine ⟨heap1, ?_, ?_, ?_, rfl, hnn⟩
    · rw [eo]; rfl
    · rw [eo]; rfl
    · intro _
      rw [eo, es]
      exact hwf
  | succ k ih =>
    intro hk1
    have hcast : ((k + 1 : Nat) : Int) = (k : Int) + 1 := by push_cast; rfl
    rw [hcast] at hk1
    obtain ⟨hk, hrun, hrunc, hwfk, hlenk, hnnk⟩ := ih (by omega)
    have hwfk2 := hwfk hk1
    have hg := hgrads k hk
    have hwfg : AdamWellFormed (grads k hk)
        { opt with state := some (OptimizerState.adam { state with t := k }) }
        { state with t := k } ps :=
      hwfk2.of_keepsLayout hg.keepsLayout _ _ rfl rfl rfl rfl rfl hk1
    obtain ⟨heap2, hstep, hstepc, hlay, hnn2⟩ := adam_step_safe env (grads k hk) _ _ ps hwfg
      hb1 hb2 heps hsqrt (Int.natCast_nonneg k) (hg.vNonneg hnnk)
    refine ⟨heap2, ?_, ?_, ?_, by rw [hlay.1, hg.1, hlenk], hnn2⟩
    · simp only [adam_steps, hrun]
      rw [hstep, hcast]
    · simp only [adam_steps_checked, hrunc]
      rw [hstepc, hcast]
    · intro hk2
      rw [hcast]
      exact hwfg.of_keepsLayout hlay _ _ rfl rfl rfl rfl rfl hk2

theorem example_params_ok :
    ∀ (i : Nat) (q : Ptr), i < 1 → ([0] : List Ptr)[i]? = some q →
      ∃ tp, example_heap[q]? = some tp ∧ tp.shape.length ≤ tp.ndim ∧
        tp.size ≤ tp.shape.prod ∧ tp.size ≤ tp.data.length ∧
        ∀ g, tp.grad = some g → tp.size ≤ g.length := by
  intro i q hi hq
  have hi0 : i = 0 := by omega
  rw [hi0] at hq
  cases hq
  refine ⟨example_param, rfl, by decide, by decide, by decide, ?_⟩
  intro g hg
  cases hg
  decide

end Core

namespace Core

/-- C15: for `0 ≤ beta1 < 1`, `0 ≤ beta2 < 1` and `epsilon > 0`, over distinct live
parameters, `adam_init_state` returns a state from which every run of `k ≥ 1` calls of
`adam_step` (with `k` within the range of the `int` counter, the gradient buffers being
replaced arbitrarily before each call, arithmetic exact, `sqrtf` non-negative on
non-negative arguments) returns, and the run of checked calls returns the same result: in
no call and for no element does a check at a point of use fail, the checks being `t ≥ 1`
where `powf` uses the counter, `1 - beta1 ^ t > 0` and `1 - beta2 ^ t > 0` where they
divide, `v ≥ 0` where the second moment is read back, `v_hat ≥ 0` where `sqrtf` takes it
and `sqrtf v_hat + epsilon > 0` where it divides. Afterwards the counter is `t = k ≥ 1`,
both bias corrections are positive, every second-moment element `v` is non-negative,
`v_hat = v / (1 - beta2 ^ t)` is non-negative and `sqrtf v_hat + epsilon` is positive. -/
theorem adam_steps_safe {α : Type} [LinearOrderedField α] (env : Env α) (heap : Heap α)
    (ps : List Ptr) (num : Nat) (p : AdamParams α) (grads : Nat → Heap α → Heap α)
    (hb1 : 0 ≤ p.beta1 ∧ p.beta1 < 1) (hb2 : 0 ≤ p.beta2 ∧ p.beta2 < 1)
    (heps : 0 < p.epsilon) (hsqrt : ∀ x, 0 ≤ x → 0 ≤ env.sqrtf x)
    (hnum : num ≤ ps.length) (hnd : (ps.take num).Nodup)
    (hvalid : ∀ i q, i < num → ps[i]? = some q →
      ∃ tp, heap[q]? = some tp ∧ tp.shape.length ≤ tp.ndim ∧ tp.size ≤ tp.shape.prod ∧
        tp.size ≤ tp.data.length ∧ ∀ g, tp.grad = some g → tp.size ≤ g.length)
    (hgrads : ∀ n h, GradUpdate h (grads n h)) :
    ∃ heap1 state,
      adam_init_state env heap (some ps) num (some (OptimizerParams.adam p)) =
        some (heap1, state) ∧
      ∀ opt : Optimizer α, opt.parameters = some ps → opt.num_parameters = num →
        opt.state = some (OptimizerState.adam state) →
        ∀ k : Nat, 1 ≤ k → (k : Int) ≤ INT_MAX →
          ∃ hk sk, adam_steps env grads k heap1 opt =
              some (hk, { opt with state := some (OptimizerState.adam sk) }) ∧
            adam_steps_checked env grads k heap1 opt =
              some (hk, { opt with state := some (OptimizerState.adam sk) }) ∧
            sk.t = k ∧ 1 ≤ sk.t ∧ sk.beta1 = p.beta1 ∧ sk.beta2 = p.beta2 ∧
            sk.epsilon = p.epsilon ∧
            0 < 1 - sk.beta1 ^ sk.t ∧ 0 < 1 - sk.beta2 ^ sk.t ∧
            ∀ (i : Nat) (vi : Ptr), i < num → sk.v[i]? = some vi →
              ∃ tv, hk[vi]? = some tv ∧ ∀ x ∈ tv.data,
                0 ≤ x ∧ 0 ≤ x / (1 - sk.beta2 ^ sk.t) ∧
                0 < env.sqrtf (x / (1 - sk.beta2 ^ sk.t)) + sk.epsilon := by
  obtain ⟨heap1, state, hinit, ht0, e1, e2, e3, hnn, hwf⟩ :=
    adam_init_state_safe env heap ps num p hnum hnd hvalid
  refine ⟨heap1, state, hinit, ?_⟩
  intro opt hps hn hst k hk1 hkmax
  have hwf1 := hwf opt hps hn hst
  rw [← hn] at hnn
  obtain ⟨hk, hrun, hrunc, _, hlenk, hnnk⟩ := adam_steps_inv env grads hgrads heap1 opt state
    ps ht0 (by rw [e1]; exact hb1) (by rw [e2]; exact hb2) (by rw [e3]; exact heps) hsqrt
    hwf1 hnn k hkmax
  have htk : (1 : Int) ≤ (k : Int) := by exact_mod_cast hk1
  have hbc1 : 0 < 1 - state.beta1 ^ (k : Int) := by
    rw [e1]; exact bias_correction_pos p.beta1 k hb1.1 hb1.2 htk
  have hbc2 : 0 < 1 - state.beta2 ^ (k : Int) := by
    rw [e2]; exact bias_correction_pos p.beta2 k hb2.1 hb2.2 htk
  refine ⟨hk, { state with t := k }, hrun, hrunc, rfl, htk, e1, e2, e3, hbc1, hbc2, ?_⟩
  intro i vi hi hvi
  have hvi2 : state.v[i]? = some vi := hvi
  -- the second-moment tensor is still on the heap
  have hlt : vi < hk.length := by
    have hi2 : i < opt.num_parameters := by rw [hn]; exact hi
    have hil : i < ps.length := by omega
    have hml : i < state.m.length := by
      have h := hwf1.m_le
      omega
    have hpi : ps[i]? = some ps[i] := List.getElem?_eq_getElem hil
    have hmi : state.m[i]? = some state.m[i] := List.getElem?_eq_getElem hml
    obtain ⟨tp, htp, _⟩ := hwf1.params_ok i ps[i] hi2 hpi
    obtain ⟨_, tv, _, htv, _⟩ :=
      hwf1.moments_ok i ps[i] state.m[i] vi tp hi2 hpi hmi hvi2 htp
    rw [hlenk]
    exact heap_lt_of_getElem? htv
  refine ⟨hk[vi], List.getElem?_eq_getElem hlt, ?_⟩
  intro x hx
  have hx0 : 0 ≤ x := by
    rw [← hn] at hi
    exact hnnk i vi hk[vi] hi hvi2 (List.getElem?_eq_getElem hlt) x hx
  have hvhat : 0 ≤ x / (1 - state.beta2 ^ (k : Int)) := div_nonneg hx0 (le_of_lt hbc2)
  refine ⟨hx0, hvhat, ?_⟩
  have hs := hsqrt _ hvhat
  have he : 0 < state.epsilon := by rw [e3]; exact heps
  exact add_pos_of_nonneg_of_pos hs he

end Core

namespace Core

/-- C15, instance: two calls of `adam_step` over the one-parameter list `[0]` of the example
heap with `beta1 = 9/10`, `beta2 = 99/100` and `epsilon = 1/100`, the gradient being `-1`
before the first call and `0` before the second. -/
theorem adam_steps_safe_witness :
    ∃ heap1 state,
      adam_init_state example_env example_heap (some [0]) 1
        (some (OptimizerParams.adam adam_example_params)) = some (heap1, state) ∧
      ∃ hk sk,
        adam_steps example_env example_grads 2 heap1
            { adam_example_opt with state := some (OptimizerState.adam state) } =
          some (hk, { adam_example_opt with state := some (OptimizerState.adam sk) }) ∧
        adam_steps_checked example_env example_grads 2 heap1
            { adam_example_opt with state := some (OptimizerState.adam state) } =
          some (hk, { adam_example_opt with state := some (OptimizerState.adam sk) }) ∧
        sk.t = 2 ∧ 0 < 1 - sk.beta1 ^ sk.t ∧ 0 < 1 - sk.beta2 ^ sk.t ∧
        ∀ (i : Nat) (vi : Ptr), i < 1 → sk.v[i]? = some vi →
          ∃ tv, hk[vi]? = some tv ∧ ∀ x ∈ tv.data,
            0 ≤ x ∧ 0 ≤ x / (1 - sk.beta2 ^ sk.t) ∧
            0 < example_env.sqrtf (x / (1 - sk.beta2 ^ sk.t)) + sk.epsilon := by
  obtain ⟨heap1, state, h1, h2⟩ := adam_steps_safe example_env example_heap [0] 1
    adam_example_params example_grads (by norm_num [adam_example_params])
    (by norm_num [adam_example_params]) (by norm_num [adam_example_params])
    (fun x hx => hx) (by decide) (by decide) example_params_ok example_grads_update
  obtain ⟨hk, sk, a, ac, b, _, _, _, _, g, h, i⟩ :=
    h2 { adam_example_opt with state := some (OptimizerState.adam state) } rfl rfl rfl 2
      (by decide) (by decide)
  exact ⟨heap1, state, h1, hk, sk, a, ac, b, g, h, i⟩

end Core
